import Mathlib

/-!
# ChessGame: a shallow embedding of the move engine

The definitions below follow `ChessGame.h` / `ChessGame.cpp` statement by
statement.  The `ChessBoard` object is a record that is passed in and returned
by every member function that writes to it (`isValidMove`, `movePiece`); the
`const` member functions only read it.  Coordinates are C++ `int`s and are
modelled by `Int`; the symbol of a piece is a `char` and is modelled by `Char`.
-/

namespace ChessGame

/-! ## Constants of `ChessGame.h` -/

def EMPTY : Char := '.'

def WHITE_KING : Char := 'K'

def WHITE_QUEEN : Char := 'Q'

def WHITE_ROOK : Char := 'R'

def WHITE_BISHOP : Char := 'B'

def WHITE_KNIGHT : Char := 'N'

def WHITE_PAWN : Char := 'P'

def BLACK_KING : Char := 'k'

def BLACK_QUEEN : Char := 'q'

def BLACK_ROOK : Char := 'r'

def BLACK_BISHOP : Char := 'b'

def BLACK_KNIGHT : Char := 'n'

def BLACK_PAWN : Char := 'p'

/-- The struct `ChessPiece`: symbol, colour and the has-moved mark. -/
structure ChessPiece where
  symbol : Char
  isWhite : Bool
  hasMoved : Bool
  deriving DecidableEq, Repr

/-- The constructor `ChessPiece(char s, bool color)`: `hasMoved` starts false. -/
def ChessPiece.new (s : Char) (color : Bool) : ChessPiece :=
  { symbol := s, isWhite := color, hasMoved := false }

/-- The value `ChessPiece(EMPTY)` (the colour parameter defaults to `true`);
it is also the default-constructed `ChessPiece`. -/
def emptyPiece : ChessPiece := ChessPiece.new EMPTY true

/-- The 8x8 grid `board[row][col]`, read as a function of the two indices. -/
abbrev Grid := Int → Int → ChessPiece

/-- The assignment `board[r][c] = p`. -/
def setSq (b : Grid) (r c : Int) (p : ChessPiece) : Grid :=
  fun r' c' => if r' = r ∧ c' = c then p else b r' c'

/-- The assignment `board[r][c].hasMoved = true`. -/
def markMoved (b : Grid) (r c : Int) : Grid :=
  setSq b r c { b r c with hasMoved := true }

/-- The value that a C++ `int` holds after an arithmetic result `x`: the
32-bit two's-complement value congruent to `x` modulo 2^32, between
-2147483648 and 2147483647.  Inside that range it is `x` itself; the
increment of 2147483647 gives -2147483648, as the compiled program does. -/
def wrapInt32 (x : Int) : Int := (x + 2147483648) % 4294967296 - 2147483648

/-- The data members of the class `ChessBoard`.  `halfMoveClock` and
`fullMoveNumber` are C++ `int`s: the values stored in them are 32-bit values,
and the two increments in `movePiece` go through `wrapInt32`. -/
structure ChessBoard where
  board : Grid
  lastMoveFrom : Int × Int
  lastMoveTo : Int × Int
  whiteCanCastleKingside : Bool
  whiteCanCastleQueenside : Bool
  blackCanCastleKingside : Bool
  blackCanCastleQueenside : Bool
  halfMoveClock : Int
  fullMoveNumber : Int

/-- The board indices in the order of the nested `for` loops (row outer,
column inner). -/
def squares : List (Int × Int) :=
  [0, 1, 2, 3, 4, 5, 6, 7].flatMap fun r => [0, 1, 2, 3, 4, 5, 6, 7].map fun c => (r, c)

/-! ## `resetBoard` and the constructor -/

/-- The two back ranks assigned in `resetBoard`, by column. -/
def backRank (white : Bool) (c : Int) : ChessPiece :=
  if c = 0 ∨ c = 7 then ChessPiece.new (if white then WHITE_ROOK else BLACK_ROOK) white
  else if c = 1 ∨ c = 6 then ChessPiece.new (if white then WHITE_KNIGHT else BLACK_KNIGHT) white
  else if c = 2 ∨ c = 5 then ChessPiece.new (if white then WHITE_BISHOP else BLACK_BISHOP) white
  else if c = 3 then ChessPiece.new (if white then WHITE_QUEEN else BLACK_QUEEN) white
  else ChessPiece.new (if white then WHITE_KING else BLACK_KING) white

/-- The member function `resetBoard`: every field is overwritten. -/
def resetBoard (s : ChessBoard) : ChessBoard :=
  { board := fun r c =>
      if 0 ≤ r ∧ r < 8 ∧ 0 ≤ c ∧ c < 8 then
        if r = 0 then backRank false c
        else if r = 1 then ChessPiece.new BLACK_PAWN false
        else if r = 6 then ChessPiece.new WHITE_PAWN true
        else if r = 7 then backRank true c
        else emptyPiece
      else s.board r c
    lastMoveFrom := (-1, -1)
    lastMoveTo := (-1, -1)
    whiteCanCastleKingside := true
    whiteCanCastleQueenside := true
    blackCanCastleKingside := true
    blackCanCastleQueenside := true
    halfMoveClock := 0
    fullMoveNumber := 1 }

/-- The constructor `ChessBoard()`: an 8x8 grid of `ChessPiece(EMPTY)`, then
`resetBoard`.  The scalar members are uninitialised before `resetBoard`
overwrites them. -/
def initialBoard : ChessBoard :=
  resetBoard
    { board := fun _ _ => emptyPiece
      lastMoveFrom := (0, 0)
      lastMoveTo := (0, 0)
      whiteCanCastleKingside := false
      whiteCanCastleQueenside := false
      blackCanCastleKingside := false
      blackCanCastleQueenside := false
      halfMoveClock := 0
      fullMoveNumber := 0 }

/-! ## The read-only queries -/

/-- The member function `isValidPosition`. -/
def isValidPosition (row col : Int) : Bool :=
  decide (row ≥ 0) && decide (row < 8) && decide (col ≥ 0) && decide (col < 8)

/-- The member function `findKing`: the first square in loop order that holds
the king symbol of the colour, or `(-1, -1)`. -/
def findKing (s : ChessBoard) (isWhite : Bool) : Int × Int :=
  match squares.find? fun p =>
      decide ((s.board p.1 p.2).symbol = (if isWhite then WHITE_KING else BLACK_KING)) with
  | some p => p
  | none => (-1, -1)

/-- The `while` loop of `isPathClear`, with a bound on its iterations.  From a
start on the board the walk leaves the board after at most eight steps, where
the body returns false, so the bound 8 used by `isPathClear` is never met. -/
def isPathClearLoop (s : ChessBoard) (rowStep colStep toRow toCol : Int) :
    Nat → Int → Int → Bool
  | 0, _, _ => false
  | fuel + 1, row, col =>
    if row ≠ toRow ∨ col ≠ toCol then
      if !isValidPosition row col || decide ((s.board row col).symbol ≠ EMPTY) then false
      else isPathClearLoop s rowStep colStep toRow toCol fuel (row + rowStep) (col + colStep)
    else true

/-- The member function `isPathClear`. -/
def isPathClear (s : ChessBoard) (fromRow fromCol toRow toCol : Int) : Bool :=
  let rowStep : Int := if toRow > fromRow then 1 else if toRow < fromRow then -1 else 0
  let colStep : Int := if toCol > fromCol then 1 else if toCol < fromCol then -1 else 0
  isPathClearLoop s rowStep colStep toRow toCol 8 (fromRow + rowStep) (fromCol + colStep)

/-- The member function `canPieceAttack` (a `switch` on the symbol). -/
def canPieceAttack (s : ChessBoard) (piece : ChessPiece)
    (fromRow fromCol toRow toCol : Int) : Bool :=
  let rowDiff := toRow - fromRow
  let colDiff := toCol - fromCol
  let absRowDiff := rowDiff.natAbs
  let absColDiff := colDiff.natAbs
  if piece.symbol = WHITE_PAWN then
    decide (rowDiff = -1) && decide (absColDiff = 1) &&
      decide ((s.board toRow toCol).symbol ≠ EMPTY) && !(s.board toRow toCol).isWhite
  else if piece.symbol = BLACK_PAWN then
    decide (rowDiff = 1) && decide (absColDiff = 1) &&
      decide ((s.board toRow toCol).symbol ≠ EMPTY) && (s.board toRow toCol).isWhite
  else if piece.symbol = WHITE_KING ∨ piece.symbol = BLACK_KING then
    decide (absRowDiff ≤ 1) && decide (absColDiff ≤ 1)
  else if piece.symbol = WHITE_QUEEN ∨ piece.symbol = BLACK_QUEEN then
    (decide (absRowDiff = absColDiff) || decide (fromRow = toRow) || decide (fromCol = toCol)) &&
      isPathClear s fromRow fromCol toRow toCol
  else if piece.symbol = WHITE_ROOK ∨ piece.symbol = BLACK_ROOK then
    (decide (fromRow = toRow) || decide (fromCol = toCol)) &&
      isPathClear s fromRow fromCol toRow toCol
  else if piece.symbol = WHITE_BISHOP ∨ piece.symbol = BLACK_BISHOP then
    decide (absRowDiff = absColDiff) && isPathClear s fromRow fromCol toRow toCol
  else if piece.symbol = WHITE_KNIGHT ∨ piece.symbol = BLACK_KNIGHT then
    (decide (absRowDiff = 2) && decide (absColDiff = 1)) ||
      (decide (absRowDiff = 1) && decide (absColDiff = 2))
  else false

/-- The member function `isKingInCheck`. -/
def isKingInCheck (s : ChessBoard) (isWhite : Bool) : Bool :=
  let kingPos := findKing s isWhite
  if kingPos.1 = -1 then false
  else squares.any fun p =>
    let piece := s.board p.1 p.2
    decide (piece.symbol ≠ EMPTY) && decide (piece.isWhite ≠ isWhite) &&
      canPieceAttack s piece p.1 p.2 kingPos.1 kingPos.2

/-! ## `isValidMove` -/

/-- The loop of `isValidMove` that checks the squares between king and rook,
`for (col = fromCol + step; col != rookCol; col += step)`, with a bound on its
iterations (at most six are run for squares on the board). -/
def betweenEmptyLoop (s : ChessBoard) (fromRow step rookCol : Int) : Nat → Int → Bool
  | 0, _ => false
  | fuel + 1, col =>
    if col ≠ rookCol then
      if (s.board fromRow col).symbol ≠ EMPTY then false
      else betweenEmptyLoop s fromRow step rookCol fuel (col + step)
    else true

/-- The loop `for (int i = 1; i <= 2; i++)` of `isValidMove` that walks the
king over the squares it crosses; the list argument holds the remaining values
of `i`.  The result is the return value together with the board as the loop
leaves it. -/
def castleSimLoop (isWhite : Bool) (fromRow fromCol step : Int) (tempKing : ChessPiece) :
    List Int → ChessBoard → Bool × ChessBoard
  | [], s => (true, { s with board := setSq s.board fromRow fromCol tempKing })
  | i :: rest, s =>
    let b1 := setSq s.board fromRow fromCol emptyPiece
    let b2 := setSq b1 fromRow (fromCol + i * step) tempKing
    if isKingInCheck { s with board := b2 } isWhite then
      let b3 := setSq b2 fromRow fromCol tempKing
      let b4 := setSq b3 fromRow (fromCol + i * step) emptyPiece
      (false, { s with board := b4 })
    else
      let b3 := setSq b2 fromRow (fromCol + i * step) emptyPiece
      castleSimLoop isWhite fromRow fromCol step tempKing rest { s with board := b3 }

/-- The castling branch of `isValidMove` (the body of
`if (!piece.hasMoved && fromRow == toRow && absColDiff == 2)`). -/
def castlingBranch (s : ChessBoard) (piece : ChessPiece)
    (fromRow fromCol toCol : Int) : Bool × ChessBoard :=
  let colDiff := toCol - fromCol
  let kingside : Bool := decide (colDiff > 0)
  let rookCol : Int := if kingside then 7 else 0
  let canCastleKingside :=
    if piece.isWhite then s.whiteCanCastleKingside else s.blackCanCastleKingside
  let canCastleQueenside :=
    if piece.isWhite then s.whiteCanCastleQueenside else s.blackCanCastleQueenside
  if (kingside && !canCastleKingside) || (!kingside && !canCastleQueenside) then (false, s)
  else if decide ((s.board fromRow rookCol).symbol ≠
        (if piece.isWhite then WHITE_ROOK else BLACK_ROOK)) ||
      (s.board fromRow rookCol).hasMoved || isKingInCheck s piece.isWhite then (false, s)
  else
    let step : Int := if kingside then 1 else -1
    if !betweenEmptyLoop s fromRow step rookCol 8 (fromCol + step) then (false, s)
    else
      let tempKing := s.board fromRow fromCol
      castleSimLoop piece.isWhite fromRow fromCol step tempKing [1, 2] s

/-- The member function `isValidMove`.  It is not `const`: the castling branch
writes to the board, so the board is returned with the answer. -/
def isValidMove (s : ChessBoard) (piece : ChessPiece)
    (fromRow fromCol toRow toCol : Int) : Bool × ChessBoard :=
  if !isValidPosition fromRow fromCol || !isValidPosition toRow toCol then (false, s)
  else if fromRow = toRow ∧ fromCol = toCol then (false, s)
  else
    let rowDiff := toRow - fromRow
    let colDiff := toCol - fromCol
    let absRowDiff := rowDiff.natAbs
    let absColDiff := colDiff.natAbs
    if (s.board toRow toCol).symbol ≠ EMPTY ∧ (s.board toRow toCol).isWhite = piece.isWhite then
      (false, s)
    else if piece.symbol = WHITE_PAWN then
      if fromCol = toCol ∧ rowDiff < 0 ∧ (s.board toRow toCol).symbol = EMPTY ∧
          (rowDiff = -1 ∨
            (rowDiff = -2 ∧ fromRow = 6 ∧ (s.board (fromRow - 1) fromCol).symbol = EMPTY)) then
        (true, s)
      else if rowDiff = -1 ∧ absColDiff = 1 ∧
          (((s.board toRow toCol).symbol ≠ EMPTY ∧ (s.board toRow toCol).isWhite = false) ∨
            (toRow = 5 ∧ s.lastMoveTo = (6, toCol) ∧ s.lastMoveFrom = (4, toCol) ∧
              (s.board 6 toCol).symbol = BLACK_PAWN)) then
        (true, s)
      else (false, s)
    else if piece.symbol = BLACK_PAWN then
      if fromCol = toCol ∧ rowDiff > 0 ∧ (s.board toRow toCol).symbol = EMPTY ∧
          (rowDiff = 1 ∨
            (rowDiff = 2 ∧ fromRow = 1 ∧ (s.board (fromRow + 1) fromCol).symbol = EMPTY)) then
        (true, s)
      else if rowDiff = 1 ∧ absColDiff = 1 ∧
          (((s.board toRow toCol).symbol ≠ EMPTY ∧ (s.board toRow toCol).isWhite = true) ∨
            (toRow = 2 ∧ s.lastMoveTo = (1, toCol) ∧ s.lastMoveFrom = (3, toCol) ∧
              (s.board 1 toCol).symbol = WHITE_PAWN)) then
        (true, s)
      else (false, s)
    else if piece.symbol = WHITE_KING ∨ piece.symbol = BLACK_KING then
      if absRowDiff ≤ 1 ∧ absColDiff ≤ 1 then (true, s)
      else if piece.hasMoved = false ∧ fromRow = toRow ∧ absColDiff = 2 then
        castlingBranch s piece fromRow fromCol toCol
      else (false, s)
    else (canPieceAttack s piece fromRow fromCol toRow toCol, s)

/-! ## `movePiece` -/

/-- What a call of `movePiece` leaves behind: the return value, the board
object, and the two capture vectors that are passed by reference. -/
structure MoveResult where
  ok : Bool
  state : ChessBoard
  whiteCaptures : List Char
  blackCaptures : List Char

/-- The column decoding `move[0] - 'a'` of `movePiece`. -/
def decodeCol (ch : Char) : Int := (ch.toNat : Int) - ('a'.toNat : Int)

/-- The row decoding `8 - (move[1] - '0')` of `movePiece`. -/
def decodeRow (ch : Char) : Int := 8 - ((ch.toNat : Int) - ('0'.toNat : Int))

/-- The flag `isPawnMove` of `movePiece`. -/
def isPawnMoveFlag (piece : ChessPiece) : Bool :=
  decide (piece.symbol = WHITE_PAWN) || decide (piece.symbol = BLACK_PAWN)

/-- The flag `isCastling` of `movePiece`: a king that moves two columns. -/
def isCastlingFlag (piece : ChessPiece) (fromCol toCol : Int) : Bool :=
  (decide (piece.symbol = WHITE_KING) || decide (piece.symbol = BLACK_KING)) &&
    decide ((toCol - fromCol).natAbs = 2)

/-- The flag `isEnPassant` of `movePiece`: a pawn that moves one column
sideways onto an empty square of row 5 (white) or row 2 (black). -/
def isEnPassantFlag (b : Grid) (piece : ChessPiece) (fromCol toRow toCol : Int) : Bool :=
  isPawnMoveFlag piece && decide ((toCol - fromCol).natAbs = 1) &&
    decide ((b toRow toCol).symbol = EMPTY) &&
    ((piece.isWhite && decide (toRow = 5)) || (!piece.isWhite && decide (toRow = 2)))

/-- The value given to `rookFromCol` inside `if (isCastling)`. -/
def rookFromColOf (fromCol toCol : Int) : Int := if toCol > fromCol then 7 else 0

/-- The value given to `rookToCol` inside `if (isCastling)`. -/
def rookToColOf (fromCol toCol : Int) : Int :=
  if toCol > fromCol then fromCol + 1 else fromCol - 1

/-- The row `capturedRow` of the pawn removed by an en passant move. -/
def capturedRowOf (piece : ChessPiece) (toRow : Int) : Int :=
  toRow + (if piece.isWhite then 1 else -1)

/-- The first three board writes of a move (speculative and final alike):
`board[fromRow][fromCol] = ChessPiece(EMPTY);`
`board[toRow][toCol] = ChessPiece(piece.symbol, piece.isWhite);`
`board[toRow][toCol].hasMoved = true;`. -/
def placeMover (b : Grid) (piece : ChessPiece) (fromRow fromCol toRow toCol : Int) : Grid :=
  let b1 := setSq b fromRow fromCol emptyPiece
  let b2 := setSq b1 toRow toCol (ChessPiece.new piece.symbol piece.isWhite)
  markMoved b2 toRow toCol

/-- The rook relocation of a castling move, the same statements in the
speculative and in the final part of `movePiece`:
`board[fromRow][rookToCol] = board[fromRow][rookFromCol];`
`board[fromRow][rookFromCol] = ChessPiece(EMPTY);`
`board[fromRow][rookToCol].hasMoved = true;`. -/
def relocateRook (b : Grid) (fromRow rookFromCol rookToCol : Int) : Grid :=
  let b1 := setSq b fromRow rookToCol (b fromRow rookFromCol)
  let b2 := setSq b1 fromRow rookFromCol emptyPiece
  markMoved b2 fromRow rookToCol

/-- The board after the mover is placed and, for a castling move, the rook is
relocated. -/
def rookStage (b : Grid) (piece : ChessPiece) (fromRow fromCol toRow toCol : Int)
    (isCastling : Bool) : Grid :=
  let b1 := placeMover b piece fromRow fromCol toRow toCol
  if isCastling then
    relocateRook b1 fromRow (rookFromColOf fromCol toCol) (rookToColOf fromCol toCol)
  else b1

/-- The promotion block of `movePiece` (it occurs twice, with the same text):
the case of the promotion character is adjusted to the mover, anything other
than `'Q'`, `'R'`, `'B'`, `'N'` becomes `'Q'`, and the symbol is written. -/
def promoteSq (b : Grid) (piece : ChessPiece) (isPawnMove : Bool) (toRow toCol : Int)
    (promotion : Char) : Grid :=
  if isPawnMove ∧ (toRow = 0 ∨ toRow = 7) then
    let promoted := if piece.isWhite then promotion.toUpper else promotion.toLower
    let promoted :=
      if promoted ≠ 'Q' ∧ promoted ≠ 'R' ∧ promoted ≠ 'B' ∧ promoted ≠ 'N' then 'Q'
      else promoted
    setSq b toRow toCol { b toRow toCol with symbol := promoted }
  else b

/-- All board writes of a move, in the order of the source: the mover, the
rook of a castling move, the pawn removed by an en passant move, the
promotion.  `movePiece` runs them twice, first speculatively, then for good. -/
def applyToGrid (b : Grid) (piece : ChessPiece) (fromRow fromCol toRow toCol : Int)
    (isPawnMove isCastling isEnPassant : Bool) (promotion : Char) : Grid :=
  let b2 := rookStage b piece fromRow fromCol toRow toCol isCastling
  let b3 := if isEnPassant then setSq b2 (capturedRowOf piece toRow) toCol emptyPiece else b2
  promoteSq b3 piece isPawnMove toRow toCol promotion

/-- The undo block of `movePiece`: the two primary squares, then the rook
squares of a castling move, then the pawn of an en passant move. -/
def undoGrid (b : Grid) (fromRow fromCol toRow toCol : Int)
    (originalPiece originalToPiece : ChessPiece)
    (isCastling : Bool) (rookFromCol rookToCol : Int) (originalRook : ChessPiece)
    (isEnPassant : Bool) (capturedRow : Int) (enPassantCaptured : ChessPiece) : Grid :=
  let b1 := setSq b fromRow fromCol originalPiece
  let b2 := setSq b1 toRow toCol originalToPiece
  let b3 :=
    if isCastling then
      setSq (setSq b2 fromRow rookFromCol originalRook) fromRow rookToCol emptyPiece
    else b2
  if isEnPassant then setSq b3 capturedRow toCol enPassantCaptured else b3

/-- The board on which `movePiece` tests for check (source lines 277-303):
the move applied speculatively to the board `b`, under the flags computed
from `b` (lines 260-264). -/
def speculativeGrid (b : Grid) (piece : ChessPiece) (fromRow fromCol toRow toCol : Int)
    (promotion : Char) : Grid :=
  applyToGrid b piece fromRow fromCol toRow toCol (isPawnMoveFlag piece)
    (isCastlingFlag piece fromCol toCol) (isEnPassantFlag b piece fromCol toRow toCol) promotion

/-- The local `originalRook`: default-constructed, and inside the speculative
`if (isCastling)` set to `board[fromRow][rookFromCol]`, read after the mover has
been placed. -/
def originalRookOf (b : Grid) (piece : ChessPiece) (fromRow fromCol toRow toCol : Int) :
    ChessPiece :=
  if isCastlingFlag piece fromCol toCol then
    placeMover b piece fromRow fromCol toRow toCol fromRow (rookFromColOf fromCol toCol)
  else emptyPiece

/-- The local `enPassantCaptured`: default-constructed, and inside the
speculative `if (isEnPassant)` set to `board[capturedRow][toCol]`, read after
the mover has been placed and the rook of a castling move relocated. -/
def enPassantCapturedOf (b : Grid) (piece : ChessPiece) (fromRow fromCol toRow toCol : Int) :
    ChessPiece :=
  if isEnPassantFlag b piece fromCol toRow toCol then
    rookStage b piece fromRow fromCol toRow toCol (isCastlingFlag piece fromCol toCol)
      (capturedRowOf piece toRow) toCol
  else emptyPiece

/-- The board after the undo block of `movePiece` (source lines 308-320). -/
def undoneGrid (b : Grid) (piece : ChessPiece) (fromRow fromCol toRow toCol : Int)
    (promotion : Char) : Grid :=
  undoGrid (speculativeGrid b piece fromRow fromCol toRow toCol promotion)
    fromRow fromCol toRow toCol (b fromRow fromCol) (b toRow toCol)
    (isCastlingFlag piece fromCol toCol) (rookFromColOf fromCol toCol)
    (rookToColOf fromCol toCol) (originalRookOf b piece fromRow fromCol toRow toCol)
    (isEnPassantFlag b piece fromCol toRow toCol) (capturedRowOf piece toRow)
    (enPassantCapturedOf b piece fromRow fromCol toRow toCol)

/-- The board that an accepted `movePiece` leaves (source lines 328-356): the
move applied again, to the undone board, under the flags computed before the
speculative move. -/
def finalGrid (b : Grid) (piece : ChessPiece) (fromRow fromCol toRow toCol : Int)
    (promotion : Char) : Grid :=
  applyToGrid (undoneGrid b piece fromRow fromCol toRow toCol promotion) piece
    fromRow fromCol toRow toCol (isPawnMoveFlag piece)
    (isCastlingFlag piece fromCol toCol) (isEnPassantFlag b piece fromCol toRow toCol) promotion

/-- The position in which `movePiece` tests the mover for check
(`kingInCheckAfter`): the speculative board and the speculative last-move
pair. -/
def speculativeState (s : ChessBoard) (piece : ChessPiece) (fromRow fromCol toRow toCol : Int)
    (promotion : Char) : ChessBoard :=
  { s with board := speculativeGrid s.board piece fromRow fromCol toRow toCol promotion
           lastMoveFrom := (fromRow, fromCol)
           lastMoveTo := (toRow, toCol) }

/-- The final value of the local `isCapture`: the destination was occupied,
or the move is an en passant move. -/
def isCaptureFlag (b : Grid) (piece : ChessPiece) (fromCol toRow toCol : Int) : Bool :=
  if isEnPassantFlag b piece fromCol toRow toCol then true
  else decide ((b toRow toCol).symbol ≠ EMPTY)

/-- The value of a kingside castling flag after an accepted move.  `own` says
whether the flag belongs to the colour `piece.isWhite`, `rook` and `king` are
the rook and king symbols of the flag's colour, `old` is the flag before.  The
writes are, in source order: the castling block (lines 340-344), the rook block
(`else if (fromCol == 7)`, lines 358-365), the king line (lines 366-367). -/
def kingsideAfter (old own : Bool) (rook king : Char) (piece : ChessPiece)
    (fromCol toCol : Int) : Bool :=
  let f := if isCastlingFlag piece fromCol toCol ∧ own then false else old
  let f :=
    if piece.symbol = rook ∧ piece.hasMoved = false ∧ fromCol ≠ 0 ∧ fromCol = 7 then false else f
  if piece.symbol = king then false else f

/-- The value of a queenside castling flag after an accepted move (the rook
block clears it `if (fromCol == 0)`). -/
def queensideAfter (old own : Bool) (rook king : Char) (piece : ChessPiece)
    (fromCol toCol : Int) : Bool :=
  let f := if isCastlingFlag piece fromCol toCol ∧ own then false else old
  let f := if piece.symbol = rook ∧ piece.hasMoved = false ∧ fromCol = 0 then false else f
  if piece.symbol = king then false else f

/-- The part of `movePiece` after `isValidMove` has accepted: the speculative
move, the test for check, the undo, and the final move with its bookkeeping.
`s` is the board as `isValidMove` left it. -/
def movePieceCore (s : ChessBoard) (piece : ChessPiece) (fromRow fromCol toRow toCol : Int)
    (isWhiteTurn : Bool) (promotion : Char) (whiteCaptures blackCaptures : List Char) :
    MoveResult :=
  let isCapture := isCaptureFlag s.board piece fromCol toRow toCol
  let isPawnMove := isPawnMoveFlag piece
  let originalToPiece := s.board toRow toCol
  let originalLastMoveFrom := s.lastMoveFrom
  let originalLastMoveTo := s.lastMoveTo
  let kingInCheckBefore := isKingInCheck s isWhiteTurn
  let kingInCheckAfter :=
    isKingInCheck (speculativeState s piece fromRow fromCol toRow toCol promotion) isWhiteTurn
  let invalidMove : Bool :=
    (kingInCheckBefore && kingInCheckAfter) || (!kingInCheckBefore && kingInCheckAfter)
  if invalidMove then
    { ok := false
      state :=
        { s with board := undoneGrid s.board piece fromRow fromCol toRow toCol promotion
                 lastMoveFrom := originalLastMoveFrom
                 lastMoveTo := originalLastMoveTo }
      whiteCaptures := whiteCaptures
      blackCaptures := blackCaptures }
  else
    { ok := true
      state :=
        { board := finalGrid s.board piece fromRow fromCol toRow toCol promotion
          lastMoveFrom := (fromRow, fromCol)
          lastMoveTo := (toRow, toCol)
          whiteCanCastleKingside :=
            kingsideAfter s.whiteCanCastleKingside piece.isWhite WHITE_ROOK WHITE_KING
              piece fromCol toCol
          whiteCanCastleQueenside :=
            queensideAfter s.whiteCanCastleQueenside piece.isWhite WHITE_ROOK WHITE_KING
              piece fromCol toCol
          blackCanCastleKingside :=
            kingsideAfter s.blackCanCastleKingside (!piece.isWhite) BLACK_ROOK BLACK_KING
              piece fromCol toCol
          blackCanCastleQueenside :=
            queensideAfter s.blackCanCastleQueenside (!piece.isWhite) BLACK_ROOK BLACK_KING
              piece fromCol toCol
          halfMoveClock :=
            if isCapture ∨ isPawnMove then 0 else wrapInt32 (s.halfMoveClock + 1)
          fullMoveNumber :=
            if isWhiteTurn then s.fullMoveNumber else wrapInt32 (s.fullMoveNumber + 1) }
      whiteCaptures :=
        if isCapture ∧ isWhiteTurn then whiteCaptures ++ [originalToPiece.symbol]
        else whiteCaptures
      blackCaptures :=
        if isCapture ∧ ¬ isWhiteTurn then blackCaptures ++ [originalToPiece.symbol]
        else blackCaptures }

/-- The member function `movePiece`.  The move text is a `std::string`; it is
decoded when it has five characters, the third a space. -/
def movePiece (s : ChessBoard) (move : String) (isWhiteTurn : Bool) (promotion : Char)
    (whiteCaptures blackCaptures : List Char) : MoveResult :=
  match move.data with
  | [m0, m1, m2, m3, m4] =>
    if m2 ≠ ' ' then
      { ok := false, state := s, whiteCaptures := whiteCaptures, blackCaptures := blackCaptures }
    else
      let fromCol := decodeCol m0
      let fromRow := decodeRow m1
      let toCol := decodeCol m3
      let toRow := decodeRow m4
      if !isValidPosition fromRow fromCol || !isValidPosition toRow toCol then
        { ok := false, state := s, whiteCaptures := whiteCaptures,
          blackCaptures := blackCaptures }
      else
        let piece := s.board fromRow fromCol
        if piece.symbol = EMPTY ∨ piece.isWhite ≠ isWhiteTurn then
          { ok := false, state := s, whiteCaptures := whiteCaptures,
            blackCaptures := blackCaptures }
        else
          let v := isValidMove s piece fromRow fromCol toRow toCol
          if !v.1 then
            { ok := false, state := v.2, whiteCaptures := whiteCaptures,
              blackCaptures := blackCaptures }
          else
            movePieceCore v.2 piece fromRow fromCol toRow toCol isWhiteTurn promotion
              whiteCaptures blackCaptures
  | _ =>
    { ok := false, state := s, whiteCaptures := whiteCaptures, blackCaptures := blackCaptures }

/-! ## Positions read from a file -/

/-- The piece built by `loadGame` for a character of a board line:
`ChessPiece(line[col], line[col] >= 'A' && line[col] <= 'Z')`. -/
def loadedPiece (ch : Char) : ChessPiece :=
  ChessPiece.new ch (decide ('A' ≤ ch) && decide (ch ≤ 'Z'))

/-- The board that the row loop of `loadGame` builds from eight lines of at
least eight characters over an earlier board `b`. -/
def loadRows (b : Grid) (rows : List (List Char)) : Grid :=
  fun r c =>
    if 0 ≤ r ∧ r < 8 ∧ 0 ≤ c ∧ c < 8 then
      match rows.get? r.toNat with
      | some line =>
        if line.length ≥ 8 then
          match line.get? c.toNat with
          | some ch => loadedPiece ch
          | none => b r c
        else b r c
      | none => b r c
    else b r c


/-! ## Relations between board objects used in the statements -/

/-- Two board objects that agree on every data member other than the grid. -/
def SameScalars (s t : ChessBoard) : Prop :=
  t.lastMoveFrom = s.lastMoveFrom ∧ t.lastMoveTo = s.lastMoveTo ∧
  t.whiteCanCastleKingside = s.whiteCanCastleKingside ∧
  t.whiteCanCastleQueenside = s.whiteCanCastleQueenside ∧
  t.blackCanCastleKingside = s.blackCanCastleKingside ∧
  t.blackCanCastleQueenside = s.blackCanCastleQueenside ∧
  t.halfMoveClock = s.halfMoveClock ∧ t.fullMoveNumber = s.fullMoveNumber

/-- Every castling flag that is false in `s` is false in `t`. -/
def FlagsStayFalse (s t : ChessBoard) : Prop :=
  (s.whiteCanCastleKingside = false → t.whiteCanCastleKingside = false) ∧
  (s.whiteCanCastleQueenside = false → t.whiteCanCastleQueenside = false) ∧
  (s.blackCanCastleKingside = false → t.blackCanCastleKingside = false) ∧
  (s.blackCanCastleQueenside = false → t.blackCanCastleQueenside = false)

/-- Two grids that an observer of the pieces cannot tell apart: every square
has the same symbol, and every square that is not empty has the same colour.
(The colour and the has-moved mark of an empty square are never read.) -/
def SameView (b b' : Grid) : Prop :=
  ∀ r c, (b r c).symbol = (b' r c).symbol ∧
    ((b r c).symbol ≠ EMPTY → (b r c).isWhite = (b' r c).isWhite)

/-- The grid with the king taken off `(fromRow, fromCol)` and put on column
`col` of the same row: the position that the castling branch of `isValidMove`
tests for check. -/
def kingAt (b : Grid) (fromRow fromCol col : Int) (king : ChessPiece) : Grid :=
  setSq (setSq b fromRow fromCol emptyPiece) fromRow col king

/-- The castling flag that `isValidMove` consults for a king of colour `white`
moving towards the kingside (`kingside = true`) or the queenside. -/
def castlingFlagOf (s : ChessBoard) (white kingside : Bool) : Bool :=
  if white then (if kingside then s.whiteCanCastleKingside else s.whiteCanCastleQueenside)
  else (if kingside then s.blackCanCastleKingside else s.blackCanCastleQueenside)

/-- The board object `s` with its grid replaced by `b`. -/
def ChessBoard.withGrid (s : ChessBoard) (b : Grid) : ChessBoard := { s with board := b }

/-- A position as `loadGame` builds it from a file (eight board lines over a
fresh board, the header flags all `1`, clocks `0` and `1`): both sides have
their king and rooks at home, nothing between them. -/
def castlingPosition : ChessBoard :=
  { board := loadRows initialBoard.board
      ["r...k..r".data, "........".data, "........".data, "........".data,
       "........".data, "........".data, "........".data, "R...K..R".data]
    lastMoveFrom := (-1, -1)
    lastMoveTo := (-1, -1)
    whiteCanCastleKingside := true
    whiteCanCastleQueenside := true
    blackCanCastleKingside := true
    blackCanCastleQueenside := true
    halfMoveClock := 0
    fullMoveNumber := 1 }

/-- Rook symbols carry their colour: on every square of the board, `'R'` is
white and `'r'` is black.  Every piece that the program builds satisfies
this: `resetBoard` and `loadGame` give an upper-case symbol the colour white
and a lower-case symbol the colour black, `movePiece` copies symbol and
colour together, and a promotion writes `'R'` for a white mover only. -/
def RooksCarryColour (s : ChessBoard) : Prop :=
  ∀ r c, isValidPosition r c = true →
    ((s.board r c).symbol = WHITE_ROOK → (s.board r c).isWhite = true) ∧
    ((s.board r c).symbol = BLACK_ROOK → (s.board r c).isWhite = false)

/-- The grid `b'` is the grid `b` up to empty squares: every square of `b'`
holds what it holds in `b`, or it is empty in `b` and holds the value
`ChessPiece(EMPTY)` in `b'`. -/
def SameUpToEmpty (b b' : Grid) : Prop :=
  ∀ r c, b' r c = b r c ∨ ((b r c).symbol = EMPTY ∧ b' r c = emptyPiece)

/-- A position as `loadGame` builds it over a fresh board from the text
`1 1 1 1 0 1` / `....k.r.` / six lines `........` / `....K..R`: white may
still castle, and the black rook on g8 looks down the open g-file at g1.  The
empty squares are `ChessPiece('.', false)`, as `loadGame` constructs them. -/
def guardedCastlingPosition : ChessBoard :=
  { board := loadRows initialBoard.board
      ["....k.r.".data, "........".data, "........".data, "........".data,
       "........".data, "........".data, "........".data, "....K..R".data]
    lastMoveFrom := (-1, -1)
    lastMoveTo := (-1, -1)
    whiteCanCastleKingside := true
    whiteCanCastleQueenside := true
    blackCanCastleKingside := true
    blackCanCastleQueenside := true
    halfMoveClock := 0
    fullMoveNumber := 1 }

/-- One call of `movePiece` as the game loop `ChessGame::start` issues it:
the move text, the side to move and the promotion character. -/
structure Call where
  move : String
  isWhiteTurn : Bool
  promotion : Char

/-- A sequence of `movePiece` calls on one board object, each call working on
the board and the capture vectors that the previous call left (whether it
returned true or false).  The result is that of the last call. -/
def runCalls (r : MoveResult) : List Call → MoveResult
  | [] => r
  | k :: rest =>
    runCalls (movePiece r.state k.move k.isWhiteTurn k.promotion r.whiteCaptures
      r.blackCaptures) rest

/-- Whether every call of the sequence returns true. -/
def allAccepted (r : MoveResult) : List Call → Bool
  | [] => true
  | k :: rest =>
    (movePiece r.state k.move k.isWhiteTurn k.promotion r.whiteCaptures r.blackCaptures).ok &&
      allAccepted (movePiece r.state k.move k.isWhiteTurn k.promotion r.whiteCaptures
        r.blackCaptures) rest

/-- The game at its start: the board of the constructor and two empty capture
vectors (`ChessGame::ChessGame`). -/
def newGame : MoveResult :=
  { ok := true, state := initialBoard, whiteCaptures := [], blackCaptures := [] }

/-- The game `e2 e4`, `a7 a6`, `e4 e5`, `d7 d5` from the initial position: the
black d-pawn has just advanced two squares and stands beside the white pawn
on e5. -/
def enPassantGame : MoveResult :=
  runCalls newGame
    [⟨"e2 e4", true, 'Q'⟩, ⟨"a7 a6", false, 'Q'⟩, ⟨"e4 e5", true, 'Q'⟩, ⟨"d7 d5", false, 'Q'⟩]

/-- A position as `loadGame` builds it from the lines `....k...`, five lines
`........`, `p.......`, `....K...`: a black pawn stands on a2, one step from
promotion on a1. -/
def promotionPosition : ChessBoard :=
  { board := loadRows initialBoard.board
      ["....k...".data, "........".data, "........".data, "........".data,
       "........".data, "........".data, "p.......".data, "....K...".data]
    lastMoveFrom := (-1, -1)
    lastMoveTo := (-1, -1)
    whiteCanCastleKingside := false
    whiteCanCastleQueenside := false
    blackCanCastleKingside := false
    blackCanCastleQueenside := false
    halfMoveClock := 0
    fullMoveNumber := 1 }

/-- A position in which the en passant test of `isValidMove` succeeds: the
board as `loadGame` builds it from the lines `....k...`, five lines
`........`, `...pP...`, `......K.` (a black pawn on d2 beside the white pawn on
e2, d3 empty), with the last-move pair d4-d2 that an earlier black move left
(`loadGame` does not touch `lastMoveFrom` and `lastMoveTo`). -/
def codeEnPassantPosition : ChessBoard :=
  { board := loadRows initialBoard.board
      ["....k...".data, "........".data, "........".data, "........".data,
       "........".data, "........".data, "...pP...".data, "......K.".data]
    lastMoveFrom := (4, 3)
    lastMoveTo := (6, 3)
    whiteCanCastleKingside := false
    whiteCanCastleQueenside := false
    blackCanCastleKingside := false
    blackCanCastleQueenside := false
    halfMoveClock := 0
    fullMoveNumber := 1 }

/-- The game `g2 g4`, `b7 b6`, `a2 a3`, `c8 b7`, `a3 a4`, `b7 h1` from the
initial position: the black bishop takes the white rook on h1, which has not
moved. -/
def cornerCaptureCalls : List Call :=
  [⟨"g2 g4", true, 'Q'⟩, ⟨"b7 b6", false, 'Q'⟩, ⟨"a2 a3", true, 'Q'⟩, ⟨"c8 b7", false, 'Q'⟩,
   ⟨"a3 a4", true, 'Q'⟩, ⟨"b7 h1", false, 'Q'⟩]

/-- A board object together with the two capture vectors, before any call. -/
def startFrom (s : ChessBoard) (whiteCaptures blackCaptures : List Char) : MoveResult :=
  { ok := true, state := s, whiteCaptures := whiteCaptures, blackCaptures := blackCaptures }

/-! ## The terminal-state queries -/

/-- The simulated move of `hasLegalMoves` (source lines 401-403): the piece is
put on the destination, marked as moved, and the source is cleared.  Unlike
`movePiece` this simulation moves no rook, removes no pawn and promotes
nothing. -/
def simulateGrid (b : Grid) (piece : ChessPiece) (fromRow fromCol toRow toCol : Int) : Grid :=
  let b1 := setSq b toRow toCol (ChessPiece.new piece.symbol piece.isWhite)
  let b2 := markMoved b1 toRow toCol
  setSq b2 fromRow fromCol emptyPiece

/-- The undo of `hasLegalMoves` (source lines 409-410). -/
def unsimulateGrid (b : Grid) (fromRow fromCol toRow toCol : Int)
    (originalPiece originalToPiece : ChessPiece) : Grid :=
  setSq (setSq b fromRow fromCol originalPiece) toRow toCol originalToPiece

/-- The two inner loops of `hasLegalMoves` (over `toRow`, `toCol`) for one
piece; the list holds the destinations still to be tried.  `isValidMove` may
write to the board, so the board is threaded through the loop. -/
def hasLegalMovesTo (isWhite : Bool) (piece : ChessPiece) (fromRow fromCol : Int) :
    List (Int × Int) → ChessBoard → Bool × ChessBoard
  | [], s => (false, s)
  | t :: rest, s =>
    let v := isValidMove s piece fromRow fromCol t.1 t.2
    if v.1 then
      let originalPiece := v.2.board fromRow fromCol
      let originalToPiece := v.2.board t.1 t.2
      let sim := simulateGrid v.2.board piece fromRow fromCol t.1 t.2
      let stillInCheck :=
        isKingInCheck { v.2 with board := sim, lastMoveFrom := (fromRow, fromCol),
                                 lastMoveTo := (t.1, t.2) } isWhite
      let undone : ChessBoard :=
        { v.2 with board :=
            unsimulateGrid sim fromRow fromCol t.1 t.2 originalPiece originalToPiece }
      if !stillInCheck then (true, undone)
      else hasLegalMovesTo isWhite piece fromRow fromCol rest undone
    else hasLegalMovesTo isWhite piece fromRow fromCol rest v.2

/-- The two outer loops of `hasLegalMoves` (over `fromRow`, `fromCol`); the
list holds the source squares still to be tried. -/
def hasLegalMovesFrom (isWhite : Bool) : List (Int × Int) → ChessBoard → Bool × ChessBoard
  | [], s => (false, s)
  | f :: rest, s =>
    let piece := s.board f.1 f.2
    if piece.symbol ≠ EMPTY ∧ piece.isWhite = isWhite then
      let r := hasLegalMovesTo isWhite piece f.1 f.2 squares s
      if r.1 then (true, r.2) else hasLegalMovesFrom isWhite rest r.2
    else hasLegalMovesFrom isWhite rest s

/-- The member function `hasLegalMoves`: the answer and the board it leaves. -/
def hasLegalMoves (s : ChessBoard) (isWhite : Bool) : Bool × ChessBoard :=
  hasLegalMovesFrom isWhite squares s

/-- The member function `isCheckmate`. -/
def isCheckmate (s : ChessBoard) (isWhite : Bool) : Bool × ChessBoard :=
  if !isKingInCheck s isWhite then (false, s)
  else (!(hasLegalMoves s isWhite).1, (hasLegalMoves s isWhite).2)

/-- The member function `isStalemate`. -/
def isStalemate (s : ChessBoard) (isWhite : Bool) : Bool × ChessBoard :=
  if isKingInCheck s isWhite then (false, s)
  else (!(hasLegalMoves s isWhite).1, (hasLegalMoves s isWhite).2)

/-- The member function `isDraw`. -/
def isDraw (s : ChessBoard) : Bool := decide (s.halfMoveClock ≥ 50)

/-- The game `f2 f3`, `e7 e5`, `g2 g4`, `d8 h4` from the initial position. -/
def foolsMateCalls : List Call :=
  [⟨"f2 f3", true, 'Q'⟩, ⟨"e7 e5", false, 'Q'⟩, ⟨"g2 g4", true, 'Q'⟩, ⟨"d8 h4", false, 'Q'⟩]

/-- The two characters that name a square in a move text: the file letter
`'a' + col` and the rank digit `'8' - row` (the inverse of `decodeCol` and
`decodeRow` on the board). -/
def squareText (p : Int × Int) : List Char :=
  [Char.ofNat ('a'.toNat + p.2.toNat), Char.ofNat ('8'.toNat - p.1.toNat)]

/-- The move text `"<from> <to>"` for two squares of the board. -/
def moveText (f t : Int × Int) : String := String.mk (squareText f ++ ' ' :: squareText t)

/-- All pairs of squares of the board, in the order of four nested loops. -/
def squarePairs : List ((Int × Int) × (Int × Int)) :=
  squares.flatMap fun f => squares.map fun t => (f, t)

/-- The pairs of squares for which `movePiece` accepts the move of side
`isWhite` in the state `s` (each pair tried on `s` itself). -/
def acceptedPairs (s : ChessBoard) (isWhite : Bool) : List ((Int × Int) × (Int × Int)) :=
  squarePairs.filter fun p => (movePiece s (moveText p.1 p.2) isWhite 'Q' [] []).ok

/-- The pairs of squares with a piece of side `isWhite` on the first that pass
`isValidMove` and leave the side's king out of check when the move is
applied. -/
def legalPairs (s : ChessBoard) (isWhite : Bool) : List ((Int × Int) × (Int × Int)) :=
  squarePairs.filter fun p =>
    decide ((s.board p.1.1 p.1.2).symbol ≠ EMPTY) &&
    decide ((s.board p.1.1 p.1.2).isWhite = isWhite) &&
    (isValidMove s (s.board p.1.1 p.1.2) p.1.1 p.1.2 p.2.1 p.2.2).1 &&
    !isKingInCheck
      (s.withGrid
        (speculativeGrid s.board (s.board p.1.1 p.1.2) p.1.1 p.1.2 p.2.1 p.2.2 'Q')) isWhite

/-- The number of calls of the sequence that are made for black and return
true. -/
def acceptedBlackCount (r : MoveResult) : List Call → Nat
  | [] => 0
  | k :: rest =>
    (if (movePiece r.state k.move k.isWhiteTurn k.promotion r.whiteCaptures
          r.blackCaptures).ok = true ∧ k.isWhiteTurn = false then 1 else 0) +
      acceptedBlackCount
        (movePiece r.state k.move k.isWhiteTurn k.promotion r.whiteCaptures r.blackCaptures)
        rest

/-- A position as `loadGame` builds it from the text `1 1 1 1 49 25` followed
by the eight lines of the starting position: every piece at home, the
half-move clock at 49. -/
def clock49Position : ChessBoard :=
  { board := loadRows initialBoard.board
      ["rnbqkbnr".data, "pppppppp".data, "........".data, "........".data,
       "........".data, "........".data, "PPPPPPPP".data, "RNBQKBNR".data]
    lastMoveFrom := (-1, -1)
    lastMoveTo := (-1, -1)
    whiteCanCastleKingside := true
    whiteCanCastleQueenside := true
    blackCanCastleKingside := true
    blackCanCastleQueenside := true
    halfMoveClock := 49
    fullMoveNumber := 25 }

/-- The game `g2 g4`, `b7 b6`, `a2 a4`, `c8 b7`, `h2 h4`, `b7 h1`, `a1 a3`,
`h1 b7`, `a3 h3`, `b6 b5`, `h3 h1`, `b5 b4` from the initial position: the black
bishop takes the unmoved white rook on h1 and withdraws, and the white rook
from a1 travels over a3 and h3 to the corner h1. -/
def rookReturnCalls : List Call :=
  [⟨"g2 g4", true, 'Q'⟩, ⟨"b7 b6", false, 'Q'⟩, ⟨"a2 a4", true, 'Q'⟩, ⟨"c8 b7", false, 'Q'⟩,
   ⟨"h2 h4", true, 'Q'⟩, ⟨"b7 h1", false, 'Q'⟩, ⟨"a1 a3", true, 'Q'⟩, ⟨"h1 b7", false, 'Q'⟩,
   ⟨"a3 h3", true, 'Q'⟩, ⟨"b6 b5", false, 'Q'⟩, ⟨"h3 h1", true, 'Q'⟩, ⟨"b5 b4", false, 'Q'⟩]

/-- A position as `loadGame` builds it over a fresh board from the text
`1 1 1 1 0 1` / `....k..r` / six lines `........` / `....K..R`: white may
still castle, and the black rook on h8 looks down the open h-file at the white
rook on h1. -/
def attackedRookPosition : ChessBoard :=
  { board := loadRows initialBoard.board
      ["....k..r".data, "........".data, "........".data, "........".data,
       "........".data, "........".data, "........".data, "....K..R".data]
    lastMoveFrom := (-1, -1)
    lastMoveTo := (-1, -1)
    whiteCanCastleKingside := true
    whiteCanCastleQueenside := true
    blackCanCastleKingside := true
    blackCanCastleQueenside := true
    halfMoveClock := 0
    fullMoveNumber := 1 }

/-- The board object during the simulated move of `hasLegalMoves` (source
lines 401-405): the piece stands on the destination, the source is empty, and
the last-move pair is that of the simulated move. -/
def simulatedState (s : ChessBoard) (piece : ChessPiece) (fromRow fromCol toRow toCol : Int) :
    ChessBoard :=
  { s with board := simulateGrid s.board piece fromRow fromCol toRow toCol
           lastMoveFrom := (fromRow, fromCol)
           lastMoveTo := (toRow, toCol) }

/-- A piece whose rook symbol, if it has one, matches its colour. -/
def rookCarriesColour (p : ChessPiece) : Prop :=
  (p.symbol = WHITE_ROOK → p.isWhite = true) ∧ (p.symbol = BLACK_ROOK → p.isWhite = false)

/-- The squares of row `r` in the columns `cs`. -/
def rowPart (r : Int) (cs : List Int) : List (Int × Int) := cs.map fun c => (r, c)

/-- The squares of one row of the board, in the order of the column loop. -/
def rowSquares (r : Int) : List (Int × Int) := rowPart r [0, 1, 2, 3, 4, 5, 6, 7]

/-- The pairs of squares whose first square is taken from the list `fs`. -/
def pairsFrom (fs : List (Int × Int)) : List ((Int × Int) × (Int × Int)) :=
  fs.flatMap fun f => squares.map fun t => (f, t)

/-! ## `saveGame` and `loadGame` -/

/-- The content of a save file: the six values of the header line (written
with `<<` as `1`/`0` and decimal numbers, read back with `>>`; the two
counters are read into `int`s, so they lie between -2147483648 and
2147483647), and the lines that follow it. -/
structure SavedGame where
  whiteCanCastleKingside : Bool
  whiteCanCastleQueenside : Bool
  blackCanCastleKingside : Bool
  blackCanCastleQueenside : Bool
  halfMoveClock : Int
  fullMoveNumber : Int
  rows : List (List Char)

/-- The member function `saveGame`: the header, then for each row 0..7 a line
of the eight symbols of the row. -/
def saveGame (s : ChessBoard) : SavedGame :=
  { whiteCanCastleKingside := s.whiteCanCastleKingside
    whiteCanCastleQueenside := s.whiteCanCastleQueenside
    blackCanCastleKingside := s.blackCanCastleKingside
    blackCanCastleQueenside := s.blackCanCastleQueenside
    halfMoveClock := s.halfMoveClock
    fullMoveNumber := s.fullMoveNumber
    rows := ([0, 1, 2, 3, 4, 5, 6, 7] : List Int).map fun r =>
      ([0, 1, 2, 3, 4, 5, 6, 7] : List Int).map fun c => (s.board r c).symbol }

/-- The member function `loadGame` on the board object `t`: the header values
are stored, every square of a row whose line has at least eight characters is
rebuilt from its character, and nothing else (`lastMoveFrom`, `lastMoveTo`) is
touched. -/
def loadGame (t : ChessBoard) (f : SavedGame) : ChessBoard :=
  { t with whiteCanCastleKingside := f.whiteCanCastleKingside
           whiteCanCastleQueenside := f.whiteCanCastleQueenside
           blackCanCastleKingside := f.blackCanCastleKingside
           blackCanCastleQueenside := f.blackCanCastleQueenside
           halfMoveClock := f.halfMoveClock
           fullMoveNumber := f.fullMoveNumber
           board := loadRows t.board f.rows }

/-- The game `a2 a3`, `h7 h5`, `a3 a4`, `h5 h4`, `a4 a5`, `h4 h3`, `a5 a6`,
`h3 g2`, `b1 c3`, `g2 h1` from the initial position: the black h-pawn walks
down the board, takes the pawn on g2 and the rook on h1, and is promoted
there (promotion character `'Q'`). -/
def blackPromotionCalls : List Call :=
  [⟨"a2 a3", true, 'Q'⟩, ⟨"h7 h5", false, 'Q'⟩, ⟨"a3 a4", true, 'Q'⟩, ⟨"h5 h4", false, 'Q'⟩,
   ⟨"a4 a5", true, 'Q'⟩, ⟨"h4 h3", false, 'Q'⟩, ⟨"a5 a6", true, 'Q'⟩, ⟨"h3 g2", false, 'Q'⟩,
   ⟨"b1 c3", true, 'Q'⟩, ⟨"g2 h1", false, 'Q'⟩]

/-- A position as `loadGame` builds it over a fresh board from the text
`1 1 1 1 0 1` / `....k..r` / six lines `........` / `...R.R.K`: black may
still castle kingside, and the white rooks on d1 and f1 look up the open d-
and f-files at d8 and f8. -/
def queryPosition : ChessBoard :=
  { board := loadRows initialBoard.board
      ["....k..r".data, "........".data, "........".data, "........".data,
       "........".data, "........".data, "........".data, "...R.R.K".data]
    lastMoveFrom := (-1, -1)
    lastMoveTo := (-1, -1)
    whiteCanCastleKingside := true
    whiteCanCastleQueenside := true
    blackCanCastleKingside := true
    blackCanCastleQueenside := true
    halfMoveClock := 0
    fullMoveNumber := 1 }

/-- Two grids that check detection for the side `w` cannot tell apart: the
same squares are empty, occupied squares have the same colour, the pieces of
the other side have the same symbols, and the king symbol of `w` stands on the
same squares. -/
def CheckView (w : Bool) (b b' : Grid) : Prop :=
  ∀ r c,
    ((b r c).symbol = EMPTY ↔ (b' r c).symbol = EMPTY) ∧
    ((b r c).symbol ≠ EMPTY → (b r c).isWhite = (b' r c).isWhite) ∧
    ((b r c).symbol ≠ EMPTY → (b r c).isWhite ≠ w → (b r c).symbol = (b' r c).symbol) ∧
    ((b r c).symbol = (if w then WHITE_KING else BLACK_KING) ↔
      (b' r c).symbol = (if w then WHITE_KING else BLACK_KING))

/-- One of the two en passant tests of `isValidMove` can succeed in the state
`s`: the last move went from row 4 to row 6 of a column that now has a black
pawn on row 6, or from row 3 to row 1 of a column that now has a white pawn on
row 1. -/
def enPassantOpen (s : ChessBoard) : Prop :=
  ∃ c : Int,
    (s.lastMoveTo = (6, c) ∧ s.lastMoveFrom = (4, c) ∧ (s.board 6 c).symbol = BLACK_PAWN) ∨
    (s.lastMoveTo = (1, c) ∧ s.lastMoveFrom = (3, c) ∧ (s.board 1 c).symbol = WHITE_PAWN)

/-- A position as `loadGame` builds it over a board object whose last black
move went from d4 to d2, from the text `0 0 0 0 0 1` / `...r...k` /
four lines `........` / `....n.p.` / `...pP...` / `....K...`: the white king on
e1 is attacked by the black pawn on d2; d1 and f1 are covered by the knight on
e3, d2 by the rook on d8, f2 by the pawn on g3. -/
def enPassantMatePosition : ChessBoard :=
  { board := loadRows initialBoard.board
      ["...r...k".data, "........".data, "........".data, "........".data,
       "........".data, "....n.p.".data, "...pP...".data, "....K...".data]
    lastMoveFrom := (4, 3)
    lastMoveTo := (6, 3)
    whiteCanCastleKingside := false
    whiteCanCastleQueenside := false
    blackCanCastleKingside := false
    blackCanCastleQueenside := false
    halfMoveClock := 0
    fullMoveNumber := 1 }

/-- The sides of the calls alternate, the first call being made for the side
`w`. -/
def alternatesFrom (w : Bool) : List Call → Bool
  | [] => true
  | k :: rest => (k.isWhiteTurn == w) && alternatesFrom (!w) rest

/-- King symbols carry their colour: on every square of the board, `'K'` is
white and `'k'` is black. -/
def KingsCarryColour (s : ChessBoard) : Prop :=
  ∀ r c, isValidPosition r c = true →
    ((s.board r c).symbol = WHITE_KING → (s.board r c).isWhite = true) ∧
    ((s.board r c).symbol = BLACK_KING → (s.board r c).isWhite = false)

/-- The board holds the symbol `k` on exactly one square. -/
def OneOnBoard (s : ChessBoard) (k : Char) : Prop :=
  ∃! p : Int × Int, isValidPosition p.1 p.2 = true ∧ (s.board p.1 p.2).symbol = k

/-- The facts about a position that keep its kings on the board: rook and
king symbols carry their colours, there is one king symbol of each colour, the
side `justMoved` is not in check, and no en passant test of `isValidMove` can
succeed. -/
def KingInvariant (s : ChessBoard) (justMoved : Bool) : Prop :=
  RooksCarryColour s ∧ KingsCarryColour s ∧ OneOnBoard s WHITE_KING ∧ OneOnBoard s BLACK_KING ∧
  isKingInCheck s justMoved = false ∧ ¬ enPassantOpen s

/-- The step of `isPathClear` along one coordinate,
`(to > from) ? 1 : (to < from) ? -1 : 0`. -/
def lineStep (a b : Int) : Int := if b > a then 1 else if b < a then -1 else 0

/-- A save file with the lines of the starting position whose header is
`1 1 1 1 2147483647 2147483647`: both counters hold the largest `int`. -/
def intMaxSave : SavedGame :=
  { whiteCanCastleKingside := true
    whiteCanCastleQueenside := true
    blackCanCastleKingside := true
    blackCanCastleQueenside := true
    halfMoveClock := 2147483647
    fullMoveNumber := 2147483647
    rows := ["rnbqkbnr".data, "pppppppp".data, "........".data, "........".data,
      "........".data, "........".data, "PPPPPPPP".data, "RNBQKBNR".data] }

/-- The board that `loadGame` builds from `intMaxSave` on a fresh board
object. -/
def intMaxPosition : ChessBoard := loadGame initialBoard intMaxSave

/-! # Theorems -/

/-! ## Frame lemmas: the fields that `isValidMove` leaves alone -/

theorem sameScalars_refl (s : ChessBoard) : SameScalars s s :=
  ⟨rfl, rfl, rfl, rfl, rfl, rfl, rfl, rfl⟩

theorem sameScalars_setBoard (s : ChessBoard) (b : Grid) :
    SameScalars s { s with board := b } :=
  ⟨rfl, rfl, rfl, rfl, rfl, rfl, rfl, rfl⟩

theorem sameScalars_trans {s t u : ChessBoard} (h1 : SameScalars s t)
    (h2 : SameScalars t u) : SameScalars s u := by
  obtain ⟨a1, a2, a3, a4, a5, a6, a7, a8⟩ := h1
  obtain ⟨b1, b2, b3, b4, b5, b6, b7, b8⟩ := h2
  exact ⟨b1.trans a1, b2.trans a2, b3.trans a3, b4.trans a4, b5.trans a5, b6.trans a6,
    b7.trans a7, b8.trans a8⟩

theorem castleSimLoop_scalars (isWhite : Bool) (fromRow fromCol step : Int)
    (tempKing : ChessPiece) (l : List Int) (s : ChessBoard) :
    SameScalars s (castleSimLoop isWhite fromRow fromCol step tempKing l s).2 := by
  induction l generalizing s with
  | nil => exact sameScalars_setBoard s _
  | cons i rest ih =>
    simp only [castleSimLoop]
    split
    · exact sameScalars_setBoard s _
    · exact sameScalars_trans (sameScalars_setBoard s _) (ih _)

theorem castlingBranch_scalars (s : ChessBoard) (piece : ChessPiece)
    (fromRow fromCol toCol : Int) :
    SameScalars s (castlingBranch s piece fromRow fromCol toCol).2 := by
  unfold castlingBranch
  simp only
  split_ifs <;> first
    | exact sameScalars_refl s
    | exact castleSimLoop_scalars _ _ _ _ _ _ _

theorem isValidMove_scalars (s : ChessBoard) (piece : ChessPiece)
    (fromRow fromCol toRow toCol : Int) :
    SameScalars s (isValidMove s piece fromRow fromCol toRow toCol).2 := by
  unfold isValidMove
  simp only
  split_ifs <;> first
    | exact sameScalars_refl s
    | exact castlingBranch_scalars _ _ _ _ _


/-! ## The outcome of `movePieceCore` -/

theorem movePieceCore_ok (s : ChessBoard) (piece : ChessPiece)
    (fromRow fromCol toRow toCol : Int) (w : Bool) (promotion : Char) (wc bc : List Char) :
    (movePieceCore s piece fromRow fromCol toRow toCol w promotion wc bc).ok =
      !isKingInCheck (speculativeState s piece fromRow fromCol toRow toCol promotion) w := by
  unfold movePieceCore
  simp only
  split_ifs with h <;> revert h <;> cases isKingInCheck s w <;> simp

theorem movePieceCore_reject (s : ChessBoard) (piece : ChessPiece)
    (fromRow fromCol toRow toCol : Int) (w : Bool) (promotion : Char) (wc bc : List Char)
    (h : isKingInCheck (speculativeState s piece fromRow fromCol toRow toCol promotion) w = true) :
    movePieceCore s piece fromRow fromCol toRow toCol w promotion wc bc =
      { ok := false
        state := { s with board := undoneGrid s.board piece fromRow fromCol toRow toCol promotion }
        whiteCaptures := wc
        blackCaptures := bc } := by
  unfold movePieceCore
  simp only
  rw [if_pos]
  rw [h]; cases isKingInCheck s w <;> rfl


/-- The paths through `movePiece`: it returns false at once and leaves
everything as it was, or the text decodes to two squares on the board with a
piece of the side to move on the first, and then `isValidMove` rejects, or it
accepts and the rest of the function runs on the board it leaves. -/
theorem movePiece_cases (s : ChessBoard) (move : String) (w : Bool) (promotion : Char)
    (wc bc : List Char) :
    movePiece s move w promotion wc bc =
        { ok := false, state := s, whiteCaptures := wc, blackCaptures := bc } ∨
    ∃ m0 m1 m3 m4 : Char, move.data = [m0, m1, ' ', m3, m4] ∧
      isValidPosition (decodeRow m1) (decodeCol m0) = true ∧
      isValidPosition (decodeRow m4) (decodeCol m3) = true ∧
      (s.board (decodeRow m1) (decodeCol m0)).symbol ≠ EMPTY ∧
      (s.board (decodeRow m1) (decodeCol m0)).isWhite = w ∧
      (((isValidMove s (s.board (decodeRow m1) (decodeCol m0)) (decodeRow m1) (decodeCol m0)
            (decodeRow m4) (decodeCol m3)).1 = false ∧
          movePiece s move w promotion wc bc =
            { ok := false
              state := (isValidMove s (s.board (decodeRow m1) (decodeCol m0)) (decodeRow m1)
                (decodeCol m0) (decodeRow m4) (decodeCol m3)).2
              whiteCaptures := wc
              blackCaptures := bc }) ∨
        ((isValidMove s (s.board (decodeRow m1) (decodeCol m0)) (decodeRow m1) (decodeCol m0)
            (decodeRow m4) (decodeCol m3)).1 = true ∧
          movePiece s move w promotion wc bc =
            movePieceCore
              (isValidMove s (s.board (decodeRow m1) (decodeCol m0)) (decodeRow m1)
                (decodeCol m0) (decodeRow m4) (decodeCol m3)).2
              (s.board (decodeRow m1) (decodeCol m0)) (decodeRow m1) (decodeCol m0)
              (decodeRow m4) (decodeCol m3) w promotion wc bc)) := by
  unfold movePiece
  split
  · rename_i m0 m1 m2 m3 m4 hdata
    simp only
    split_ifs with h1 h2 h3 h4
    · exact Or.inl rfl
    · exact Or.inl rfl
    · exact Or.inl rfl
    · refine Or.inr ⟨m0, m1, m3, m4, ?_, ?_, ?_, ?_, ?_, Or.inl ⟨?_, rfl⟩⟩
      · simpa [hdata] using h1
      · exact (by simpa using h2 : _ ∧ _).1
      · exact (by simpa using h2 : _ ∧ _).2
      · exact fun h => h3 (Or.inl h)
      · by_contra h; exact h3 (Or.inr h)
      · simpa using h4
    · refine Or.inr ⟨m0, m1, m3, m4, ?_, ?_, ?_, ?_, ?_, Or.inr ⟨?_, rfl⟩⟩
      · simpa [hdata] using h1
      · exact (by simpa using h2 : _ ∧ _).1
      · exact (by simpa using h2 : _ ∧ _).2
      · exact fun h => h3 (Or.inl h)
      · by_contra h; exact h3 (Or.inr h)
      · simpa using h4
  · exact Or.inl rfl

/-! ## Castling rights only ever go from true to false -/

theorem kingsideAfter_false (own : Bool) (rook king : Char) (piece : ChessPiece)
    (fromCol toCol : Int) : kingsideAfter false own rook king piece fromCol toCol = false := by
  unfold kingsideAfter
  simp only
  split_ifs <;> rfl

theorem queensideAfter_false (own : Bool) (rook king : Char) (piece : ChessPiece)
    (fromCol toCol : Int) : queensideAfter false own rook king piece fromCol toCol = false := by
  unfold queensideAfter
  simp only
  split_ifs <;> rfl

theorem flagsStayFalse_of_sameScalars {s t : ChessBoard} (h : SameScalars s t) :
    FlagsStayFalse s t := by
  obtain ⟨_, _, a3, a4, a5, a6, _, _⟩ := h
  exact ⟨fun h => a3.trans h, fun h => a4.trans h, fun h => a5.trans h, fun h => a6.trans h⟩

theorem flagsStayFalse_trans {s t u : ChessBoard} (h1 : FlagsStayFalse s t)
    (h2 : FlagsStayFalse t u) : FlagsStayFalse s u :=
  ⟨fun h => h2.1 (h1.1 h), fun h => h2.2.1 (h1.2.1 h), fun h => h2.2.2.1 (h1.2.2.1 h),
    fun h => h2.2.2.2 (h1.2.2.2 h)⟩

theorem movePieceCore_accept (s : ChessBoard) (piece : ChessPiece)
    (fromRow fromCol toRow toCol : Int) (w : Bool) (promotion : Char) (wc bc : List Char)
    (h : isKingInCheck (speculativeState s piece fromRow fromCol toRow toCol promotion) w = false) :
    movePieceCore s piece fromRow fromCol toRow toCol w promotion wc bc =
      { ok := true
        state :=
          { board := finalGrid s.board piece fromRow fromCol toRow toCol promotion
            lastMoveFrom := (fromRow, fromCol)
            lastMoveTo := (toRow, toCol)
            whiteCanCastleKingside :=
              kingsideAfter s.whiteCanCastleKingside piece.isWhite WHITE_ROOK WHITE_KING
                piece fromCol toCol
            whiteCanCastleQueenside :=
              queensideAfter s.whiteCanCastleQueenside piece.isWhite WHITE_ROOK WHITE_KING
                piece fromCol toCol
            blackCanCastleKingside :=
              kingsideAfter s.blackCanCastleKingside (!piece.isWhite) BLACK_ROOK BLACK_KING
                piece fromCol toCol
            blackCanCastleQueenside :=
              queensideAfter s.blackCanCastleQueenside (!piece.isWhite) BLACK_ROOK BLACK_KING
                piece fromCol toCol
            halfMoveClock :=
              if isCaptureFlag s.board piece fromCol toRow toCol ∨ isPawnMoveFlag piece then 0
              else wrapInt32 (s.halfMoveClock + 1)
            fullMoveNumber :=
              if w then s.fullMoveNumber else wrapInt32 (s.fullMoveNumber + 1) }
        whiteCaptures :=
          if isCaptureFlag s.board piece fromCol toRow toCol ∧ w then
            wc ++ [(s.board toRow toCol).symbol]
          else wc
        blackCaptures :=
          if isCaptureFlag s.board piece fromCol toRow toCol ∧ ¬ w then
            bc ++ [(s.board toRow toCol).symbol]
          else bc } := by
  unfold movePieceCore
  simp only
  rw [if_neg]
  rw [h]; cases isKingInCheck s w <;> simp

theorem movePieceCore_flags (s : ChessBoard) (piece : ChessPiece)
    (fromRow fromCol toRow toCol : Int) (w : Bool) (promotion : Char) (wc bc : List Char) :
    FlagsStayFalse s
      (movePieceCore s piece fromRow fromCol toRow toCol w promotion wc bc).state := by
  cases h : isKingInCheck (speculativeState s piece fromRow fromCol toRow toCol promotion) w
  · rw [movePieceCore_accept _ _ _ _ _ _ _ _ _ _ h]
    refine ⟨fun h => ?_, fun h => ?_, fun h => ?_, fun h => ?_⟩
    · simp only [h]; exact kingsideAfter_false _ _ _ _ _ _
    · simp only [h]; exact queensideAfter_false _ _ _ _ _ _
    · simp only [h]; exact kingsideAfter_false _ _ _ _ _ _
    · simp only [h]; exact queensideAfter_false _ _ _ _ _ _
  · rw [movePieceCore_reject _ _ _ _ _ _ _ _ _ _ h]
    exact flagsStayFalse_of_sameScalars ⟨rfl, rfl, rfl, rfl, rfl, rfl, rfl, rfl⟩

theorem movePiece_flags (s : ChessBoard) (move : String) (w : Bool) (promotion : Char)
    (wc bc : List Char) :
    FlagsStayFalse s (movePiece s move w promotion wc bc).state := by
  rcases movePiece_cases s move w promotion wc bc with h | ⟨m0, m1, m3, m4, -, -, -, -, -, h⟩
  · rw [h]; exact flagsStayFalse_of_sameScalars (sameScalars_refl s)
  · rcases h with ⟨-, h⟩ | ⟨-, h⟩
    · rw [h]; exact flagsStayFalse_of_sameScalars (isValidMove_scalars _ _ _ _ _ _)
    · rw [h]
      exact flagsStayFalse_trans
        (flagsStayFalse_of_sameScalars (isValidMove_scalars _ _ _ _ _ _))
        (movePieceCore_flags _ _ _ _ _ _ _ _ _ _)

/-- C9: castling rights are never restored by play.  For every call of
`movePiece`, accepted or rejected, on any state: each of the four castling
flags that is false before the call is false after it. -/
theorem castling_rights_never_restored (s : ChessBoard) (move : String) (isWhiteTurn : Bool)
    (promotion : Char) (whiteCaptures blackCaptures : List Char) :
    (s.whiteCanCastleKingside = false →
      (movePiece s move isWhiteTurn promotion whiteCaptures
        blackCaptures).state.whiteCanCastleKingside = false) ∧
    (s.whiteCanCastleQueenside = false →
      (movePiece s move isWhiteTurn promotion whiteCaptures
        blackCaptures).state.whiteCanCastleQueenside = false) ∧
    (s.blackCanCastleKingside = false →
      (movePiece s move isWhiteTurn promotion whiteCaptures
        blackCaptures).state.blackCanCastleKingside = false) ∧
    (s.blackCanCastleQueenside = false →
      (movePiece s move isWhiteTurn promotion whiteCaptures
        blackCaptures).state.blackCanCastleQueenside = false) :=
  movePiece_flags s move isWhiteTurn promotion whiteCaptures blackCaptures

/-! ## Check detection reads symbols, and colours of occupied squares only -/

theorem sameView_refl (b : Grid) : SameView b b := fun _ _ => ⟨rfl, fun _ => rfl⟩

theorem sameView_symm {b b' : Grid} (h : SameView b b') : SameView b' b := fun r c =>
  ⟨(h r c).1.symm, fun hne => ((h r c).2 (by rw [(h r c).1]; exact hne)).symm⟩

theorem sameView_trans {b b' b'' : Grid} (h1 : SameView b b') (h2 : SameView b' b'') :
    SameView b b'' := fun r c =>
  ⟨(h1 r c).1.trans (h2 r c).1, fun hne =>
    ((h1 r c).2 hne).trans ((h2 r c).2 (by rw [← (h1 r c).1]; exact hne))⟩

theorem findKing_sameView {s t : ChessBoard} (h : SameView s.board t.board) (w : Bool) :
    findKing s w = findKing t w := by
  unfold findKing
  have : (fun p : Int × Int =>
      decide ((s.board p.1 p.2).symbol = (if w then WHITE_KING else BLACK_KING))) =
      (fun p : Int × Int =>
      decide ((t.board p.1 p.2).symbol = (if w then WHITE_KING else BLACK_KING))) := by
    funext p
    rw [(h p.1 p.2).1]
  rw [this]

theorem isPathClearLoop_sameView {s t : ChessBoard} (h : SameView s.board t.board)
    (rowStep colStep toRow toCol : Int) (fuel : Nat) (row col : Int) :
    isPathClearLoop s rowStep colStep toRow toCol fuel row col =
      isPathClearLoop t rowStep colStep toRow toCol fuel row col := by
  induction fuel generalizing row col with
  | zero => rfl
  | succ n ih =>
    simp only [isPathClearLoop]
    rw [(h row col).1, ih]

theorem isPathClear_sameView {s t : ChessBoard} (h : SameView s.board t.board)
    (fromRow fromCol toRow toCol : Int) :
    isPathClear s fromRow fromCol toRow toCol = isPathClear t fromRow fromCol toRow toCol := by
  unfold isPathClear
  exact isPathClearLoop_sameView h _ _ _ _ _ _ _

theorem canPieceAttack_sameView {s t : ChessBoard} (h : SameView s.board t.board)
    (p q : ChessPiece) (hpq : p.symbol = q.symbol) (fromRow fromCol toRow toCol : Int) :
    canPieceAttack s p fromRow fromCol toRow toCol =
      canPieceAttack t q fromRow fromCol toRow toCol := by
  unfold canPieceAttack
  simp only [hpq, isPathClear_sameView h, (h toRow toCol).1]
  by_cases he : (t.board toRow toCol).symbol = EMPTY
  · simp [he]
  · have hc := (h toRow toCol).2 (by rw [(h toRow toCol).1]; exact he)
    rw [hc]

theorem isKingInCheck_sameView {s t : ChessBoard} (h : SameView s.board t.board) (w : Bool) :
    isKingInCheck s w = isKingInCheck t w := by
  unfold isKingInCheck
  simp only [findKing_sameView h w]
  have : (fun p : Int × Int =>
      decide ((s.board p.1 p.2).symbol ≠ EMPTY) && decide ((s.board p.1 p.2).isWhite ≠ w) &&
        canPieceAttack s (s.board p.1 p.2) p.1 p.2 (findKing t w).1 (findKing t w).2) =
      (fun p : Int × Int =>
      decide ((t.board p.1 p.2).symbol ≠ EMPTY) && decide ((t.board p.1 p.2).isWhite ≠ w) &&
        canPieceAttack t (t.board p.1 p.2) p.1 p.2 (findKing t w).1 (findKing t w).2) := by
    funext p
    rw [canPieceAttack_sameView h _ _ (h p.1 p.2).1, (h p.1 p.2).1]
    by_cases he : (t.board p.1 p.2).symbol = EMPTY
    · simp [he]
    · have hc := (h p.1 p.2).2 (by rw [(h p.1 p.2).1]; exact he)
      rw [hc]
  rw [this]

/-- Check detection reads the grid and nothing else of the board object. -/
theorem isKingInCheck_congr {s t : ChessBoard} (h : s.board = t.board) (w : Bool) :
    isKingInCheck s w = isKingInCheck t w :=
  isKingInCheck_sameView (by rw [h]; exact sameView_refl _) w

/-! ## The castling branch of `isValidMove` -/

theorem betweenEmptyLoop_kingside (s : ChessBoard) (fromRow : Int) (fuel : Nat) (col : Int)
    (h7 : col ≤ 7) (hf : 7 - col < fuel) :
    betweenEmptyLoop s fromRow 1 7 fuel col = true ↔
      ∀ c, col ≤ c → c < 7 → (s.board fromRow c).symbol = EMPTY := by
  induction fuel generalizing col with
  | zero => omega
  | succ n ih =>
    simp only [betweenEmptyLoop]
    by_cases hc : col = 7
    · subst hc
      simp only [ne_eq, not_true_eq_false, if_false, true_iff]
      intro c h1 h2; omega
    · rw [if_pos hc]
      by_cases he : (s.board fromRow col).symbol = EMPTY
      · rw [if_neg (by simpa using he), ih (col + 1) (by omega) (by omega)]
        constructor
        · intro h c h1 h2
          by_cases hcc : c = col
          · rw [hcc]; exact he
          · exact h c (by omega) h2
        · intro h c h1 h2
          exact h c (by omega) h2
      · rw [if_pos (by simpa using he)]
        simp only [Bool.false_eq_true, false_iff, not_forall]
        exact ⟨col, le_refl _, by omega, he⟩

theorem betweenEmptyLoop_queenside (s : ChessBoard) (fromRow : Int) (fuel : Nat) (col : Int)
    (h0 : 0 ≤ col) (hf : col < fuel) :
    betweenEmptyLoop s fromRow (-1) 0 fuel col = true ↔
      ∀ c, 0 < c → c ≤ col → (s.board fromRow c).symbol = EMPTY := by
  induction fuel generalizing col with
  | zero => omega
  | succ n ih =>
    simp only [betweenEmptyLoop]
    by_cases hc : col = 0
    · subst hc
      simp only [ne_eq, not_true_eq_false, if_false, true_iff]
      intro c h1 h2; omega
    · rw [if_pos hc]
      by_cases he : (s.board fromRow col).symbol = EMPTY
      · rw [if_neg (by simpa using he), ih (col + -1) (by omega) (by omega)]
        constructor
        · intro h c h1 h2
          by_cases hcc : c = col
          · rw [hcc]; exact he
          · exact h c h1 (by omega)
        · intro h c h1 h2
          exact h c h1 (by omega)
      · rw [if_pos (by simpa using he)]
        simp only [Bool.false_eq_true, false_iff, not_forall]
        exact ⟨col, by omega, le_refl _, he⟩

/-- The two-step loop of the castling branch, written out. -/
theorem castleSimLoop_two (w : Bool) (fromRow fromCol step : Int) (king : ChessPiece)
    (s : ChessBoard) :
    castleSimLoop w fromRow fromCol step king [1, 2] s =
      if isKingInCheck (s.withGrid (kingAt s.board fromRow fromCol (fromCol + 1 * step) king))
          w then
        (false, s.withGrid
          (setSq (setSq (kingAt s.board fromRow fromCol (fromCol + 1 * step) king)
            fromRow fromCol king) fromRow (fromCol + 1 * step) emptyPiece))
      else if isKingInCheck (s.withGrid
          (kingAt (setSq (kingAt s.board fromRow fromCol (fromCol + 1 * step) king)
            fromRow (fromCol + 1 * step) emptyPiece) fromRow fromCol (fromCol + 2 * step) king))
          w then
        (false, s.withGrid
          (setSq (setSq
            (kingAt (setSq (kingAt s.board fromRow fromCol (fromCol + 1 * step) king)
              fromRow (fromCol + 1 * step) emptyPiece) fromRow fromCol (fromCol + 2 * step) king)
            fromRow fromCol king) fromRow (fromCol + 2 * step) emptyPiece))
      else
        (true, s.withGrid
          (setSq (setSq
            (kingAt (setSq (kingAt s.board fromRow fromCol (fromCol + 1 * step) king)
              fromRow (fromCol + 1 * step) emptyPiece) fromRow fromCol (fromCol + 2 * step) king)
            fromRow (fromCol + 2 * step) emptyPiece) fromRow fromCol king)) := by
  simp only [castleSimLoop, kingAt, ChessBoard.withGrid]

/-- A king that is asked to move two columns is sent to the castling branch,
or rejected. -/
theorem isValidMove_king_two (s : ChessBoard) (piece : ChessPiece)
    (fromRow fromCol toRow toCol : Int)
    (hk : piece.symbol = WHITE_KING ∨ piece.symbol = BLACK_KING)
    (hfrom : isValidPosition fromRow fromCol = true) (hto : isValidPosition toRow toCol = true)
    (h2 : (toCol - fromCol).natAbs = 2)
    (hown : ¬ ((s.board toRow toCol).symbol ≠ EMPTY ∧
      (s.board toRow toCol).isWhite = piece.isWhite)) :
    isValidMove s piece fromRow fromCol toRow toCol =
      if piece.hasMoved = false ∧ fromRow = toRow then castlingBranch s piece fromRow fromCol toCol
      else (false, s) := by
  have hne : ¬ (fromRow = toRow ∧ fromCol = toCol) := by
    rintro ⟨-, h⟩; rw [h] at h2; simp at h2
  have hp1 : piece.symbol ≠ WHITE_PAWN := by
    rcases hk with h | h <;> rw [h] <;> decide
  have hp2 : piece.symbol ≠ BLACK_PAWN := by
    rcases hk with h | h <;> rw [h] <;> decide
  unfold isValidMove
  simp only [hfrom, hto, Bool.not_true, Bool.or_self, Bool.false_eq_true, if_false, hne, hown,
    hp1, hp2, hk, if_true, h2]
  simp only [Nat.not_ofNat_le_one, and_false, if_false, and_true]

theorem castlingBranch_kingside (s : ChessBoard) (piece : ChessPiece) (fromRow fromCol : Int) :
    castlingBranch s piece fromRow fromCol (fromCol + 2) =
      if castlingFlagOf s piece.isWhite true = false then (false, s)
      else if (s.board fromRow 7).symbol ≠ (if piece.isWhite then WHITE_ROOK else BLACK_ROOK) ∨
          (s.board fromRow 7).hasMoved = true ∨ isKingInCheck s piece.isWhite = true then
        (false, s)
      else if betweenEmptyLoop s fromRow 1 7 8 (fromCol + 1) = false then (false, s)
      else castleSimLoop piece.isWhite fromRow fromCol 1 (s.board fromRow fromCol) [1, 2] s := by
  unfold castlingBranch castlingFlagOf
  have h : fromCol + 2 - fromCol > 0 := by omega
  simp only [h, decide_True, if_true, Bool.true_and, Bool.not_true, Bool.false_and,
    Bool.or_false]
  cases piece.isWhite <;> simp [or_assoc]

theorem castlingBranch_queenside (s : ChessBoard) (piece : ChessPiece) (fromRow fromCol : Int) :
    castlingBranch s piece fromRow fromCol (fromCol - 2) =
      if castlingFlagOf s piece.isWhite false = false then (false, s)
      else if (s.board fromRow 0).symbol ≠ (if piece.isWhite then WHITE_ROOK else BLACK_ROOK) ∨
          (s.board fromRow 0).hasMoved = true ∨ isKingInCheck s piece.isWhite = true then
        (false, s)
      else if betweenEmptyLoop s fromRow (-1) 0 8 (fromCol + -1) = false then (false, s)
      else castleSimLoop piece.isWhite fromRow fromCol (-1) (s.board fromRow fromCol) [1, 2] s := by
  unfold castlingBranch castlingFlagOf
  have h : ¬ (fromCol - 2 - fromCol > 0) := by omega
  simp only [h, decide_False, if_false, Bool.false_and, Bool.not_false, Bool.true_and,
    Bool.false_or, Bool.false_eq_true]
  cases piece.isWhite <;> simp [or_assoc]

/-- The position of the second step of the castling loop shows the same pieces
as the position with the king moved two squares, when the square crossed is
empty. -/
theorem kingAt_second_sameView (b : Grid) (fromRow fromCol step : Int) (king : ChessPiece)
    (he : (b fromRow (fromCol + 1 * step)).symbol = EMPTY) :
    SameView
      (kingAt (setSq (kingAt b fromRow fromCol (fromCol + 1 * step) king)
        fromRow (fromCol + 1 * step) emptyPiece) fromRow fromCol (fromCol + 2 * step) king)
      (kingAt b fromRow fromCol (fromCol + 2 * step) king) := by
  intro r c
  simp only [kingAt, setSq]
  by_cases h1 : r = fromRow ∧ c = fromCol + 2 * step
  · simp only [h1, and_self, if_true, ne_eq, implies_true]
  · rw [if_neg h1, if_neg h1]
    by_cases h2 : r = fromRow ∧ c = fromCol
    · simp only [h2, and_self, if_true, ne_eq, implies_true]
    · rw [if_neg h2, if_neg h2]
      by_cases h3 : r = fromRow ∧ c = fromCol + 1 * step
      · rw [if_pos h3]
        obtain ⟨hr, hc⟩ := h3
        subst hr hc
        rw [he]
        exact ⟨rfl, fun h => absurd rfl h⟩
      · rw [if_neg h3, if_neg h3]
        exact ⟨rfl, fun _ => rfl⟩

theorem castleSimLoop_fst_iff (w : Bool) (fromRow fromCol step : Int) (s : ChessBoard)
    (he : (s.board fromRow (fromCol + 1 * step)).symbol = EMPTY) :
    (castleSimLoop w fromRow fromCol step (s.board fromRow fromCol) [1, 2] s).1 = true ↔
      isKingInCheck (s.withGrid (kingAt s.board fromRow fromCol (fromCol + 1 * step)
        (s.board fromRow fromCol))) w = false ∧
      isKingInCheck (s.withGrid (kingAt s.board fromRow fromCol (fromCol + 2 * step)
        (s.board fromRow fromCol))) w = false := by
  rw [castleSimLoop_two]
  have hv := isKingInCheck_sameView
    (s := s.withGrid (kingAt (setSq (kingAt s.board fromRow fromCol (fromCol + 1 * step)
        (s.board fromRow fromCol)) fromRow (fromCol + 1 * step) emptyPiece) fromRow fromCol
        (fromCol + 2 * step) (s.board fromRow fromCol)))
    (t := s.withGrid (kingAt s.board fromRow fromCol (fromCol + 2 * step)
        (s.board fromRow fromCol)))
    (kingAt_second_sameView s.board fromRow fromCol step (s.board fromRow fromCol) he) w
  rw [hv]
  split_ifs with h1 h2
  · simp only [h1]; simp
  · simp only [h2]; simp
  · simp only [Bool.not_eq_true] at h1 h2
    simp only [h1, h2]; simp

/-- C3 for a king that moves towards column 7. -/
theorem castling_kingside_iff (s : ChessBoard) (piece : ChessPiece) (fromRow fromCol : Int)
    (h0 : 0 ≤ fromCol) (hc : fromCol + 2 ≤ 7) :
    (castlingBranch s piece fromRow fromCol (fromCol + 2)).1 = true ↔
      castlingFlagOf s piece.isWhite true = true ∧
      (s.board fromRow 7).symbol = (if piece.isWhite then WHITE_ROOK else BLACK_ROOK) ∧
      (s.board fromRow 7).hasMoved = false ∧
      (∀ c, fromCol < c → c < 7 → (s.board fromRow c).symbol = EMPTY) ∧
      isKingInCheck s piece.isWhite = false ∧
      isKingInCheck (s.withGrid (kingAt s.board fromRow fromCol (fromCol + 1)
        (s.board fromRow fromCol))) piece.isWhite = false ∧
      isKingInCheck (s.withGrid (kingAt s.board fromRow fromCol (fromCol + 2)
        (s.board fromRow fromCol))) piece.isWhite = false := by
  rw [castlingBranch_kingside]
  have hb := betweenEmptyLoop_kingside s fromRow 8 (fromCol + 1) (by omega) (by omega)
  have hb' : betweenEmptyLoop s fromRow 1 7 8 (fromCol + 1) = true ↔
      ∀ c, fromCol < c → c < 7 → (s.board fromRow c).symbol = EMPTY := by
    rw [hb]
    exact ⟨fun h c h1 h2 => h c (by omega) h2, fun h c h1 h2 => h c (by omega) h2⟩
  by_cases hf : castlingFlagOf s piece.isWhite true = false
  · rw [if_pos hf]; simp [hf]
  rw [if_neg hf]
  by_cases hr : (s.board fromRow 7).symbol ≠ (if piece.isWhite then WHITE_ROOK else BLACK_ROOK) ∨
      (s.board fromRow 7).hasMoved = true ∨ isKingInCheck s piece.isWhite = true
  · rw [if_pos hr]
    simp only [Bool.false_eq_true, false_iff, not_and]
    intro _ h1 h2 _ h3
    rcases hr with h | h | h
    · exact absurd h1 h
    · rw [h2] at h; exact absurd h (by simp)
    · rw [h3] at h; exact absurd h (by simp)
  rw [if_neg hr]
  by_cases hbt : betweenEmptyLoop s fromRow 1 7 8 (fromCol + 1) = false
  · rw [if_pos hbt]
    simp only [Bool.false_eq_true, false_iff, not_and]
    intro _ _ _ h
    rw [hb'.mpr h] at hbt; exact absurd hbt (by simp)
  rw [if_neg hbt]
  have hbt' : betweenEmptyLoop s fromRow 1 7 8 (fromCol + 1) = true := by simpa using hbt
  have hall := hb'.mp hbt'
  have he : (s.board fromRow (fromCol + 1 * 1)).symbol = EMPTY := hall _ (by omega) (by omega)
  rw [castleSimLoop_fst_iff _ _ _ _ _ he]
  simp only [mul_one]
  simp only [not_or, ne_eq, not_not, Bool.not_eq_true] at hr hf
  simp only [Bool.not_eq_false] at hf
  constructor
  · rintro ⟨h1, h2⟩
    exact ⟨hf, hr.1, hr.2.1, hall, hr.2.2, h1, h2⟩
  · rintro ⟨_, _, _, _, _, h1, h2⟩
    exact ⟨h1, h2⟩

/-- C3 for a king that moves towards column 0. -/
theorem castling_queenside_iff (s : ChessBoard) (piece : ChessPiece) (fromRow fromCol : Int)
    (h0 : 0 ≤ fromCol - 2) (hc : fromCol ≤ 7) :
    (castlingBranch s piece fromRow fromCol (fromCol - 2)).1 = true ↔
      castlingFlagOf s piece.isWhite false = true ∧
      (s.board fromRow 0).symbol = (if piece.isWhite then WHITE_ROOK else BLACK_ROOK) ∧
      (s.board fromRow 0).hasMoved = false ∧
      (∀ c, 0 < c → c < fromCol → (s.board fromRow c).symbol = EMPTY) ∧
      isKingInCheck s piece.isWhite = false ∧
      isKingInCheck (s.withGrid (kingAt s.board fromRow fromCol (fromCol - 1)
        (s.board fromRow fromCol))) piece.isWhite = false ∧
      isKingInCheck (s.withGrid (kingAt s.board fromRow fromCol (fromCol - 2)
        (s.board fromRow fromCol))) piece.isWhite = false := by
  rw [castlingBranch_queenside]
  have hb := betweenEmptyLoop_queenside s fromRow 8 (fromCol + -1) (by omega) (by omega)
  have hb' : betweenEmptyLoop s fromRow (-1) 0 8 (fromCol + -1) = true ↔
      ∀ c, 0 < c → c < fromCol → (s.board fromRow c).symbol = EMPTY := by
    rw [hb]
    exact ⟨fun h c h1 h2 => h c h1 (by omega), fun h c h1 h2 => h c h1 (by omega)⟩
  by_cases hf : castlingFlagOf s piece.isWhite false = false
  · rw [if_pos hf]; simp [hf]
  rw [if_neg hf]
  by_cases hr : (s.board fromRow 0).symbol ≠ (if piece.isWhite then WHITE_ROOK else BLACK_ROOK) ∨
      (s.board fromRow 0).hasMoved = true ∨ isKingInCheck s piece.isWhite = true
  · rw [if_pos hr]
    simp only [Bool.false_eq_true, false_iff, not_and]
    intro _ h1 h2 _ h3
    rcases hr with h | h | h
    · exact absurd h1 h
    · rw [h2] at h; exact absurd h (by simp)
    · rw [h3] at h; exact absurd h (by simp)
  rw [if_neg hr]
  by_cases hbt : betweenEmptyLoop s fromRow (-1) 0 8 (fromCol + -1) = false
  · rw [if_pos hbt]
    simp only [Bool.false_eq_true, false_iff, not_and]
    intro _ _ _ h
    rw [hb'.mpr h] at hbt; exact absurd hbt (by simp)
  rw [if_neg hbt]
  have hbt' : betweenEmptyLoop s fromRow (-1) 0 8 (fromCol + -1) = true := by simpa using hbt
  have hall := hb'.mp hbt'
  have e1 : fromCol + 1 * (-1) = fromCol - 1 := by omega
  have e2 : fromCol + 2 * (-1) = fromCol - 2 := by omega
  have he : (s.board fromRow (fromCol + 1 * (-1))).symbol = EMPTY := by
    rw [e1]; exact hall _ (by omega) (by omega)
  rw [castleSimLoop_fst_iff _ _ _ _ _ he, e1, e2]
  simp only [not_or, ne_eq, not_not, Bool.not_eq_true] at hr hf
  simp only [Bool.not_eq_false] at hf
  constructor
  · rintro ⟨h1, h2⟩
    exact ⟨hf, hr.1, hr.2.1, hall, hr.2.2, h1, h2⟩
  · rintro ⟨_, _, _, _, _, h1, h2⟩
    exact ⟨h1, h2⟩

/-- C3: for a king on `from` and on-board squares `from`, `to` of one row, two
columns apart, with `to` not occupied by a piece of the king's colour,
`isValidMove` accepts if and only if: the king has not moved; the castling flag
of the king's colour for that side is set; the corner of the row (column 7
towards the kingside, column 0 towards the queenside) holds the rook symbol of
the king's colour, not moved; every square strictly between king and corner is
empty; the king's colour is not in check in the current position, nor with the
king put one square, nor two squares, towards the rook. -/
theorem castling_valid_iff (s : ChessBoard) (piece : ChessPiece)
    (fromRow fromCol toRow toCol : Int)
    (hking : piece.symbol = WHITE_KING ∨ piece.symbol = BLACK_KING)
    (hat : s.board fromRow fromCol = piece)
    (hfrom : isValidPosition fromRow fromCol = true)
    (hto : isValidPosition toRow toCol = true)
    (hrow : fromRow = toRow)
    (hcols : (toCol - fromCol).natAbs = 2)
    (hown : ¬ ((s.board toRow toCol).symbol ≠ EMPTY ∧
      (s.board toRow toCol).isWhite = piece.isWhite)) :
    (isValidMove s piece fromRow fromCol toRow toCol).1 = true ↔
      piece.hasMoved = false ∧
      castlingFlagOf s piece.isWhite (decide (toCol > fromCol)) = true ∧
      (s.board fromRow (if toCol > fromCol then 7 else 0)).symbol =
        (if piece.isWhite then WHITE_ROOK else BLACK_ROOK) ∧
      (s.board fromRow (if toCol > fromCol then 7 else 0)).hasMoved = false ∧
      (∀ c, (fromCol < c ∧ c < 7 ∧ toCol > fromCol) ∨ (0 < c ∧ c < fromCol ∧ toCol < fromCol) →
        (s.board fromRow c).symbol = EMPTY) ∧
      isKingInCheck s piece.isWhite = false ∧
      isKingInCheck (s.withGrid (kingAt s.board fromRow fromCol
        (if toCol > fromCol then fromCol + 1 else fromCol - 1) piece)) piece.isWhite = false ∧
      isKingInCheck (s.withGrid (kingAt s.board fromRow fromCol toCol piece))
        piece.isWhite = false := by
  rw [isValidMove_king_two s piece fromRow fromCol toRow toCol hking hfrom hto hcols hown]
  have hb1 : 0 ≤ fromCol ∧ fromCol < 8 := by
    simp only [isValidPosition, Bool.and_eq_true, decide_eq_true_eq] at hfrom; omega
  have hb2 : 0 ≤ toCol ∧ toCol < 8 := by
    simp only [isValidPosition, Bool.and_eq_true, decide_eq_true_eq] at hto; omega
  by_cases hm : piece.hasMoved = false
  swap
  · rw [if_neg (fun h => hm h.1)]
    simp only [Bool.false_eq_true, false_iff, not_and]
    intro h; exact absurd h hm
  rw [if_pos ⟨hm, hrow⟩]
  subst hat
  have hside : toCol = fromCol + 2 ∨ toCol = fromCol - 2 := by omega
  rcases hside with h | h
  · subst h
    have hgt : fromCol + 2 > fromCol := by omega
    have hlt : ¬ (fromCol + 2 < fromCol) := by omega
    rw [castling_kingside_iff s _ fromRow fromCol hb1.1 (by omega)]
    simp only [hgt, hlt, if_true, decide_True, and_true, and_false, or_false, hm, true_and]
    constructor
    · rintro ⟨a, b, c, d, e, f, g⟩
      exact ⟨a, b, c, fun x hx => d x hx.1 hx.2, e, f, g⟩
    · rintro ⟨a, b, c, d, e, f, g⟩
      exact ⟨a, b, c, fun x h1 h2 => d x ⟨h1, h2⟩, e, f, g⟩
  · subst h
    have hgt : ¬ (fromCol - 2 > fromCol) := by omega
    have hlt : fromCol - 2 < fromCol := by omega
    rw [castling_queenside_iff s _ fromRow fromCol hb2.1 (by omega)]
    simp only [hgt, hlt, if_false, decide_False, and_true, and_false, false_or, hm, true_and]
    constructor
    · rintro ⟨a, b, c, d, e, f, g⟩
      exact ⟨a, b, c, fun x hx => d x hx.1 hx.2, e, f, g⟩
    · rintro ⟨a, b, c, d, e, f, g⟩
      exact ⟨a, b, c, fun x h1 h2 => d x ⟨h1, h2⟩, e, f, g⟩

/-- C3 at a concrete input: in `castlingPosition` the white king on e1 may
castle towards h1. -/
theorem castling_valid_iff_witness :
    (isValidMove castlingPosition (castlingPosition.board 7 4) 7 4 7 6).1 = true :=
  (castling_valid_iff castlingPosition (castlingPosition.board 7 4) 7 4 7 6
    (by decide) rfl (by decide) (by decide) rfl (by decide) (by decide)).mpr
    ⟨by decide, by decide, by decide, by decide,
      fun c hc => by
        have h : c = 5 ∨ c = 6 := by omega
        rcases h with h | h <;> subst h <;> decide,
      by decide, by decide, by decide⟩

/-! ## The speculative move, its undo, and the final move -/

theorem setSq_apply (b : Grid) (r c : Int) (p : ChessPiece) (r' c' : Int) :
    setSq b r c p r' c' = if r' = r ∧ c' = c then p else b r' c' := rfl

theorem markMoved_apply (b : Grid) (r c r' c' : Int) :
    markMoved b r c r' c' =
      if r' = r ∧ c' = c then { b r c with hasMoved := true } else b r' c' := rfl

theorem castling_not_enPassant (b : Grid) (piece : ChessPiece) (fromCol toRow toCol : Int)
    (h : isCastlingFlag piece fromCol toCol = true) :
    isEnPassantFlag b piece fromCol toRow toCol = false := by
  unfold isCastlingFlag at h
  unfold isEnPassantFlag isPawnMoveFlag
  simp only [Bool.and_eq_true, Bool.or_eq_true, decide_eq_true_eq] at h
  have hp1 : piece.symbol ≠ WHITE_PAWN := by
    rcases h.1 with h | h <;> rw [h] <;> decide
  have hp2 : piece.symbol ≠ BLACK_PAWN := by
    rcases h.1 with h | h <;> rw [h] <;> decide
  simp [hp1, hp2]

theorem castling_rook_cols (piece : ChessPiece) (fromCol toRow toCol : Int)
    (h : isCastlingFlag piece fromCol toCol = true)
    (hto : isValidPosition toRow toCol = true) :
    rookToColOf fromCol toCol ≠ rookFromColOf fromCol toCol ∧
    rookToColOf fromCol toCol ≠ toCol ∧ rookToColOf fromCol toCol ≠ fromCol ∧
    rookFromColOf fromCol toCol ≠ fromCol := by
  unfold isCastlingFlag at h
  simp only [Bool.and_eq_true, Bool.or_eq_true, decide_eq_true_eq] at h
  simp only [isValidPosition, Bool.and_eq_true, decide_eq_true_eq] at hto
  unfold rookToColOf rookFromColOf
  split_ifs <;> omega

theorem placeMover_apply (b : Grid) (piece : ChessPiece) (fromRow fromCol toRow toCol r c : Int) :
    placeMover b piece fromRow fromCol toRow toCol r c =
      if r = toRow ∧ c = toCol then
        { symbol := piece.symbol, isWhite := piece.isWhite, hasMoved := true }
      else if r = fromRow ∧ c = fromCol then emptyPiece
      else b r c := by
  simp only [placeMover, markMoved_apply, setSq_apply, ChessPiece.new]
  split_ifs <;> first | rfl | simp_all

theorem relocateRook_apply (g : Grid) (row rf rt : Int) (h : rt ≠ rf) (r c : Int) :
    relocateRook g row rf rt r c =
      if r = row ∧ c = rt then { g row rf with hasMoved := true }
      else if r = row ∧ c = rf then emptyPiece
      else g r c := by
  simp only [relocateRook, markMoved_apply, setSq_apply]
  split_ifs <;> first | rfl | omega | simp_all

theorem promoteSq_of_not_pawn (g : Grid) (piece : ChessPiece) (toRow toCol : Int)
    (promotion : Char) : promoteSq g piece false toRow toCol promotion = g := by
  simp [promoteSq]

theorem castling_not_pawn (piece : ChessPiece) (fromCol toCol : Int)
    (h : isCastlingFlag piece fromCol toCol = true) : isPawnMoveFlag piece = false := by
  unfold isCastlingFlag at h
  unfold isPawnMoveFlag
  simp only [Bool.and_eq_true, Bool.or_eq_true, decide_eq_true_eq] at h
  have hp1 : piece.symbol ≠ WHITE_PAWN := by
    rcases h.1 with h | h <;> rw [h] <;> decide
  have hp2 : piece.symbol ≠ BLACK_PAWN := by
    rcases h.1 with h | h <;> rw [h] <;> decide
  simp [hp1, hp2]

theorem capturedRowOf_ne (piece : ChessPiece) (toRow : Int) :
    capturedRowOf piece toRow ≠ toRow := by
  unfold capturedRowOf
  split_ifs <;> omega

theorem isEnPassantFlag_cols (b : Grid) (piece : ChessPiece) (fromCol toRow toCol : Int)
    (h : isEnPassantFlag b piece fromCol toRow toCol = true) : toCol ≠ fromCol := by
  unfold isEnPassantFlag at h
  simp only [Bool.and_eq_true, decide_eq_true_eq] at h
  intro he
  rw [he] at h
  simp at h

theorem applyToGrid_castling_apply (g : Grid) (piece : ChessPiece)
    (fromRow fromCol toRow toCol : Int) (promotion : Char) (r c : Int)
    (h1 : rookToColOf fromCol toCol ≠ rookFromColOf fromCol toCol) :
    applyToGrid g piece fromRow fromCol toRow toCol false true false promotion r c =
      if r = fromRow ∧ c = rookToColOf fromCol toCol then
        { placeMover g piece fromRow fromCol toRow toCol fromRow
            (rookFromColOf fromCol toCol) with hasMoved := true }
      else if r = fromRow ∧ c = rookFromColOf fromCol toCol then emptyPiece
      else placeMover g piece fromRow fromCol toRow toCol r c := by
  simp only [applyToGrid, rookStage, if_true, Bool.false_eq_true, if_false,
    promoteSq_of_not_pawn]
  rw [relocateRook_apply _ _ _ _ h1]

theorem undoneGrid_castling_apply (b : Grid) (piece : ChessPiece)
    (fromRow fromCol toRow toCol : Int) (promotion : Char) (r c : Int)
    (hC : isCastlingFlag piece fromCol toCol = true) :
    undoneGrid b piece fromRow fromCol toRow toCol promotion r c =
      if r = fromRow ∧ c = rookToColOf fromCol toCol then emptyPiece
      else if r = fromRow ∧ c = rookFromColOf fromCol toCol then
        placeMover b piece fromRow fromCol toRow toCol fromRow (rookFromColOf fromCol toCol)
      else if r = toRow ∧ c = toCol then b toRow toCol
      else if r = fromRow ∧ c = fromCol then b fromRow fromCol
      else speculativeGrid b piece fromRow fromCol toRow toCol promotion r c := by
  have hE := castling_not_enPassant b piece fromCol toRow toCol hC
  simp only [undoneGrid, undoGrid, hC, hE, originalRookOf, if_true, Bool.false_eq_true,
    if_false, setSq_apply]

/-- The final move writes the board of the speculative move again: the undo
in between does not change what the second application produces. -/
theorem finalGrid_eq_speculativeGrid (b : Grid) (piece : ChessPiece)
    (fromRow fromCol toRow toCol : Int) (promotion : Char)
    (hto : isValidPosition toRow toCol = true) :
    finalGrid b piece fromRow fromCol toRow toCol promotion =
      speculativeGrid b piece fromRow fromCol toRow toCol promotion := by
  funext r c
  cases hC : isCastlingFlag piece fromCol toCol
  · cases hE : isEnPassantFlag b piece fromCol toRow toCol
    · simp only [finalGrid, speculativeGrid, undoneGrid, applyToGrid, undoGrid, rookStage,
        placeMover, promoteSq, markMoved_apply, setSq_apply, ite_apply, hC, hE, originalRookOf,
        enPassantCapturedOf, Bool.false_eq_true, if_false]
      split_ifs <;> rfl
    · have hcap := capturedRowOf_ne piece toRow
      have hcol := isEnPassantFlag_cols b piece fromCol toRow toCol hE
      generalize capturedRowOf piece toRow = cap at hcap
      simp only [finalGrid, speculativeGrid, undoneGrid, applyToGrid, undoGrid, rookStage,
        placeMover, promoteSq, markMoved_apply, setSq_apply, ite_apply, hC, hE, originalRookOf,
        enPassantCapturedOf, Bool.false_eq_true, if_false, if_true]
      split_ifs <;> first | rfl | omega
  · have hE := castling_not_enPassant b piece fromCol toRow toCol hC
    have hP := castling_not_pawn piece fromCol toCol hC
    obtain ⟨h1, h2, h3, h4⟩ := castling_rook_cols piece fromCol toRow toCol hC hto
    have hs : ∀ r c, speculativeGrid b piece fromRow fromCol toRow toCol promotion r c =
        applyToGrid b piece fromRow fromCol toRow toCol false true false promotion r c := by
      intro r c; simp only [speculativeGrid, hC, hE, hP]
    have hf : finalGrid b piece fromRow fromCol toRow toCol promotion r c =
        applyToGrid (undoneGrid b piece fromRow fromCol toRow toCol promotion) piece
          fromRow fromCol toRow toCol false true false promotion r c := by
      simp only [finalGrid, hC, hE, hP]
    have key : ∀ r c, ¬ (r = fromRow ∧ c = rookToColOf fromCol toCol) →
        placeMover (undoneGrid b piece fromRow fromCol toRow toCol promotion) piece
          fromRow fromCol toRow toCol r c =
        placeMover b piece fromRow fromCol toRow toCol r c := by
      intro r c hne
      rw [placeMover_apply, placeMover_apply]
      by_cases hto' : r = toRow ∧ c = toCol
      · rw [if_pos hto', if_pos hto']
      rw [if_neg hto', if_neg hto']
      by_cases hfrom' : r = fromRow ∧ c = fromCol
      · rw [if_pos hfrom', if_pos hfrom']
      rw [if_neg hfrom', if_neg hfrom', undoneGrid_castling_apply _ _ _ _ _ _ _ _ _ hC,
        if_neg hne]
      by_cases hrf : r = fromRow ∧ c = rookFromColOf fromCol toCol
      · rw [if_pos hrf, placeMover_apply]
        obtain ⟨hr, hc⟩ := hrf
        subst hr hc
        rw [if_neg hto', if_neg hfrom']
      · rw [if_neg hrf, if_neg hto', if_neg hfrom', hs,
          applyToGrid_castling_apply _ _ _ _ _ _ _ _ _ h1, if_neg hne, if_neg hrf,
          placeMover_apply, if_neg hto', if_neg hfrom']
    rw [hf, hs, applyToGrid_castling_apply _ _ _ _ _ _ _ _ _ h1,
      applyToGrid_castling_apply _ _ _ _ _ _ _ _ _ h1,
      key fromRow (rookFromColOf fromCol toCol) (fun h => h1 h.2.symm)]
    by_cases hrt : r = fromRow ∧ c = rookToColOf fromCol toCol
    · rw [if_pos hrt, if_pos hrt]
    · rw [if_neg hrt, if_neg hrt, key r c hrt]

/-! ## What `isValidMove` writes to the board -/

theorem castleSimLoop_board (w : Bool) (fromRow fromCol step : Int) (s : ChessBoard)
    (hstep : step ≠ 0) (r c : Int) :
    (castleSimLoop w fromRow fromCol step (s.board fromRow fromCol) [1, 2] s).2.board r c =
        s.board r c ∨
      (r = fromRow ∧ (c = fromCol + 1 * step ∨ c = fromCol + 2 * step) ∧
        (castleSimLoop w fromRow fromCol step (s.board fromRow fromCol) [1, 2] s).2.board r c =
          emptyPiece) := by
  rw [castleSimLoop_two]
  split_ifs
  all_goals
    simp only [ChessBoard.withGrid, kingAt, setSq_apply]
    by_cases h1 : r = fromRow ∧ c = fromCol + 1 * step
    · right
      obtain ⟨hr, hc⟩ := h1
      subst hr hc
      refine ⟨rfl, Or.inl rfl, ?_⟩
      split_ifs <;> first | rfl | omega
    · by_cases h2 : r = fromRow ∧ c = fromCol + 2 * step
      · first
          | (right
             obtain ⟨hr, hc⟩ := h2
             subst hr hc
             refine ⟨rfl, Or.inr rfl, ?_⟩
             split_ifs <;> first | rfl | omega)
          | (left
             obtain ⟨hr, hc⟩ := h2
             subst hr hc
             split_ifs <;> first | rfl | omega)
      · left
        by_cases h3 : r = fromRow ∧ c = fromCol
        · obtain ⟨hr, hc⟩ := h3
          subst hr hc
          split_ifs <;> first | rfl | omega
        · simp only [h1, h2, h3, if_false]

theorem isValidMove_same_or_castle (s : ChessBoard) (piece : ChessPiece)
    (fromRow fromCol toRow toCol : Int) :
    (isValidMove s piece fromRow fromCol toRow toCol).2 = s ∨
    (isValidMove s piece fromRow fromCol toRow toCol =
        castlingBranch s piece fromRow fromCol toCol ∧
      isCastlingFlag piece fromCol toCol = true ∧ fromRow = toRow ∧
      isValidPosition fromRow fromCol = true ∧ isValidPosition toRow toCol = true ∧
      ¬ ((s.board toRow toCol).symbol ≠ EMPTY ∧
        (s.board toRow toCol).isWhite = piece.isWhite)) := by
  unfold isValidMove
  simp only
  split_ifs
  all_goals first
    | exact Or.inl rfl
    | skip
  rename_i h1 h2 h3 h4 h5 h6 h7 h8
  right
  simp only [Bool.or_eq_true, Bool.not_eq_true', not_or, Bool.not_eq_false] at h1
  refine ⟨rfl, ?_, h8.2.1, h1.1, h1.2, h3⟩
  unfold isCastlingFlag
  simp only [Bool.and_eq_true, Bool.or_eq_true, decide_eq_true_eq]
  exact ⟨h6, h8.2.2⟩

theorem castlingBranch_same_or_loop (s : ChessBoard) (piece : ChessPiece)
    (fromRow fromCol toCol : Int) :
    castlingBranch s piece fromRow fromCol toCol = (false, s) ∨
    (castlingBranch s piece fromRow fromCol toCol =
        castleSimLoop piece.isWhite fromRow fromCol (if toCol > fromCol then 1 else -1)
          (s.board fromRow fromCol) [1, 2] s ∧
      castlingFlagOf s piece.isWhite (decide (toCol > fromCol)) = true ∧
      (s.board fromRow (rookFromColOf fromCol toCol)).symbol =
        (if piece.isWhite then WHITE_ROOK else BLACK_ROOK) ∧
      (s.board fromRow (rookFromColOf fromCol toCol)).hasMoved = false ∧
      isKingInCheck s piece.isWhite = false ∧
      betweenEmptyLoop s fromRow (if toCol > fromCol then 1 else -1)
        (rookFromColOf fromCol toCol) 8
        (fromCol + (if toCol > fromCol then 1 else -1)) = true) := by
  by_cases hk : toCol > fromCol
  · have h : toCol - fromCol > 0 := by omega
    unfold castlingBranch castlingFlagOf rookFromColOf
    simp only [h, hk, decide_True, if_true, Bool.true_and, Bool.not_true, Bool.false_and,
      Bool.or_false]
    split_ifs with h1 h2 h3 h4 <;> first
      | exact Or.inl rfl
      | (right
         simp only [Bool.or_eq_true, Bool.not_eq_true', not_or, Bool.not_eq_false,
           decide_eq_true_eq, ne_eq, not_not, Bool.not_eq_true] at *
         simp_all)
  · have h : ¬ (toCol - fromCol > 0) := by omega
    unfold castlingBranch castlingFlagOf rookFromColOf
    simp only [h, hk, decide_False, if_false, Bool.false_and, Bool.not_false, Bool.true_and,
      Bool.false_or, Bool.false_eq_true]
    split_ifs with h1 h2 h3 h4 <;> first
      | exact Or.inl rfl
      | (right
         simp only [Bool.or_eq_true, Bool.not_eq_true', not_or, Bool.not_eq_false,
           decide_eq_true_eq, ne_eq, not_not, Bool.not_eq_true] at *
         simp_all)

/-! ## Rejected moves -/

theorem isCastlingFlag_cols (piece : ChessPiece) (fromCol toCol : Int)
    (h : isCastlingFlag piece fromCol toCol = true) :
    (toCol = fromCol + 2 ∨ toCol = fromCol - 2) ∧
    (piece.symbol = WHITE_KING ∨ piece.symbol = BLACK_KING) := by
  unfold isCastlingFlag at h
  simp only [Bool.and_eq_true, Bool.or_eq_true, decide_eq_true_eq] at h
  exact ⟨by omega, h.1⟩

/-- What an accepted or rejected run of the castling branch knows and writes,
for a board whose rooks carry their colour: either the board is untouched, or
the two squares that the king crosses were empty and the loop ran. -/
theorem castlingBranch_facts (s : ChessBoard) (piece : ChessPiece)
    (fromRow fromCol toRow toCol : Int)
    (hC : isCastlingFlag piece fromCol toCol = true) (hrow : fromRow = toRow)
    (hfrom : isValidPosition fromRow fromCol = true)
    (hto : isValidPosition toRow toCol = true)
    (hown : ¬ ((s.board toRow toCol).symbol ≠ EMPTY ∧
      (s.board toRow toCol).isWhite = piece.isWhite))
    (hrook : RooksCarryColour s) :
    castlingBranch s piece fromRow fromCol toCol = (false, s) ∨
    (castlingBranch s piece fromRow fromCol toCol =
        castleSimLoop piece.isWhite fromRow fromCol (if toCol > fromCol then 1 else -1)
          (s.board fromRow fromCol) [1, 2] s ∧
      toCol ≠ rookFromColOf fromCol toCol ∧
      rookToColOf fromCol toCol = fromCol + 1 * (if toCol > fromCol then 1 else -1) ∧
      toCol = fromCol + 2 * (if toCol > fromCol then 1 else -1) ∧
      (s.board fromRow (rookToColOf fromCol toCol)).symbol = EMPTY ∧
      (s.board fromRow toCol).symbol = EMPTY) := by
  rcases castlingBranch_same_or_loop s piece fromRow fromCol toCol with h | h
  · exact Or.inl h
  right
  obtain ⟨hloop, -, hsym, -, -, hbetween⟩ := h
  have hb1 : 0 ≤ fromCol ∧ fromCol < 8 := by
    simp only [isValidPosition, Bool.and_eq_true, decide_eq_true_eq] at hfrom; omega
  have hb2 : 0 ≤ toCol ∧ toCol < 8 := by
    simp only [isValidPosition, Bool.and_eq_true, decide_eq_true_eq] at hto; omega
  have hcorner : toCol ≠ rookFromColOf fromCol toCol := by
    intro heq
    apply hown
    rw [← hrow, heq]
    have hv : isValidPosition fromRow (rookFromColOf fromCol toCol) = true := by
      rw [← heq, hrow]; exact hto
    have hr := hrook fromRow (rookFromColOf fromCol toCol) hv
    rw [hsym] at hr ⊢
    cases hw : piece.isWhite
    · simp only [hw, Bool.false_eq_true, if_false] at hr ⊢
      exact ⟨by decide, hr.2 trivial⟩
    · simp only [hw, if_true] at hr ⊢
      exact ⟨by decide, hr.1 trivial⟩
  rcases (isCastlingFlag_cols piece fromCol toCol hC).1 with h2 | h2
  · subst h2
    have hgt : fromCol + 2 > fromCol := by omega
    simp only [rookFromColOf, rookToColOf, hgt, if_true] at hcorner hbetween hloop ⊢
    have hall := (betweenEmptyLoop_kingside s fromRow 8 (fromCol + 1) (by omega)
      (by omega)).mp hbetween
    exact ⟨hloop, hcorner, by omega, by omega, hall _ (by omega) (by omega),
      hall _ (by omega) (by omega)⟩
  · subst h2
    have hgt : ¬ (fromCol - 2 > fromCol) := by omega
    simp only [rookFromColOf, rookToColOf, hgt, if_false] at hcorner hbetween hloop ⊢
    have hall := (betweenEmptyLoop_queenside s fromRow 8 (fromCol + -1) (by omega)
      (by omega)).mp hbetween
    exact ⟨hloop, hcorner, by omega, by omega, hall _ (by omega) (by omega),
      hall _ (by omega) (by omega)⟩

/-- On a board whose rooks carry their colour, `isValidMove` leaves the board
as it was up to empty squares. -/
theorem isValidMove_sameUpToEmpty (s : ChessBoard) (piece : ChessPiece)
    (fromRow fromCol toRow toCol : Int) (hrook : RooksCarryColour s) :
    SameUpToEmpty s.board (isValidMove s piece fromRow fromCol toRow toCol).2.board := by
  intro r c
  rcases isValidMove_same_or_castle s piece fromRow fromCol toRow toCol with h | h
  · rw [h]; exact Or.inl rfl
  obtain ⟨hv, hC, hrow, hfrom, hto, hown⟩ := h
  rw [hv]
  rcases castlingBranch_facts s piece fromRow fromCol toRow toCol hC hrow hfrom hto hown hrook
    with h | ⟨hloop, -, hrt, htc, he1, he2⟩
  · rw [h]; exact Or.inl rfl
  rw [hloop]
  have hstep : (if toCol > fromCol then (1 : Int) else -1) ≠ 0 := by split_ifs <;> decide
  rcases castleSimLoop_board piece.isWhite fromRow fromCol _ s hstep r c with h | ⟨hr, hc, h⟩
  · exact Or.inl h
  · right
    refine ⟨?_, h⟩
    subst hr
    rcases hc with hc | hc
    · rw [hc, ← hrt]; exact he1
    · rw [hc, ← htc]; exact he2

theorem castleSimLoop_accept_board (w : Bool) (fromRow fromCol step : Int) (king : ChessPiece)
    (s : ChessBoard) (hstep : step ≠ 0)
    (h : (castleSimLoop w fromRow fromCol step king [1, 2] s).1 = true) :
    (castleSimLoop w fromRow fromCol step king [1, 2] s).2.board fromRow
      (fromCol + 1 * step) = emptyPiece := by
  rw [castleSimLoop_two] at h ⊢
  split_ifs at h ⊢
  simp only [ChessBoard.withGrid, kingAt, setSq_apply]
  split_ifs <;> first | rfl | omega | tauto

theorem promoteSq_apply_ne (g : Grid) (piece : ChessPiece) (isPawnMove : Bool)
    (toRow toCol : Int) (promotion : Char) (r c : Int) (h : ¬ (r = toRow ∧ c = toCol)) :
    promoteSq g piece isPawnMove toRow toCol promotion r c = g r c := by
  unfold promoteSq
  split_ifs <;> first | rfl | simp only [setSq_apply, if_neg h]

theorem relocateRook_apply_ne (g : Grid) (row rf rt r c : Int)
    (h1 : ¬ (r = row ∧ c = rt)) (h2 : ¬ (r = row ∧ c = rf)) :
    relocateRook g row rf rt r c = g r c := by
  simp only [relocateRook, markMoved_apply, setSq_apply, if_neg h1, if_neg h2]

/-- The speculative move writes to the two squares of the move, to the two
rook squares of a castling move and to the square of the pawn removed by an
en passant move, and nowhere else. -/
theorem speculativeGrid_other (g : Grid) (piece : ChessPiece)
    (fromRow fromCol toRow toCol : Int) (promotion : Char) (r c : Int)
    (hto : ¬ (r = toRow ∧ c = toCol)) (hfrom : ¬ (r = fromRow ∧ c = fromCol))
    (hrt : isCastlingFlag piece fromCol toCol = true →
      ¬ (r = fromRow ∧ c = rookToColOf fromCol toCol))
    (hrf : isCastlingFlag piece fromCol toCol = true →
      ¬ (r = fromRow ∧ c = rookFromColOf fromCol toCol))
    (hcap : isEnPassantFlag g piece fromCol toRow toCol = true →
      ¬ (r = capturedRowOf piece toRow ∧ c = toCol)) :
    speculativeGrid g piece fromRow fromCol toRow toCol promotion r c = g r c := by
  unfold speculativeGrid applyToGrid
  rw [promoteSq_apply_ne _ _ _ _ _ _ _ _ hto]
  have hstage : rookStage g piece fromRow fromCol toRow toCol
      (isCastlingFlag piece fromCol toCol) r c = g r c := by
    unfold rookStage
    split_ifs with hC
    · rw [relocateRook_apply_ne _ _ _ _ _ _ (hrt hC) (hrf hC), placeMover_apply, if_neg hto,
        if_neg hfrom]
    · rw [placeMover_apply, if_neg hto, if_neg hfrom]
  split_ifs with hE
  · rw [setSq_apply, if_neg (hcap hE), hstage]
  · exact hstage

/-- The undo block restores the board on which the speculative move was made,
provided that, for a castling move, the square the rook lands on held
`ChessPiece(EMPTY)` and the rook's corner is not the king's destination. -/
theorem undoneGrid_eq (g : Grid) (piece : ChessPiece)
    (fromRow fromCol toRow toCol : Int) (promotion : Char)
    (hto : isValidPosition toRow toCol = true)
    (hcast : isCastlingFlag piece fromCol toCol = true →
      g fromRow (rookToColOf fromCol toCol) = emptyPiece ∧
      ¬ (fromRow = toRow ∧ rookFromColOf fromCol toCol = toCol)) :
    undoneGrid g piece fromRow fromCol toRow toCol promotion = g := by
  funext r c
  cases hC : isCastlingFlag piece fromCol toCol
  · cases hE : isEnPassantFlag g piece fromCol toRow toCol
    · simp only [undoneGrid, undoGrid, hC, hE, Bool.false_eq_true, if_false, setSq_apply]
      by_cases h1 : r = toRow ∧ c = toCol
      · rw [if_pos h1, h1.1, h1.2]
      rw [if_neg h1]
      by_cases h2 : r = fromRow ∧ c = fromCol
      · rw [if_pos h2, h2.1, h2.2]
      rw [if_neg h2]
      exact speculativeGrid_other g piece fromRow fromCol toRow toCol promotion r c h1 h2
        (fun h => absurd h (by rw [hC]; simp)) (fun h => absurd h (by rw [hC]; simp))
        (fun h => absurd h (by rw [hE]; simp))
    · have hcapr := capturedRowOf_ne piece toRow
      have hcol := isEnPassantFlag_cols g piece fromCol toRow toCol hE
      simp only [undoneGrid, undoGrid, hC, hE, Bool.false_eq_true, if_false, if_true,
        setSq_apply, enPassantCapturedOf, rookStage]
      by_cases h0 : r = capturedRowOf piece toRow ∧ c = toCol
      · rw [if_pos h0, placeMover_apply, h0.1, h0.2,
          if_neg (fun h => hcapr h.1), if_neg (fun h => hcol h.2)]
      rw [if_neg h0]
      by_cases h1 : r = toRow ∧ c = toCol
      · rw [if_pos h1, h1.1, h1.2]
      rw [if_neg h1]
      by_cases h2 : r = fromRow ∧ c = fromCol
      · rw [if_pos h2, h2.1, h2.2]
      rw [if_neg h2]
      exact speculativeGrid_other g piece fromRow fromCol toRow toCol promotion r c h1 h2
        (fun h => absurd h (by rw [hC]; simp)) (fun h => absurd h (by rw [hC]; simp))
        (fun _ => h0)
  · obtain ⟨he, hne⟩ := hcast hC
    obtain ⟨h1, h2, h3, h4⟩ := castling_rook_cols piece fromCol toRow toCol hC hto
    have hE := castling_not_enPassant g piece fromCol toRow toCol hC
    rw [undoneGrid_castling_apply _ _ _ _ _ _ _ _ _ hC]
    by_cases a1 : r = fromRow ∧ c = rookToColOf fromCol toCol
    · rw [if_pos a1, a1.1, a1.2, he]
    rw [if_neg a1]
    by_cases a2 : r = fromRow ∧ c = rookFromColOf fromCol toCol
    · rw [if_pos a2, a2.1, a2.2, placeMover_apply, if_neg (fun h => hne ⟨h.1, h.2⟩),
        if_neg (fun h => h4 h.2)]
    rw [if_neg a2]
    by_cases a3 : r = toRow ∧ c = toCol
    · rw [if_pos a3, a3.1, a3.2]
    rw [if_neg a3]
    by_cases a4 : r = fromRow ∧ c = fromCol
    · rw [if_pos a4, a4.1, a4.2]
    rw [if_neg a4]
    exact speculativeGrid_other g piece fromRow fromCol toRow toCol promotion r c a3 a4
      (fun _ => a1) (fun _ => a2) (fun h => absurd h (by rw [hE]; simp))

/-- The three tests at the head of `isValidMove`: off the board, no move, own
piece on the destination. -/
theorem isValidMove_reject_pre (s : ChessBoard) (piece : ChessPiece)
    (fromRow fromCol toRow toCol : Int)
    (h : isValidPosition fromRow fromCol = false ∨ isValidPosition toRow toCol = false ∨
      (fromRow = toRow ∧ fromCol = toCol) ∨
      ((s.board toRow toCol).symbol ≠ EMPTY ∧ (s.board toRow toCol).isWhite = piece.isWhite)) :
    isValidMove s piece fromRow fromCol toRow toCol = (false, s) := by
  unfold isValidMove
  simp only
  by_cases h1 : (!isValidPosition fromRow fromCol || !isValidPosition toRow toCol) = true
  · rw [if_pos h1]
  rw [if_neg h1]
  by_cases h2 : fromRow = toRow ∧ fromCol = toCol
  · rw [if_pos h2]
  rw [if_neg h2]
  by_cases h3 : (s.board toRow toCol).symbol ≠ EMPTY ∧
      (s.board toRow toCol).isWhite = piece.isWhite
  · rw [if_pos h3]
  exfalso
  simp only [Bool.or_eq_true, Bool.not_eq_true', not_or, Bool.not_eq_false] at h1
  rcases h with h | h | h | h
  · rw [h1.1] at h; exact absurd h (by simp)
  · rw [h1.2] at h; exact absurd h (by simp)
  · exact h2 h
  · exact h3 h

/-- An accepted move that `movePiece` classifies as castling went through the
castling branch of `isValidMove`. -/
theorem isValidMove_accept_castle (s : ChessBoard) (piece : ChessPiece)
    (fromRow fromCol toRow toCol : Int)
    (hC : isCastlingFlag piece fromCol toCol = true)
    (hv : (isValidMove s piece fromRow fromCol toRow toCol).1 = true) :
    isValidMove s piece fromRow fromCol toRow toCol =
        castlingBranch s piece fromRow fromCol toCol ∧
      fromRow = toRow ∧ piece.hasMoved = false ∧
      isValidPosition fromRow fromCol = true ∧ isValidPosition toRow toCol = true ∧
      ¬ ((s.board toRow toCol).symbol ≠ EMPTY ∧
        (s.board toRow toCol).isWhite = piece.isWhite) := by
  have hfrom : isValidPosition fromRow fromCol = true := by
    by_contra h
    rw [isValidMove_reject_pre s piece fromRow fromCol toRow toCol
      (Or.inl (by simpa using h))] at hv
    exact absurd hv (by simp)
  have hto : isValidPosition toRow toCol = true := by
    by_contra h
    rw [isValidMove_reject_pre s piece fromRow fromCol toRow toCol
      (Or.inr (Or.inl (by simpa using h)))] at hv
    exact absurd hv (by simp)
  have hown : ¬ ((s.board toRow toCol).symbol ≠ EMPTY ∧
      (s.board toRow toCol).isWhite = piece.isWhite) := by
    intro h
    rw [isValidMove_reject_pre s piece fromRow fromCol toRow toCol
      (Or.inr (Or.inr (Or.inr h)))] at hv
    exact absurd hv (by simp)
  obtain ⟨h2, hk⟩ := isCastlingFlag_cols piece fromCol toCol hC
  have hn : (toCol - fromCol).natAbs = 2 := by omega
  rw [isValidMove_king_two s piece fromRow fromCol toRow toCol hk hfrom hto hn hown] at hv ⊢
  by_cases hc : piece.hasMoved = false ∧ fromRow = toRow
  · rw [if_pos hc]
    exact ⟨rfl, hc.2, hc.1, hfrom, hto, hown⟩
  · rw [if_neg hc] at hv
    exact absurd hv (by simp)

/-- After `isValidMove` has accepted a castling move on a board whose rooks
carry their colour, the undo block of `movePiece` restores the board that
`isValidMove` left. -/
theorem undoneGrid_after_isValidMove (s : ChessBoard) (piece : ChessPiece)
    (fromRow fromCol toRow toCol : Int) (promotion : Char)
    (hrook : RooksCarryColour s)
    (hto : isValidPosition toRow toCol = true)
    (hv : (isValidMove s piece fromRow fromCol toRow toCol).1 = true) :
    undoneGrid (isValidMove s piece fromRow fromCol toRow toCol).2.board piece
        fromRow fromCol toRow toCol promotion =
      (isValidMove s piece fromRow fromCol toRow toCol).2.board := by
  apply undoneGrid_eq _ _ _ _ _ _ _ hto
  intro hC
  obtain ⟨he, hrow, -, hfrom, -, hown⟩ :=
    isValidMove_accept_castle s piece fromRow fromCol toRow toCol hC hv
  rw [he] at hv ⊢
  rcases castlingBranch_facts s piece fromRow fromCol toRow toCol hC hrow hfrom hto hown hrook
    with h | ⟨hloop, hcorner, hrt, -, -, -⟩
  · rw [h] at hv; exact absurd hv (by simp)
  · rw [hloop] at hv ⊢
    have hstep : (if toCol > fromCol then (1 : Int) else -1) ≠ 0 := by split_ifs <;> decide
    refine ⟨?_, fun h => hcorner h.2.symm⟩
    rw [hrt]
    exact castleSimLoop_accept_board _ _ _ _ _ _ hstep hv

/-- C1 (amended): on a board whose rook symbols carry their colour, a call
of `movePiece` that returns false leaves `lastMoveFrom`, `lastMoveTo`, the four
castling flags, both clocks and both capture lists as they were, and leaves
every square of the board as it was, except that an empty square may now hold
the value `ChessPiece(EMPTY)` (its symbol is unchanged, its colour and
has-moved mark are reset). -/
theorem rejected_move_restores (s : ChessBoard) (move : String) (isWhiteTurn : Bool)
    (promotion : Char) (whiteCaptures blackCaptures : List Char)
    (hrook : RooksCarryColour s)
    (hrej : (movePiece s move isWhiteTurn promotion whiteCaptures blackCaptures).ok = false) :
    (∀ r c,
      (movePiece s move isWhiteTurn promotion whiteCaptures blackCaptures).state.board r c =
          s.board r c ∨
        ((s.board r c).symbol = EMPTY ∧
          (movePiece s move isWhiteTurn promotion whiteCaptures blackCaptures).state.board r c =
            emptyPiece)) ∧
    (movePiece s move isWhiteTurn promotion whiteCaptures blackCaptures).state.lastMoveFrom =
      s.lastMoveFrom ∧
    (movePiece s move isWhiteTurn promotion whiteCaptures blackCaptures).state.lastMoveTo =
      s.lastMoveTo ∧
    (movePiece s move isWhiteTurn promotion whiteCaptures
      blackCaptures).state.whiteCanCastleKingside = s.whiteCanCastleKingside ∧
    (movePiece s move isWhiteTurn promotion whiteCaptures
      blackCaptures).state.whiteCanCastleQueenside = s.whiteCanCastleQueenside ∧
    (movePiece s move isWhiteTurn promotion whiteCaptures
      blackCaptures).state.blackCanCastleKingside = s.blackCanCastleKingside ∧
    (movePiece s move isWhiteTurn promotion whiteCaptures
      blackCaptures).state.blackCanCastleQueenside = s.blackCanCastleQueenside ∧
    (movePiece s move isWhiteTurn promotion whiteCaptures blackCaptures).state.halfMoveClock =
      s.halfMoveClock ∧
    (movePiece s move isWhiteTurn promotion whiteCaptures blackCaptures).state.fullMoveNumber =
      s.fullMoveNumber ∧
    (movePiece s move isWhiteTurn promotion whiteCaptures blackCaptures).whiteCaptures =
      whiteCaptures ∧
    (movePiece s move isWhiteTurn promotion whiteCaptures blackCaptures).blackCaptures =
      blackCaptures := by
  rcases movePiece_cases s move isWhiteTurn promotion whiteCaptures blackCaptures with
    h | ⟨m0, m1, m3, m4, -, -, hto, -, -, h⟩
  · rw [h]
    exact ⟨fun r c => Or.inl rfl, rfl, rfl, rfl, rfl, rfl, rfl, rfl, rfl, rfl, rfl⟩
  · have hnear := isValidMove_sameUpToEmpty s (s.board (decodeRow m1) (decodeCol m0))
      (decodeRow m1) (decodeCol m0) (decodeRow m4) (decodeCol m3) hrook
    have hsc := isValidMove_scalars s (s.board (decodeRow m1) (decodeCol m0))
      (decodeRow m1) (decodeCol m0) (decodeRow m4) (decodeCol m3)
    rcases h with ⟨-, h⟩ | ⟨hv, h⟩
    · rw [h]
      exact ⟨hnear, hsc.1, hsc.2.1, hsc.2.2.1, hsc.2.2.2.1, hsc.2.2.2.2.1, hsc.2.2.2.2.2.1,
        hsc.2.2.2.2.2.2.1, hsc.2.2.2.2.2.2.2, rfl, rfl⟩
    · rw [h] at hrej ⊢
      rw [movePieceCore_ok] at hrej
      have hchk : isKingInCheck (speculativeState
          (isValidMove s (s.board (decodeRow m1) (decodeCol m0)) (decodeRow m1) (decodeCol m0)
            (decodeRow m4) (decodeCol m3)).2
          (s.board (decodeRow m1) (decodeCol m0)) (decodeRow m1) (decodeCol m0)
          (decodeRow m4) (decodeCol m3) promotion) isWhiteTurn = true := by
        simpa using hrej
      have hu := undoneGrid_after_isValidMove s _ _ _ _ _ promotion hrook hto hv
      rw [movePieceCore_reject _ _ _ _ _ _ _ _ _ _ hchk]
      refine ⟨?_, hsc.1, hsc.2.1, hsc.2.2.1, hsc.2.2.2.1, hsc.2.2.2.2.1, hsc.2.2.2.2.2.1,
        hsc.2.2.2.2.2.2.1, hsc.2.2.2.2.2.2.2, rfl, rfl⟩
      intro r c
      simp only [hu]
      exact hnear r c

/-- C1, counterexample: in `guardedCastlingPosition` the white move `e1 g1` is
rejected (g1 is attacked), and afterwards the square f1 does not hold the
piece value it held before the call: `isValidMove` has overwritten the
`ChessPiece('.', false)` of the loaded board by `ChessPiece(EMPTY)`. -/
theorem rejected_castling_rewrites_square :
    (movePiece guardedCastlingPosition "e1 g1" true 'Q' [] []).ok = false ∧
    (movePiece guardedCastlingPosition "e1 g1" true 'Q' [] []).state.board 7 5 ≠
      guardedCastlingPosition.board 7 5 := by
  decide

theorem loadedPiece_rook (ch : Char) :
    ((loadedPiece ch).symbol = WHITE_ROOK → (loadedPiece ch).isWhite = true) ∧
    ((loadedPiece ch).symbol = BLACK_ROOK → (loadedPiece ch).isWhite = false) := by
  constructor
  · intro h
    have h' : ch = WHITE_ROOK := h
    subst h'
    decide
  · intro h
    have h' : ch = BLACK_ROOK := h
    subst h'
    decide

/-- The board of the constructor has its rooks in their colours. -/
theorem rooksCarryColour_initialBoard : RooksCarryColour initialBoard := by
  intro r c h
  simp only [isValidPosition, Bool.and_eq_true, decide_eq_true_eq] at h
  obtain ⟨⟨⟨h1, h2⟩, h3⟩, h4⟩ := h
  interval_cases r <;> interval_cases c <;> decide

/-- The row loop of `loadGame` keeps the rooks in their colours. -/
theorem rooksCarryColour_loadRows (s t : ChessBoard) (rows : List (List Char))
    (hs : RooksCarryColour s) (ht : t.board = loadRows s.board rows) : RooksCarryColour t := by
  intro r c h
  rw [ht]
  unfold loadRows
  split_ifs
  · split
    · split_ifs
      · split
        · exact loadedPiece_rook _
        · exact hs r c h
      · exact hs r c h
    · exact hs r c h
  · exact hs r c h

/-- C1 (amended) at a concrete input: after the rejected castling attempt of
the counterexample the square f1 is as it was up to the fields of an empty
square. -/
theorem rejected_move_restores_witness :
    (movePiece guardedCastlingPosition "e1 g1" true 'Q' [] []).state.board 7 5 =
        guardedCastlingPosition.board 7 5 ∨
      ((guardedCastlingPosition.board 7 5).symbol = EMPTY ∧
        (movePiece guardedCastlingPosition "e1 g1" true 'Q' [] []).state.board 7 5 =
          emptyPiece) :=
  (rejected_move_restores guardedCastlingPosition "e1 g1" true 'Q' [] []
    (rooksCarryColour_loadRows initialBoard guardedCastlingPosition _
      rooksCarryColour_initialBoard rfl)
    (by decide)).1 7 5

/-! ## Accepted moves -/

/-- `movePiece` on a five-character text with a space in the middle whose
squares are on the board and whose first square holds a piece of the side to
move: the answer of `isValidMove` decides between rejection and the rest of
the function. -/
theorem movePiece_decoded (s : ChessBoard) (m0 m1 m3 m4 : Char) (c : Bool)
    (promotion : Char) (wc bc : List Char)
    (hfrom : isValidPosition (decodeRow m1) (decodeCol m0) = true)
    (hto : isValidPosition (decodeRow m4) (decodeCol m3) = true)
    (hpiece : (s.board (decodeRow m1) (decodeCol m0)).symbol ≠ EMPTY)
    (hside : (s.board (decodeRow m1) (decodeCol m0)).isWhite = c) :
    movePiece s (String.mk [m0, m1, ' ', m3, m4]) c promotion wc bc =
      if (isValidMove s (s.board (decodeRow m1) (decodeCol m0)) (decodeRow m1) (decodeCol m0)
          (decodeRow m4) (decodeCol m3)).1 = true then
        movePieceCore
          (isValidMove s (s.board (decodeRow m1) (decodeCol m0)) (decodeRow m1) (decodeCol m0)
            (decodeRow m4) (decodeCol m3)).2
          (s.board (decodeRow m1) (decodeCol m0)) (decodeRow m1) (decodeCol m0)
          (decodeRow m4) (decodeCol m3) c promotion wc bc
      else
        { ok := false
          state := (isValidMove s (s.board (decodeRow m1) (decodeCol m0)) (decodeRow m1)
            (decodeCol m0) (decodeRow m4) (decodeCol m3)).2
          whiteCaptures := wc
          blackCaptures := bc } := by
  unfold movePiece
  simp only [hfrom, hto, hpiece, hside, ne_eq, not_true_eq_false, if_false, Bool.not_true,
    Bool.or_self, Bool.false_eq_true, or_self, Bool.not_eq_true']
  split_ifs <;> first | rfl | simp_all

/-- The board that `isValidMove` leaves differs from the board it was given
at most on the two squares a castling king crosses. -/
theorem isValidMove_board (s : ChessBoard) (piece : ChessPiece)
    (fromRow fromCol toRow toCol : Int) (r c : Int) :
    (isValidMove s piece fromRow fromCol toRow toCol).2.board r c = s.board r c ∨
    (isCastlingFlag piece fromCol toCol = true ∧ fromRow = toRow ∧ r = fromRow ∧
      (c = rookToColOf fromCol toCol ∨ c = toCol)) := by
  rcases isValidMove_same_or_castle s piece fromRow fromCol toRow toCol with h | h
  · rw [h]; exact Or.inl rfl
  obtain ⟨hv, hC, hrow, -, -, -⟩ := h
  rw [hv]
  rcases castlingBranch_same_or_loop s piece fromRow fromCol toCol with h | ⟨hloop, -⟩
  · rw [h]; exact Or.inl rfl
  rw [hloop]
  have hstep : (if toCol > fromCol then (1 : Int) else -1) ≠ 0 := by split_ifs <;> decide
  rcases castleSimLoop_board piece.isWhite fromRow fromCol _ s hstep r c with h | ⟨hr, hc, -⟩
  · exact Or.inl h
  · right
    refine ⟨hC, hrow, hr, ?_⟩
    have h2 := (isCastlingFlag_cols piece fromCol toCol hC).1
    unfold rookToColOf
    split_ifs at hc ⊢ <;> omega

/-- The speculative move gives the same board from two boards that differ at
most on the squares a castling king crosses: both are overwritten. -/
theorem speculativeGrid_congr (g g' : Grid) (piece : ChessPiece)
    (fromRow fromCol toRow toCol : Int) (promotion : Char)
    (hto : isValidPosition toRow toCol = true)
    (h : ∀ r c, g' r c = g r c ∨
      (isCastlingFlag piece fromCol toCol = true ∧ fromRow = toRow ∧ r = fromRow ∧
        (c = rookToColOf fromCol toCol ∨ c = toCol))) :
    speculativeGrid g' piece fromRow fromCol toRow toCol promotion =
      speculativeGrid g piece fromRow fromCol toRow toCol promotion := by
  cases hC : isCastlingFlag piece fromCol toCol
  · have : g' = g := by
      funext r c
      rcases h r c with h | h
      · exact h
      · rw [hC] at h; exact absurd h.1 (by simp)
    rw [this]
  · funext r c
    have hP := castling_not_pawn piece fromCol toCol hC
    obtain ⟨h1, h2, h3, h4⟩ := castling_rook_cols piece fromCol toRow toCol hC hto
    have key : ∀ r c, ¬ (r = fromRow ∧ c = rookToColOf fromCol toCol) →
        placeMover g' piece fromRow fromCol toRow toCol r c =
        placeMover g piece fromRow fromCol toRow toCol r c := by
      intro r c hne
      rw [placeMover_apply, placeMover_apply]
      by_cases hto' : r = toRow ∧ c = toCol
      · rw [if_pos hto', if_pos hto']
      rw [if_neg hto', if_neg hto']
      by_cases hfrom' : r = fromRow ∧ c = fromCol
      · rw [if_pos hfrom', if_pos hfrom']
      rw [if_neg hfrom', if_neg hfrom']
      rcases h r c with h | ⟨-, hrow, hr, hc | hc⟩
      · exact h
      · exact absurd ⟨hr, hc⟩ hne
      · exact absurd ⟨hr.trans hrow, hc⟩ hto'
    simp only [speculativeGrid, hC, hP, castling_not_enPassant _ piece fromCol toRow toCol hC]
    rw [applyToGrid_castling_apply _ _ _ _ _ _ _ _ _ h1,
      applyToGrid_castling_apply _ _ _ _ _ _ _ _ _ h1,
      key fromRow (rookFromColOf fromCol toCol) (fun h => h1 h.2.symm)]
    by_cases hrt : r = fromRow ∧ c = rookToColOf fromCol toCol
    · rw [if_pos hrt, if_pos hrt]
    · rw [if_neg hrt, if_neg hrt, key r c hrt]

/-- C2: for every state and every move text of five characters with a space
in the middle that names two squares of the board, the first holding a piece
of the side to move `c`: `movePiece` returns true if and only if `isValidMove`
accepts the move and `c` is not in check in the position obtained by applying
the move to the current board (with the rook relocation of a castling move,
the pawn removal of an en passant move and the promotion symbol), whether or
not `c` was in check before; and after every accepted move the mover is not
in check in the resulting state. -/
theorem movePiece_accepts_iff (s : ChessBoard) (m0 m1 m3 m4 : Char) (c : Bool)
    (promotion : Char) (whiteCaptures blackCaptures : List Char)
    (hfrom : isValidPosition (decodeRow m1) (decodeCol m0) = true)
    (hto : isValidPosition (decodeRow m4) (decodeCol m3) = true)
    (hpiece : (s.board (decodeRow m1) (decodeCol m0)).symbol ≠ EMPTY)
    (hside : (s.board (decodeRow m1) (decodeCol m0)).isWhite = c) :
    ((movePiece s (String.mk [m0, m1, ' ', m3, m4]) c promotion whiteCaptures
        blackCaptures).ok = true ↔
      ((isValidMove s (s.board (decodeRow m1) (decodeCol m0)) (decodeRow m1) (decodeCol m0)
          (decodeRow m4) (decodeCol m3)).1 = true ∧
        isKingInCheck
          (s.withGrid (speculativeGrid s.board (s.board (decodeRow m1) (decodeCol m0))
            (decodeRow m1) (decodeCol m0) (decodeRow m4) (decodeCol m3) promotion)) c = false)) ∧
    ((movePiece s (String.mk [m0, m1, ' ', m3, m4]) c promotion whiteCaptures
        blackCaptures).ok = true →
      isKingInCheck (movePiece s (String.mk [m0, m1, ' ', m3, m4]) c promotion whiteCaptures
        blackCaptures).state c = false) := by
  have hg := speculativeGrid_congr s.board
    (isValidMove s (s.board (decodeRow m1) (decodeCol m0)) (decodeRow m1) (decodeCol m0)
      (decodeRow m4) (decodeCol m3)).2.board
    (s.board (decodeRow m1) (decodeCol m0)) (decodeRow m1) (decodeCol m0) (decodeRow m4)
    (decodeCol m3) promotion hto (isValidMove_board s _ _ _ _ _)
  have hchk : isKingInCheck (speculativeState
      (isValidMove s (s.board (decodeRow m1) (decodeCol m0)) (decodeRow m1) (decodeCol m0)
        (decodeRow m4) (decodeCol m3)).2
      (s.board (decodeRow m1) (decodeCol m0)) (decodeRow m1) (decodeCol m0)
      (decodeRow m4) (decodeCol m3) promotion) c =
    isKingInCheck
      (s.withGrid (speculativeGrid s.board (s.board (decodeRow m1) (decodeCol m0))
        (decodeRow m1) (decodeCol m0) (decodeRow m4) (decodeCol m3) promotion)) c :=
    isKingInCheck_congr hg c
  rw [movePiece_decoded s m0 m1 m3 m4 c promotion whiteCaptures blackCaptures hfrom hto hpiece
    hside]
  by_cases hv : (isValidMove s (s.board (decodeRow m1) (decodeCol m0)) (decodeRow m1)
      (decodeCol m0) (decodeRow m4) (decodeCol m3)).1 = true
  · rw [if_pos hv, movePieceCore_ok, hchk]
    refine ⟨?_, ?_⟩
    · simp only [Bool.not_eq_true', hv, true_and]
    · intro hok
      simp only [Bool.not_eq_true'] at hok
      rw [movePieceCore_accept _ _ _ _ _ _ _ _ _ _ (hchk.trans hok)]
      rw [← hok, ← hchk]
      apply isKingInCheck_congr
      exact finalGrid_eq_speculativeGrid _ _ _ _ _ _ _ hto
  · rw [if_neg hv]
    simp [hv]

/-- C2 at a concrete input: the first move `e2 e4` from the initial position
is accepted, and white is not in check afterwards. -/
theorem movePiece_accepts_iff_witness :
    isKingInCheck (movePiece initialBoard (String.mk ['e', '2', ' ', 'e', '4']) true 'Q' []
      []).state true = false :=
  (movePiece_accepts_iff initialBoard 'e' '2' 'e' '4' true 'Q' [] []
    (by decide) (by decide) (by decide) (by decide)).2 (by decide)

/-! ## Castling rights along a sequence of calls -/

theorem runCalls_flags (r : MoveResult) (calls : List Call) :
    FlagsStayFalse r.state (runCalls r calls).state := by
  induction calls generalizing r with
  | nil => exact flagsStayFalse_of_sameScalars (sameScalars_refl _)
  | cons k rest ih =>
    simp only [runCalls]
    exact flagsStayFalse_trans (movePiece_flags _ _ _ _ _ _) (ih _)

theorem kingsideAfter_king (old own : Bool) (rook king : Char) (piece : ChessPiece)
    (fromCol toCol : Int) (h : piece.symbol = king) :
    kingsideAfter old own rook king piece fromCol toCol = false := by
  unfold kingsideAfter
  simp only [h, if_true]

theorem queensideAfter_king (old own : Bool) (rook king : Char) (piece : ChessPiece)
    (fromCol toCol : Int) (h : piece.symbol = king) :
    queensideAfter old own rook king piece fromCol toCol = false := by
  unfold queensideAfter
  simp only [h, if_true]

/-- An accepted move of the king of side `c` leaves both castling flags of
`c` false. -/
theorem king_move_clears_flags (s : ChessBoard) (m0 m1 m3 m4 : Char) (c : Bool)
    (promotion : Char) (wc bc : List Char)
    (hking : (s.board (decodeRow m1) (decodeCol m0)).symbol =
      (if c then WHITE_KING else BLACK_KING))
    (hacc : (movePiece s (String.mk [m0, m1, ' ', m3, m4]) c promotion wc bc).ok = true) :
    castlingFlagOf (movePiece s (String.mk [m0, m1, ' ', m3, m4]) c promotion wc bc).state
        c true = false ∧
    castlingFlagOf (movePiece s (String.mk [m0, m1, ' ', m3, m4]) c promotion wc bc).state
        c false = false := by
  rcases movePiece_cases s (String.mk [m0, m1, ' ', m3, m4]) c promotion wc bc with
    h | ⟨n0, n1, n3, n4, hdata, -, -, -, -, h⟩
  · rw [h] at hacc; exact absurd hacc (by simp)
  · simp only [List.cons.injEq, and_true, true_and] at hdata
    obtain ⟨e0, e1, e3, e4⟩ := hdata
    subst e0 e1 e3 e4
    rcases h with ⟨-, h⟩ | ⟨-, h⟩
    · rw [h] at hacc; exact absurd hacc (by simp)
    · rw [h] at hacc ⊢
      rw [movePieceCore_ok] at hacc
      have hchk : isKingInCheck (speculativeState
          (isValidMove s (s.board (decodeRow m1) (decodeCol m0)) (decodeRow m1) (decodeCol m0)
            (decodeRow m4) (decodeCol m3)).2
          (s.board (decodeRow m1) (decodeCol m0)) (decodeRow m1) (decodeCol m0)
          (decodeRow m4) (decodeCol m3) promotion) c = false := by
        simpa using hacc
      rw [movePieceCore_accept _ _ _ _ _ _ _ _ _ _ hchk]
      unfold castlingFlagOf
      cases c
      · simp only [Bool.false_eq_true, if_false, if_true] at hking ⊢
        exact ⟨kingsideAfter_king _ _ _ _ _ _ _ hking, queensideAfter_king _ _ _ _ _ _ _ hking⟩
      · simp only [if_true, Bool.false_eq_true, if_false] at hking ⊢
        exact ⟨kingsideAfter_king _ _ _ _ _ _ _ hking, queensideAfter_king _ _ _ _ _ _ _ hking⟩

theorem castlingFlagOf_stays_false (s t : ChessBoard) (h : FlagsStayFalse s t) (c k : Bool)
    (hf : castlingFlagOf s c k = false) : castlingFlagOf t c k = false := by
  unfold castlingFlagOf at hf ⊢
  obtain ⟨h1, h2, h3, h4⟩ := h
  cases c <;> cases k
  · exact h4 hf
  · exact h3 hf
  · exact h2 hf
  · exact h1 hf

/-- A king that is asked to move two columns while both castling flags of its
colour are false is rejected by `movePiece`. -/
theorem movePiece_castle_without_rights (t : ChessBoard) (k0 k1 k3 k4 : Char) (c : Bool)
    (promotion : Char) (wc bc : List Char)
    (hk : (t.board (decodeRow k1) (decodeCol k0)).symbol = WHITE_KING ∨
      (t.board (decodeRow k1) (decodeCol k0)).symbol = BLACK_KING)
    (hcols : (decodeCol k3 - decodeCol k0).natAbs = 2)
    (hK : castlingFlagOf t c true = false) (hQ : castlingFlagOf t c false = false) :
    (movePiece t (String.mk [k0, k1, ' ', k3, k4]) c promotion wc bc).ok = false := by
  rcases movePiece_cases t (String.mk [k0, k1, ' ', k3, k4]) c promotion wc bc with
    h | ⟨n0, n1, n3, n4, hdata, -, -, -, hside, h⟩
  · rw [h]
  · simp only [List.cons.injEq, and_true, true_and] at hdata
    obtain ⟨e0, e1, e3, e4⟩ := hdata
    subst e0 e1 e3 e4
    rcases h with ⟨-, h⟩ | ⟨hv, -⟩
    · rw [h]
    · exfalso
      have hC : isCastlingFlag (t.board (decodeRow k1) (decodeCol k0)) (decodeCol k0)
          (decodeCol k3) = true := by
        unfold isCastlingFlag
        simp only [Bool.and_eq_true, Bool.or_eq_true, decide_eq_true_eq]
        exact ⟨hk, hcols⟩
      obtain ⟨he, -⟩ := isValidMove_accept_castle t _ _ _ _ _ hC hv
      rw [he] at hv
      rcases castlingBranch_same_or_loop t (t.board (decodeRow k1) (decodeCol k0))
        (decodeRow k1) (decodeCol k0) (decodeCol k3) with h | ⟨-, hflag, -⟩
      · rw [h] at hv; exact absurd hv (by simp)
      · rw [hside] at hflag
        cases hd : decide (decodeCol k3 > decodeCol k0)
        · rw [hd, hQ] at hflag; exact absurd hflag (by simp)
        · rw [hd, hK] at hflag; exact absurd hflag (by simp)

/-- C8: once the king of side `c` has made an accepted move (of any shape),
then after any further sequence of `movePiece` calls, accepted or rejected and
by either side, every attempt of side `c` to move a king two columns (a
castling attempt) is rejected by `movePiece`. -/
theorem king_move_ends_castling (s : ChessBoard) (m0 m1 m3 m4 : Char) (c : Bool)
    (promotion : Char) (whiteCaptures blackCaptures : List Char) (calls : List Call)
    (k0 k1 k3 k4 : Char) (promotion' : Char)
    (hking : (s.board (decodeRow m1) (decodeCol m0)).symbol =
      (if c then WHITE_KING else BLACK_KING))
    (hacc : (movePiece s (String.mk [m0, m1, ' ', m3, m4]) c promotion whiteCaptures
      blackCaptures).ok = true)
    (hk : ((runCalls (movePiece s (String.mk [m0, m1, ' ', m3, m4]) c promotion whiteCaptures
        blackCaptures) calls).state.board (decodeRow k1) (decodeCol k0)).symbol = WHITE_KING ∨
      ((runCalls (movePiece s (String.mk [m0, m1, ' ', m3, m4]) c promotion whiteCaptures
        blackCaptures) calls).state.board (decodeRow k1) (decodeCol k0)).symbol = BLACK_KING)
    (hcols : (decodeCol k3 - decodeCol k0).natAbs = 2) :
    (movePiece
      (runCalls (movePiece s (String.mk [m0, m1, ' ', m3, m4]) c promotion whiteCaptures
        blackCaptures) calls).state
      (String.mk [k0, k1, ' ', k3, k4]) c promotion'
      (runCalls (movePiece s (String.mk [m0, m1, ' ', m3, m4]) c promotion whiteCaptures
        blackCaptures) calls).whiteCaptures
      (runCalls (movePiece s (String.mk [m0, m1, ' ', m3, m4]) c promotion whiteCaptures
        blackCaptures) calls).blackCaptures).ok = false := by
  obtain ⟨hK, hQ⟩ := king_move_clears_flags s m0 m1 m3 m4 c promotion whiteCaptures
    blackCaptures hking hacc
  have hfl := runCalls_flags (movePiece s (String.mk [m0, m1, ' ', m3, m4]) c promotion
    whiteCaptures blackCaptures) calls
  exact movePiece_castle_without_rights _ k0 k1 k3 k4 c promotion' _ _ hk hcols
    (castlingFlagOf_stays_false _ _ hfl c true hK)
    (castlingFlagOf_stays_false _ _ hfl c false hQ)

/-- C8 at a concrete input: from the initial position, after `e2 e4`, `e7 e5`,
the white king goes e1-e2, black plays `a7 a6`, the king returns e2-e1, black
plays `a6 a5`, white clears f1 and g1 (`f1 c4`, `g1 f3`, with `a5 a4` and
`h7 h6` in between); the castling attempt `e1 g1` is then rejected. -/
theorem king_move_ends_castling_witness :
    (movePiece
      (runCalls
        (movePiece
          (runCalls newGame
            [⟨"e2 e4", true, 'Q'⟩, ⟨"e7 e5", false, 'Q'⟩]).state
          (String.mk ['e', '1', ' ', 'e', '2']) true 'Q' [] [])
        [⟨"a7 a6", false, 'Q'⟩, ⟨"e2 e1", true, 'Q'⟩, ⟨"a6 a5", false, 'Q'⟩,
         ⟨"f1 c4", true, 'Q'⟩, ⟨"a5 a4", false, 'Q'⟩, ⟨"g1 f3", true, 'Q'⟩,
         ⟨"h7 h6", false, 'Q'⟩]).state
      (String.mk ['e', '1', ' ', 'g', '1']) true 'Q'
      (runCalls
        (movePiece
          (runCalls newGame
            [⟨"e2 e4", true, 'Q'⟩, ⟨"e7 e5", false, 'Q'⟩]).state
          (String.mk ['e', '1', ' ', 'e', '2']) true 'Q' [] [])
        [⟨"a7 a6", false, 'Q'⟩, ⟨"e2 e1", true, 'Q'⟩, ⟨"a6 a5", false, 'Q'⟩,
         ⟨"f1 c4", true, 'Q'⟩, ⟨"a5 a4", false, 'Q'⟩, ⟨"g1 f3", true, 'Q'⟩,
         ⟨"h7 h6", false, 'Q'⟩]).whiteCaptures
      (runCalls
        (movePiece
          (runCalls newGame
            [⟨"e2 e4", true, 'Q'⟩, ⟨"e7 e5", false, 'Q'⟩]).state
          (String.mk ['e', '1', ' ', 'e', '2']) true 'Q' [] [])
        [⟨"a7 a6", false, 'Q'⟩, ⟨"e2 e1", true, 'Q'⟩, ⟨"a6 a5", false, 'Q'⟩,
         ⟨"f1 c4", true, 'Q'⟩, ⟨"a5 a4", false, 'Q'⟩, ⟨"g1 f3", true, 'Q'⟩,
         ⟨"h7 h6", false, 'Q'⟩]).blackCaptures).ok = false :=
  king_move_ends_castling
    (runCalls newGame [⟨"e2 e4", true, 'Q'⟩, ⟨"e7 e5", false, 'Q'⟩]).state
    'e' '1' 'e' '2' true 'Q' [] []
    [⟨"a7 a6", false, 'Q'⟩, ⟨"e2 e1", true, 'Q'⟩, ⟨"a6 a5", false, 'Q'⟩,
     ⟨"f1 c4", true, 'Q'⟩, ⟨"a5 a4", false, 'Q'⟩, ⟨"g1 f3", true, 'Q'⟩,
     ⟨"h7 h6", false, 'Q'⟩]
    'e' '1' 'g' '1' 'Q' (by decide) (by decide) (by decide) (by decide)

/-! ## Evaluations at concrete inputs -/

/-- C4, the code at the failing input: after `e2 e4`, `a7 a6`, `e4 e5`,
`d7 d5` (all accepted) the last move is the two-square advance d7-d5 of the
black pawn, which stands on d5 beside the white pawn on e5, and d6 is empty;
yet `isValidMove` rejects the en passant capture e5-d6, and so does
`movePiece`. -/
theorem en_passant_capture_rejected :
    allAccepted newGame
      [⟨"e2 e4", true, 'Q'⟩, ⟨"a7 a6", false, 'Q'⟩, ⟨"e4 e5", true, 'Q'⟩,
       ⟨"d7 d5", false, 'Q'⟩] = true ∧
    enPassantGame.state.lastMoveFrom = (1, 3) ∧ enPassantGame.state.lastMoveTo = (3, 3) ∧
    enPassantGame.state.board 3 3 = { symbol := BLACK_PAWN, isWhite := false, hasMoved := true } ∧
    enPassantGame.state.board 3 4 = { symbol := WHITE_PAWN, isWhite := true, hasMoved := true } ∧
    (enPassantGame.state.board 2 3).symbol = EMPTY ∧
    (isValidMove enPassantGame.state (enPassantGame.state.board 3 4) 3 4 2 3).1 = false ∧
    (movePiece enPassantGame.state "e5 d6" true 'Q' enPassantGame.whiteCaptures
      enPassantGame.blackCaptures).ok = false := by
  decide

/-- C6, the code at the failing input: in `promotionPosition` black plays
`a2 a1` with the promotion character `r`; the move is accepted and the piece
on a1 is black, but its symbol is the upper-case `Q`, not `r`. -/
theorem black_promotion_writes_white_queen_symbol :
    (movePiece promotionPosition "a2 a1" false 'r' [] []).ok = true ∧
    (movePiece promotionPosition "a2 a1" false 'r' [] []).state.board 7 0 =
      { symbol := 'Q', isWhite := false, hasMoved := true } ∧
    (movePiece promotionPosition "a2 a1" false 'q' [] []).state.board 7 0 =
      { symbol := 'Q', isWhite := false, hasMoved := true } := by
  decide

/-- C7, the code at the failing input: in `codeEnPassantPosition` white plays
`e2 d3`; the move is accepted as an en passant capture, the black pawn on d2
is removed from the board, and the symbol appended to white's capture list is
the empty symbol `.`, not `p`. -/
theorem en_passant_records_empty_symbol :
    (codeEnPassantPosition.board 6 3).symbol = BLACK_PAWN ∧
    (movePiece codeEnPassantPosition "e2 d3" true 'Q' ['n'] []).ok = true ∧
    ((movePiece codeEnPassantPosition "e2 d3" true 'Q' ['n'] []).state.board 6 3).symbol =
      EMPTY ∧
    (movePiece codeEnPassantPosition "e2 d3" true 'Q' ['n'] []).whiteCaptures = ['n', '.'] ∧
    (movePiece codeEnPassantPosition "e2 d3" true 'Q' ['n'] []).blackCaptures = [] := by
  decide

/-- C10, counterexample: in the game `g2 g4`, `b7 b6`, `a2 a3`, `c8 b7`,
`a3 a4`, `b7 h1` every move is accepted, the last one captures the white rook
that stood unmoved on h1 (row 7, column 7), and the white kingside castling
flag is still true afterwards. -/
theorem corner_capture_keeps_flag :
    allAccepted newGame cornerCaptureCalls = true ∧
    (runCalls newGame (cornerCaptureCalls.take 5)).state.board 7 7 =
      { symbol := WHITE_ROOK, isWhite := true, hasMoved := false } ∧
    (runCalls newGame cornerCaptureCalls).blackCaptures = [WHITE_ROOK] ∧
    (runCalls newGame cornerCaptureCalls).state.whiteCanCastleKingside = true := by
  decide

theorem kingsideAfter_other (old : Bool) (rook king : Char) (piece : ChessPiece)
    (fromCol toCol : Int) (hr : piece.symbol ≠ rook) (hk : piece.symbol ≠ king) :
    kingsideAfter old false rook king piece fromCol toCol = old := by
  unfold kingsideAfter
  simp only [hr, hk, Bool.false_eq_true, and_false, false_and, if_false]

theorem queensideAfter_other (old : Bool) (rook king : Char) (piece : ChessPiece)
    (fromCol toCol : Int) (hr : piece.symbol ≠ rook) (hk : piece.symbol ≠ king) :
    queensideAfter old false rook king piece fromCol toCol = old := by
  unfold queensideAfter
  simp only [hr, hk, Bool.false_eq_true, and_false, false_and, if_false]

/-- C10 (amended): when `movePiece` accepts a move of side `c` onto a home
corner of the other side (row 0 for a white mover, row 7 for a black mover,
column 0 or 7) that holds the unmoved rook of the other side, both castling
flags of the captured rook's colour keep the values they had before the call:
the capture does not clear the flag.  (The moving piece is a piece of side
`c`: its symbol is not the rook or king symbol of the other side.) -/
theorem corner_capture_flags_unchanged (s : ChessBoard) (m0 m1 m3 m4 : Char) (c : Bool)
    (promotion : Char) (whiteCaptures blackCaptures : List Char)
    (hacc : (movePiece s (String.mk [m0, m1, ' ', m3, m4]) c promotion whiteCaptures
      blackCaptures).ok = true)
    (hrook : (s.board (decodeRow m4) (decodeCol m3)).symbol =
      (if c then BLACK_ROOK else WHITE_ROOK))
    (hunmoved : (s.board (decodeRow m4) (decodeCol m3)).hasMoved = false)
    (hrow : decodeRow m4 = (if c then 0 else 7))
    (hcol : decodeCol m3 = 0 ∨ decodeCol m3 = 7)
    (hmover : (s.board (decodeRow m1) (decodeCol m0)).symbol ≠
        (if c then BLACK_ROOK else WHITE_ROOK) ∧
      (s.board (decodeRow m1) (decodeCol m0)).symbol ≠
        (if c then BLACK_KING else WHITE_KING)) :
    castlingFlagOf (movePiece s (String.mk [m0, m1, ' ', m3, m4]) c promotion whiteCaptures
        blackCaptures).state (!c) true = castlingFlagOf s (!c) true ∧
    castlingFlagOf (movePiece s (String.mk [m0, m1, ' ', m3, m4]) c promotion whiteCaptures
        blackCaptures).state (!c) false = castlingFlagOf s (!c) false := by
  rcases movePiece_cases s (String.mk [m0, m1, ' ', m3, m4]) c promotion whiteCaptures
    blackCaptures with h | ⟨n0, n1, n3, n4, hdata, -, -, -, hside, h⟩
  · rw [h] at hacc; exact absurd hacc (by simp)
  · simp only [List.cons.injEq, and_true, true_and] at hdata
    obtain ⟨e0, e1, e3, e4⟩ := hdata
    subst e0 e1 e3 e4
    have hsc := isValidMove_scalars s (s.board (decodeRow m1) (decodeCol m0))
      (decodeRow m1) (decodeCol m0) (decodeRow m4) (decodeCol m3)
    obtain ⟨-, -, s3, s4, s5, s6, -, -⟩ := hsc
    rcases h with ⟨-, h⟩ | ⟨-, h⟩
    · rw [h] at hacc; exact absurd hacc (by simp)
    · rw [h] at hacc ⊢
      rw [movePieceCore_ok] at hacc
      have hchk : isKingInCheck (speculativeState
          (isValidMove s (s.board (decodeRow m1) (decodeCol m0)) (decodeRow m1) (decodeCol m0)
            (decodeRow m4) (decodeCol m3)).2
          (s.board (decodeRow m1) (decodeCol m0)) (decodeRow m1) (decodeCol m0)
          (decodeRow m4) (decodeCol m3) promotion) c = false := by
        simpa using hacc
      rw [movePieceCore_accept _ _ _ _ _ _ _ _ _ _ hchk]
      unfold castlingFlagOf
      cases c
      · simp only [Bool.false_eq_true, if_false, Bool.not_false, if_true] at hmover hside ⊢
        rw [hside, kingsideAfter_other _ _ _ _ _ _ hmover.1 hmover.2,
          queensideAfter_other _ _ _ _ _ _ hmover.1 hmover.2]
        exact ⟨s3, s4⟩
      · simp only [Bool.not_true, Bool.false_eq_true, if_false, if_true] at hmover hside ⊢
        rw [hside]
        simp only [Bool.not_true]
        rw [kingsideAfter_other _ _ _ _ _ _ hmover.1 hmover.2,
          queensideAfter_other _ _ _ _ _ _ hmover.1 hmover.2]
        exact ⟨s5, s6⟩

/-- C10 (amended) at a concrete input: the capture of the rook on h1 by the
black bishop in the game of the counterexample. -/
theorem corner_capture_flags_unchanged_witness :
    castlingFlagOf
      (movePiece (runCalls newGame (cornerCaptureCalls.take 5)).state
        (String.mk ['b', '7', ' ', 'h', '1']) false 'Q'
        (runCalls newGame (cornerCaptureCalls.take 5)).whiteCaptures
        (runCalls newGame (cornerCaptureCalls.take 5)).blackCaptures).state (!false) true =
      castlingFlagOf (runCalls newGame (cornerCaptureCalls.take 5)).state (!false) true :=
  (corner_capture_flags_unchanged (runCalls newGame (cornerCaptureCalls.take 5)).state
    'b' '7' 'h' '1' false 'Q' _ _ (by decide) (by decide) (by decide) (by decide)
    (by decide) (by decide)).1

/-! ## En passant after an accepted move -/

theorem isValidMove_black_pawn_row4 (s : ChessBoard) (piece : ChessPiece) (c : Int)
    (hp : piece.symbol = BLACK_PAWN) : (isValidMove s piece 4 c 6 c).1 = false := by
  have hw : ¬ (BLACK_PAWN = WHITE_PAWN) := by decide
  unfold isValidMove
  simp only [hp, hw, if_false, if_true]
  split_ifs <;> first | rfl | (exfalso; omega)

theorem isValidMove_white_pawn_row3 (s : ChessBoard) (piece : ChessPiece) (c : Int)
    (hp : piece.symbol = WHITE_PAWN) : (isValidMove s piece 3 c 1 c).1 = false := by
  unfold isValidMove
  simp only [hp, if_true]
  split_ifs <;> first | rfl | (exfalso; omega)

/-- The square a piece lands on after a move along a column that is no
promotion holds the symbol of the piece. -/
theorem speculativeGrid_column_move (g : Grid) (piece : ChessPiece)
    (fromRow toRow c : Int) (promotion : Char) (h0 : toRow ≠ 0) (h7 : toRow ≠ 7) :
    (speculativeGrid g piece fromRow c toRow c promotion toRow c).symbol = piece.symbol := by
  have hC : isCastlingFlag piece c c = false := by simp [isCastlingFlag]
  have hE : isEnPassantFlag g piece c toRow c = false := by simp [isEnPassantFlag]
  unfold speculativeGrid applyToGrid rookStage
  simp only [hC, hE, Bool.false_eq_true, if_false]
  unfold promoteSq
  rw [if_neg (by intro h; rcases h.2 with h | h <;> omega)]
  rw [placeMover_apply, if_pos ⟨rfl, rfl⟩]

/-- What an accepted call of `movePiece` leaves: the last-move pair is the
move, the board is the speculative board, and `isValidMove` had accepted. -/
theorem movePiece_accepted (s : ChessBoard) (move : String) (w : Bool) (promotion : Char)
    (wc bc : List Char) (hacc : (movePiece s move w promotion wc bc).ok = true) :
    ∃ fromRow fromCol toRow toCol : Int,
      (isValidMove s (s.board fromRow fromCol) fromRow fromCol toRow toCol).1 = true ∧
      (movePiece s move w promotion wc bc).state.lastMoveFrom = (fromRow, fromCol) ∧
      (movePiece s move w promotion wc bc).state.lastMoveTo = (toRow, toCol) ∧
      (movePiece s move w promotion wc bc).state.board =
        speculativeGrid
          (isValidMove s (s.board fromRow fromCol) fromRow fromCol toRow toCol).2.board
          (s.board fromRow fromCol) fromRow fromCol toRow toCol promotion := by
  rcases movePiece_cases s move w promotion wc bc with
    h | ⟨m0, m1, m3, m4, -, -, hto, -, -, h⟩
  · rw [h] at hacc; exact absurd hacc (by simp)
  · rcases h with ⟨-, h⟩ | ⟨hv, h⟩
    · rw [h] at hacc; exact absurd hacc (by simp)
    · refine ⟨decodeRow m1, decodeCol m0, decodeRow m4, decodeCol m3, hv, ?_⟩
      rw [h] at hacc ⊢
      rw [movePieceCore_ok] at hacc
      have hchk : isKingInCheck (speculativeState
          (isValidMove s (s.board (decodeRow m1) (decodeCol m0)) (decodeRow m1) (decodeCol m0)
            (decodeRow m4) (decodeCol m3)).2
          (s.board (decodeRow m1) (decodeCol m0)) (decodeRow m1) (decodeCol m0)
          (decodeRow m4) (decodeCol m3) promotion) w = false := by
        simpa using hacc
      rw [movePieceCore_accept _ _ _ _ _ _ _ _ _ _ hchk]
      exact ⟨rfl, rfl, finalGrid_eq_speculativeGrid _ _ _ _ _ _ _ hto⟩

/-- In a state left by an accepted call of `movePiece`, neither of the two
en passant tests of `isValidMove` can succeed: the last move cannot be a move
from row 4 to row 6 that leaves a black pawn there, nor a move from row 3 to
row 1 that leaves a white pawn there. -/
theorem no_en_passant_after_accept (s : ChessBoard) (move : String) (w : Bool)
    (promotion : Char) (wc bc : List Char)
    (hacc : (movePiece s move w promotion wc bc).ok = true) (c : Int) :
    ¬ ((movePiece s move w promotion wc bc).state.lastMoveTo = (6, c) ∧
        (movePiece s move w promotion wc bc).state.lastMoveFrom = (4, c) ∧
        ((movePiece s move w promotion wc bc).state.board 6 c).symbol = BLACK_PAWN) ∧
    ¬ ((movePiece s move w promotion wc bc).state.lastMoveTo = (1, c) ∧
        (movePiece s move w promotion wc bc).state.lastMoveFrom = (3, c) ∧
        ((movePiece s move w promotion wc bc).state.board 1 c).symbol = WHITE_PAWN) := by
  obtain ⟨fromRow, fromCol, toRow, toCol, hv, hfrom, hto, hboard⟩ :=
    movePiece_accepted s move w promotion wc bc hacc
  rw [hfrom, hto, hboard]
  constructor
  · rintro ⟨h1, h2, h3⟩
    simp only [Prod.mk.injEq] at h1 h2
    obtain ⟨rfl, rfl⟩ := h1
    obtain ⟨rfl, rfl⟩ := h2
    rw [speculativeGrid_column_move _ _ _ _ _ _ (by decide) (by decide)] at h3
    rw [isValidMove_black_pawn_row4 s _ _ h3] at hv
    exact absurd hv (by simp)
  · rintro ⟨h1, h2, h3⟩
    simp only [Prod.mk.injEq] at h1 h2
    obtain ⟨rfl, rfl⟩ := h1
    obtain ⟨rfl, rfl⟩ := h2
    rw [speculativeGrid_column_move _ _ _ _ _ _ (by decide) (by decide)] at h3
    rw [isValidMove_white_pawn_row3 s _ _ h3] at hv
    exact absurd hv (by simp)

/-- A pawn move that changes the column onto an empty square is accepted by
`isValidMove` only through one of its two en passant tests. -/
theorem pawn_sideways_onto_empty (s : ChessBoard) (piece : ChessPiece)
    (fromRow fromCol toRow toCol : Int)
    (hp : piece.symbol = WHITE_PAWN ∨ piece.symbol = BLACK_PAWN)
    (hcol : fromCol ≠ toCol) (hempty : (s.board toRow toCol).symbol = EMPTY)
    (hv : (isValidMove s piece fromRow fromCol toRow toCol).1 = true) :
    (s.lastMoveTo = (6, toCol) ∧ s.lastMoveFrom = (4, toCol) ∧
      (s.board 6 toCol).symbol = BLACK_PAWN) ∨
    (s.lastMoveTo = (1, toCol) ∧ s.lastMoveFrom = (3, toCol) ∧
      (s.board 1 toCol).symbol = WHITE_PAWN) := by
  have hw : ¬ (BLACK_PAWN = WHITE_PAWN) := by decide
  unfold isValidMove at hv
  rcases hp with hp | hp
  · simp only [hp, if_true, hcol, false_and, if_false, hempty, ne_eq, not_true_eq_false] at hv
    split_ifs at hv with h1 h2 h3
    all_goals first
      | (simp at hv; done)
      | (rcases h3.2.2 with h | h
         · exact absurd h id
         · exact Or.inl h.2)
  · simp only [hp, hw, if_true, hcol, false_and, if_false, hempty, ne_eq,
      not_true_eq_false] at hv
    split_ifs at hv with h1 h2 h3
    all_goals first
      | (simp at hv; done)
      | (rcases h3.2.2 with h | h
         · exact absurd h id
         · exact Or.inr h.2)

/-- C5: en passant rights last one ply.  If a pawn's diagonal move onto an
empty square passes `isValidMove` in a state `S`, and from `S` the pawn's side
and then the other side each make an accepted move that leave the pawn, the
square beside it in the destination column and the empty destination square
as they were, then in the resulting state `isValidMove` rejects the same pawn
move, and so does `movePiece`. -/
theorem en_passant_lasts_one_ply (S : ChessBoard) (fromRow fromCol toRow toCol : Int)
    (move1 move2 : String) (promotion1 promotion2 promotion3 : Char)
    (whiteCaptures blackCaptures : List Char) (k0 k1 k3 k4 : Char)
    (hpawn : (S.board fromRow fromCol).symbol = WHITE_PAWN ∨
      (S.board fromRow fromCol).symbol = BLACK_PAWN)
    (hdiag : (toRow - fromRow).natAbs = (toCol - fromCol).natAbs ∧ fromCol ≠ toCol)
    (hempty : (S.board toRow toCol).symbol = EMPTY)
    (_hvalid : (isValidMove S (S.board fromRow fromCol) fromRow fromCol toRow toCol).1 = true)
    (hacc : allAccepted (startFrom S whiteCaptures blackCaptures)
      [⟨move1, (S.board fromRow fromCol).isWhite, promotion1⟩,
       ⟨move2, !(S.board fromRow fromCol).isWhite, promotion2⟩] = true)
    (hkeep :
      (runCalls (startFrom S whiteCaptures blackCaptures)
        [⟨move1, (S.board fromRow fromCol).isWhite, promotion1⟩,
         ⟨move2, !(S.board fromRow fromCol).isWhite, promotion2⟩]).state.board fromRow fromCol =
        S.board fromRow fromCol ∧
      (runCalls (startFrom S whiteCaptures blackCaptures)
        [⟨move1, (S.board fromRow fromCol).isWhite, promotion1⟩,
         ⟨move2, !(S.board fromRow fromCol).isWhite, promotion2⟩]).state.board fromRow toCol =
        S.board fromRow toCol ∧
      (runCalls (startFrom S whiteCaptures blackCaptures)
        [⟨move1, (S.board fromRow fromCol).isWhite, promotion1⟩,
         ⟨move2, !(S.board fromRow fromCol).isWhite, promotion2⟩]).state.board toRow toCol =
        S.board toRow toCol)
    (hdec : decodeRow k1 = fromRow ∧ decodeCol k0 = fromCol ∧ decodeRow k4 = toRow ∧
      decodeCol k3 = toCol) :
    (isValidMove
      (runCalls (startFrom S whiteCaptures blackCaptures)
        [⟨move1, (S.board fromRow fromCol).isWhite, promotion1⟩,
         ⟨move2, !(S.board fromRow fromCol).isWhite, promotion2⟩]).state
      (S.board fromRow fromCol) fromRow fromCol toRow toCol).1 = false ∧
    (movePiece
      (runCalls (startFrom S whiteCaptures blackCaptures)
        [⟨move1, (S.board fromRow fromCol).isWhite, promotion1⟩,
         ⟨move2, !(S.board fromRow fromCol).isWhite, promotion2⟩]).state
      (String.mk [k0, k1, ' ', k3, k4]) (S.board fromRow fromCol).isWhite promotion3
      (runCalls (startFrom S whiteCaptures blackCaptures)
        [⟨move1, (S.board fromRow fromCol).isWhite, promotion1⟩,
         ⟨move2, !(S.board fromRow fromCol).isWhite, promotion2⟩]).whiteCaptures
      (runCalls (startFrom S whiteCaptures blackCaptures)
        [⟨move1, (S.board fromRow fromCol).isWhite, promotion1⟩,
         ⟨move2, !(S.board fromRow fromCol).isWhite, promotion2⟩]).blackCaptures).ok = false := by
  simp only [allAccepted, Bool.and_true, Bool.and_eq_true] at hacc
  simp only [runCalls] at hkeep ⊢
  obtain ⟨-, hacc2⟩ := hacc
  obtain ⟨hk1, -, hk3⟩ := hkeep
  have hno := no_en_passant_after_accept _ _ _ _ _ _ hacc2 toCol
  have hrej : (isValidMove
      (movePiece
        (movePiece (startFrom S whiteCaptures blackCaptures).state move1
          (S.board fromRow fromCol).isWhite promotion1
          (startFrom S whiteCaptures blackCaptures).whiteCaptures
          (startFrom S whiteCaptures blackCaptures).blackCaptures).state
        move2 (!(S.board fromRow fromCol).isWhite) promotion2
        (movePiece (startFrom S whiteCaptures blackCaptures).state move1
          (S.board fromRow fromCol).isWhite promotion1
          (startFrom S whiteCaptures blackCaptures).whiteCaptures
          (startFrom S whiteCaptures blackCaptures).blackCaptures).whiteCaptures
        (movePiece (startFrom S whiteCaptures blackCaptures).state move1
          (S.board fromRow fromCol).isWhite promotion1
          (startFrom S whiteCaptures blackCaptures).whiteCaptures
          (startFrom S whiteCaptures blackCaptures).blackCaptures).blackCaptures).state
      (S.board fromRow fromCol) fromRow fromCol toRow toCol).1 = false := by
    by_contra hv
    rcases pawn_sideways_onto_empty _ _ _ _ _ _ hpawn hdiag.2 (by rw [hk3]; exact hempty)
      (by simpa using hv) with h | h
    · exact hno.1 h
    · exact hno.2 h
  refine ⟨hrej, ?_⟩
  rcases movePiece_cases _ (String.mk [k0, k1, ' ', k3, k4]) (S.board fromRow fromCol).isWhite
    promotion3 _ _ with h | ⟨n0, n1, n3, n4, hdata, -, -, -, -, h⟩
  · rw [h]
  · simp only [List.cons.injEq, and_true, true_and] at hdata
    obtain ⟨e0, e1, e3, e4⟩ := hdata
    subst e0 e1 e3 e4
    rcases h with ⟨-, h⟩ | ⟨hv, -⟩
    · rw [h]
    · rw [hdec.1, hdec.2.1, hdec.2.2.1, hdec.2.2.2, hk1, hrej] at hv
      exact absurd hv (by simp)

/-- C5 at a concrete input: in `codeEnPassantPosition` the move e2-d3 passes
`isValidMove`; after the accepted moves `g1 h1` (white) and `e8 d8` (black) it
is rejected. -/
theorem en_passant_lasts_one_ply_witness :
    (isValidMove
      (runCalls (startFrom codeEnPassantPosition [] [])
        [⟨"g1 h1", (codeEnPassantPosition.board 6 4).isWhite, 'Q'⟩,
         ⟨"e8 d8", !(codeEnPassantPosition.board 6 4).isWhite, 'Q'⟩]).state
      (codeEnPassantPosition.board 6 4) 6 4 5 3).1 = false :=
  (en_passant_lasts_one_ply codeEnPassantPosition 6 4 5 3 "g1 h1" "e8 d8" 'Q' 'Q' 'Q' [] []
    'e' '2' 'd' '3' (by decide) (by decide) (by decide) (by decide) (by decide) (by decide)
    (by decide)).1

/-! ## Checkmate, stalemate and the initial position -/

/-- C17: for every state and colour, `isCheckmate` is
`isKingInCheck && !hasLegalMoves` and `isStalemate` is
`!isKingInCheck && !hasLegalMoves`; the two are never both true, and when
either is true `hasLegalMoves` is false. -/
theorem checkmate_stalemate_spec (s : ChessBoard) (c : Bool) :
    (isCheckmate s c).1 = (isKingInCheck s c && !(hasLegalMoves s c).1) ∧
    (isStalemate s c).1 = (!isKingInCheck s c && !(hasLegalMoves s c).1) ∧
    ¬ ((isCheckmate s c).1 = true ∧ (isStalemate s c).1 = true) ∧
    ((isCheckmate s c).1 = true ∨ (isStalemate s c).1 = true →
      (hasLegalMoves s c).1 = false) := by
  unfold isCheckmate isStalemate
  cases isKingInCheck s c <;> cases (hasLegalMoves s c).1 <;> simp

/-- C13: for a pawn symbol and a column `c` of the board: a white pawn on row
6 may advance one square when the square ahead is empty and two squares when
both squares ahead are empty (a black pawn on row 1 likewise), and from any
other row every two-square advance is rejected, whatever the board and the
last-move pair. -/
theorem pawn_advances (s : ChessBoard) (piece : ChessPiece) (c : Int)
    (hc : 0 ≤ c ∧ c < 8) :
    (piece.symbol = WHITE_PAWN →
      ((s.board 5 c).symbol = EMPTY → (isValidMove s piece 6 c 5 c).1 = true) ∧
      ((s.board 5 c).symbol = EMPTY → (s.board 4 c).symbol = EMPTY →
        (isValidMove s piece 6 c 4 c).1 = true) ∧
      (∀ r, r ≠ 6 → (isValidMove s piece r c (r - 2) c).1 = false)) ∧
    (piece.symbol = BLACK_PAWN →
      ((s.board 2 c).symbol = EMPTY → (isValidMove s piece 1 c 2 c).1 = true) ∧
      ((s.board 2 c).symbol = EMPTY → (s.board 3 c).symbol = EMPTY →
        (isValidMove s piece 1 c 3 c).1 = true) ∧
      (∀ r, r ≠ 1 → (isValidMove s piece r c (r + 2) c).1 = false)) := by
  have hw : ¬ (BLACK_PAWN = WHITE_PAWN) := by decide
  obtain ⟨h0, h8⟩ := hc
  have hv : ∀ r : Int, 0 ≤ r → r < 8 → isValidPosition r c = true := by
    intro r hr0 hr8
    simp only [isValidPosition, Bool.and_eq_true, decide_eq_true_eq]
    omega
  constructor
  · intro hp
    refine ⟨?_, ?_, ?_⟩
    · intro he
      unfold isValidMove
      simp only [hp, if_true, he, hv 6 (by decide) (by decide), hv 5 (by decide) (by decide)]
      simp
    · intro he5 he4
      unfold isValidMove
      simp only [hp, if_true, he4, hv 6 (by decide) (by decide), hv 4 (by decide) (by decide)]
      simp [he5]
    · intro r hr
      unfold isValidMove
      simp only [hp, if_true]
      split_ifs <;> first | rfl | (exfalso; omega)
  · intro hp
    refine ⟨?_, ?_, ?_⟩
    · intro he
      unfold isValidMove
      simp only [hp, hw, if_false, if_true, he, hv 1 (by decide) (by decide),
        hv 2 (by decide) (by decide)]
      simp
    · intro he2 he3
      unfold isValidMove
      simp only [hp, hw, if_false, if_true, he3, hv 1 (by decide) (by decide),
        hv 3 (by decide) (by decide)]
      simp [he2]
    · intro r hr
      unfold isValidMove
      simp only [hp, hw, if_false, if_true]
      split_ifs <;> first | rfl | (exfalso; omega)

/-- C13 at a concrete input: in the initial position the white e-pawn may
advance two squares. -/
theorem pawn_advances_witness :
    (isValidMove initialBoard (initialBoard.board 6 4) 6 4 4 4).1 = true :=
  ((pawn_advances initialBoard (initialBoard.board 6 4) 4 (by decide)).1 (by decide)).2.1
    (by decide) (by decide)

/-! ## The two clocks -/

theorem isValidMove_symbol (s : ChessBoard) (piece : ChessPiece)
    (fromRow fromCol toRow toCol : Int) (hrook : RooksCarryColour s) (r c : Int) :
    ((isValidMove s piece fromRow fromCol toRow toCol).2.board r c).symbol =
      (s.board r c).symbol := by
  rcases isValidMove_sameUpToEmpty s piece fromRow fromCol toRow toCol hrook r c with h | h
  · rw [h]
  · rw [h.2, h.1]; rfl

theorem isEnPassantFlag_congr (b b' : Grid) (piece : ChessPiece) (fromCol toRow toCol : Int)
    (h : (b toRow toCol).symbol = (b' toRow toCol).symbol) :
    isEnPassantFlag b piece fromCol toRow toCol = isEnPassantFlag b' piece fromCol toRow toCol := by
  unfold isEnPassantFlag
  rw [h]

theorem isCaptureFlag_congr (b b' : Grid) (piece : ChessPiece) (fromCol toRow toCol : Int)
    (h : (b toRow toCol).symbol = (b' toRow toCol).symbol) :
    isCaptureFlag b piece fromCol toRow toCol = isCaptureFlag b' piece fromCol toRow toCol := by
  unfold isCaptureFlag
  rw [isEnPassantFlag_congr b b' piece fromCol toRow toCol h, h]

/-- The state that an accepted call of `movePiece` on a decoded move leaves,
in terms of the board that `isValidMove` left. -/
theorem movePiece_accept_eq (s : ChessBoard) (m0 m1 m3 m4 : Char) (c : Bool)
    (promotion : Char) (wc bc : List Char)
    (hacc : (movePiece s (String.mk [m0, m1, ' ', m3, m4]) c promotion wc bc).ok = true) :
    isValidPosition (decodeRow m1) (decodeCol m0) = true ∧
    isValidPosition (decodeRow m4) (decodeCol m3) = true ∧
    (s.board (decodeRow m1) (decodeCol m0)).symbol ≠ EMPTY ∧
    (s.board (decodeRow m1) (decodeCol m0)).isWhite = c ∧
    (isValidMove s (s.board (decodeRow m1) (decodeCol m0)) (decodeRow m1) (decodeCol m0)
      (decodeRow m4) (decodeCol m3)).1 = true ∧
    isKingInCheck (speculativeState
      (isValidMove s (s.board (decodeRow m1) (decodeCol m0)) (decodeRow m1) (decodeCol m0)
        (decodeRow m4) (decodeCol m3)).2
      (s.board (decodeRow m1) (decodeCol m0)) (decodeRow m1) (decodeCol m0)
      (decodeRow m4) (decodeCol m3) promotion) c = false ∧
    movePiece s (String.mk [m0, m1, ' ', m3, m4]) c promotion wc bc =
      movePieceCore
        (isValidMove s (s.board (decodeRow m1) (decodeCol m0)) (decodeRow m1) (decodeCol m0)
          (decodeRow m4) (decodeCol m3)).2
        (s.board (decodeRow m1) (decodeCol m0)) (decodeRow m1) (decodeCol m0)
        (decodeRow m4) (decodeCol m3) c promotion wc bc := by
  rcases movePiece_cases s (String.mk [m0, m1, ' ', m3, m4]) c promotion wc bc with
    h | ⟨n0, n1, n3, n4, hdata, hfrom, hto, hpiece, hside, h⟩
  · rw [h] at hacc; exact absurd hacc (by simp)
  · simp only [List.cons.injEq, and_true, true_and] at hdata
    obtain ⟨e0, e1, e3, e4⟩ := hdata
    subst e0 e1 e3 e4
    rcases h with ⟨-, h⟩ | ⟨hv, h⟩
    · rw [h] at hacc; exact absurd hacc (by simp)
    · rw [h] at hacc
      rw [movePieceCore_ok] at hacc
      exact ⟨hfrom, hto, hpiece, hside, hv, by simpa using hacc, h⟩

theorem wrapInt32_range (x : Int) :
    -2147483648 ≤ wrapInt32 x ∧ wrapInt32 x ≤ 2147483647 := by
  unfold wrapInt32
  omega

theorem wrapInt32_of_range (x : Int) (h1 : -2147483648 ≤ x) (h2 : x ≤ 2147483647) :
    wrapInt32 x = x := by
  unfold wrapInt32
  omega

theorem wrapInt32_add (a b : Int) : wrapInt32 (wrapInt32 a + b) = wrapInt32 (a + b) := by
  unfold wrapInt32
  omega

/-- On a board whose rooks carry their colour, whenever `movePiece` accepts a
move, `halfMoveClock` afterwards is 0 if the move was a capture (the
destination was occupied, or the move is an en passant move) or the moved
piece was a pawn, and otherwise the `int` value of its previous value plus
1. -/
theorem halfMoveClock_update (s : ChessBoard) (m0 m1 m3 m4 : Char) (c : Bool)
    (promotion : Char) (whiteCaptures blackCaptures : List Char)
    (hrook : RooksCarryColour s)
    (hacc : (movePiece s (String.mk [m0, m1, ' ', m3, m4]) c promotion whiteCaptures
      blackCaptures).ok = true) :
    (movePiece s (String.mk [m0, m1, ' ', m3, m4]) c promotion whiteCaptures
        blackCaptures).state.halfMoveClock =
      if ((s.board (decodeRow m4) (decodeCol m3)).symbol ≠ EMPTY ∨
          isEnPassantFlag s.board (s.board (decodeRow m1) (decodeCol m0)) (decodeCol m0)
            (decodeRow m4) (decodeCol m3) = true) ∨
          isPawnMoveFlag (s.board (decodeRow m1) (decodeCol m0)) = true then 0
      else wrapInt32 (s.halfMoveClock + 1) := by
  obtain ⟨-, -, -, -, -, hchk, he⟩ :=
    movePiece_accept_eq s m0 m1 m3 m4 c promotion whiteCaptures blackCaptures hacc
  have hsym := isValidMove_symbol s (s.board (decodeRow m1) (decodeCol m0)) (decodeRow m1)
    (decodeCol m0) (decodeRow m4) (decodeCol m3) hrook (decodeRow m4) (decodeCol m3)
  have hsc := (isValidMove_scalars s (s.board (decodeRow m1) (decodeCol m0)) (decodeRow m1)
    (decodeCol m0) (decodeRow m4) (decodeCol m3)).2.2.2.2.2.2.1
  rw [he, movePieceCore_accept _ _ _ _ _ _ _ _ _ _ hchk]
  simp only
  rw [isCaptureFlag_congr _ s.board _ _ _ _ hsym, hsc]
  unfold isCaptureFlag
  by_cases hE : isEnPassantFlag s.board (s.board (decodeRow m1) (decodeCol m0)) (decodeCol m0)
      (decodeRow m4) (decodeCol m3) = true
  · simp [hE]
  · simp [hE]

/-- C18 (amended): on a board whose rooks carry their colour and whose
`halfMoveClock` is an `int` below 2147483647, whenever `movePiece` accepts a
move, `halfMoveClock` afterwards is 0 if the move was a capture (the
destination was occupied, or the move is an en passant move) or the moved
piece was a pawn, and otherwise its previous value plus 1. -/
theorem halfMoveClock_after_accept (s : ChessBoard) (m0 m1 m3 m4 : Char) (c : Bool)
    (promotion : Char) (whiteCaptures blackCaptures : List Char)
    (hrook : RooksCarryColour s)
    (hlow : -2147483648 ≤ s.halfMoveClock) (hhigh : s.halfMoveClock < 2147483647)
    (hacc : (movePiece s (String.mk [m0, m1, ' ', m3, m4]) c promotion whiteCaptures
      blackCaptures).ok = true) :
    (movePiece s (String.mk [m0, m1, ' ', m3, m4]) c promotion whiteCaptures
        blackCaptures).state.halfMoveClock =
      if ((s.board (decodeRow m4) (decodeCol m3)).symbol ≠ EMPTY ∨
          isEnPassantFlag s.board (s.board (decodeRow m1) (decodeCol m0)) (decodeCol m0)
            (decodeRow m4) (decodeCol m3) = true) ∨
          isPawnMoveFlag (s.board (decodeRow m1) (decodeCol m0)) = true then 0
      else s.halfMoveClock + 1 := by
  rw [halfMoveClock_update s m0 m1 m3 m4 c promotion whiteCaptures blackCaptures hrook hacc,
    wrapInt32_of_range (s.halfMoveClock + 1) (by omega) (by omega)]

/-- C18 as stated fails at the largest `int`: on the board that `loadGame`
builds from the header `1 1 1 1 2147483647 2147483647` and the lines of the
starting position, the accepted knight move `g1 f3` is neither a capture nor
a pawn move, and it takes `halfMoveClock` from 2147483647 to -2147483648, not
to the previous value plus 1; `isDraw` is true before the move and false after
it. -/
theorem halfMoveClock_overflows :
    (movePiece intMaxPosition (String.mk ['g', '1', ' ', 'f', '3']) true 'Q' [] []).ok = true ∧
    (intMaxPosition.board (decodeRow '3') (decodeCol 'f')).symbol = EMPTY ∧
    isEnPassantFlag intMaxPosition.board (intMaxPosition.board (decodeRow '1') (decodeCol 'g'))
      (decodeCol 'g') (decodeRow '3') (decodeCol 'f') = false ∧
    isPawnMoveFlag (intMaxPosition.board (decodeRow '1') (decodeCol 'g')) = false ∧
    intMaxPosition.halfMoveClock = 2147483647 ∧
    (movePiece intMaxPosition (String.mk ['g', '1', ' ', 'f', '3']) true 'Q' []
      []).state.halfMoveClock = -2147483648 ∧
    (movePiece intMaxPosition (String.mk ['g', '1', ' ', 'f', '3']) true 'Q' []
      []).state.halfMoveClock ≠ intMaxPosition.halfMoveClock + 1 ∧
    isDraw intMaxPosition = true ∧
    isDraw (movePiece intMaxPosition (String.mk ['g', '1', ' ', 'f', '3']) true 'Q' []
      []).state = false := by
  decide

/-- C18 at a concrete input: the first move `e2 e4` is a pawn move and leaves
the clock at 0. -/
theorem halfMoveClock_after_accept_witness :
    (movePiece initialBoard (String.mk ['e', '2', ' ', 'e', '4']) true 'Q' []
      []).state.halfMoveClock = 0 :=
  (halfMoveClock_after_accept initialBoard 'e' '2' 'e' '4' true 'Q' [] []
    rooksCarryColour_initialBoard (by decide) (by decide) (by decide)).trans (by decide)

/-- What any call of `movePiece` does to `fullMoveNumber`: the `int` increment
when the call returns true for black, and nothing otherwise. -/
theorem movePiece_fullMoveNumber (s : ChessBoard) (move : String) (c : Bool)
    (promotion : Char) (wc bc : List Char) :
    (movePiece s move c promotion wc bc).state.fullMoveNumber =
      if (movePiece s move c promotion wc bc).ok = true ∧ c = false then
        wrapInt32 (s.fullMoveNumber + 1)
      else s.fullMoveNumber := by
  rcases movePiece_cases s move c promotion wc bc with
    h | ⟨m0, m1, m3, m4, -, -, -, -, -, h⟩
  · rw [h]; simp
  · have hsc := (isValidMove_scalars s (s.board (decodeRow m1) (decodeCol m0)) (decodeRow m1)
      (decodeCol m0) (decodeRow m4) (decodeCol m3)).2.2.2.2.2.2.2
    rcases h with ⟨-, h⟩ | ⟨-, h⟩
    · rw [h]; simp [hsc]
    · rw [h]
      by_cases hchk : isKingInCheck (speculativeState
          (isValidMove s (s.board (decodeRow m1) (decodeCol m0)) (decodeRow m1) (decodeCol m0)
            (decodeRow m4) (decodeCol m3)).2
          (s.board (decodeRow m1) (decodeCol m0)) (decodeRow m1) (decodeCol m0)
          (decodeRow m4) (decodeCol m3) promotion) c = true
      · rw [movePieceCore_reject _ _ _ _ _ _ _ _ _ _ hchk]; simp [hsc]
      · have hchk' := Bool.eq_false_iff.mpr hchk
        rw [movePieceCore_accept _ _ _ _ _ _ _ _ _ _ hchk']
        cases c <;> simp [hsc]

/-- After any sequence of `movePiece` calls, `fullMoveNumber` is the `int`
value of its starting value plus the number of accepted black moves. -/
theorem runCalls_fullMoveNumber (calls : List Call) : ∀ r : MoveResult,
    -2147483648 ≤ r.state.fullMoveNumber → r.state.fullMoveNumber ≤ 2147483647 →
    (runCalls r calls).state.fullMoveNumber =
      wrapInt32 (r.state.fullMoveNumber + (acceptedBlackCount r calls : Int)) := by
  induction calls with
  | nil =>
    intro r h1 h2
    simp only [runCalls, acceptedBlackCount, Nat.cast_zero, add_zero]
    exact (wrapInt32_of_range _ h1 h2).symm
  | cons k rest ih =>
    intro r h1 h2
    have hstep := movePiece_fullMoveNumber r.state k.move k.isWhiteTurn k.promotion
      r.whiteCaptures r.blackCaptures
    rw [runCalls, acceptedBlackCount]
    by_cases hb : (movePiece r.state k.move k.isWhiteTurn k.promotion r.whiteCaptures
        r.blackCaptures).ok = true ∧ k.isWhiteTurn = false
    · rw [if_pos hb] at hstep ⊢
      have hr := wrapInt32_range (r.state.fullMoveNumber + 1)
      rw [ih _ (by rw [hstep]; exact hr.1) (by rw [hstep]; exact hr.2), hstep, wrapInt32_add]
      push_cast
      congr 1
      ring
    · rw [if_neg hb] at hstep ⊢
      rw [ih _ (by rw [hstep]; exact h1) (by rw [hstep]; exact h2), hstep]
      simp

/-- C19 (amended): whenever `movePiece` accepts a move, `fullMoveNumber`
afterwards is unchanged if the mover was white, and is its previous value plus
1 if the mover was black and the previous value is an `int` below 2147483647;
and after any sequence of calls from the initial position (where it is 1) with
fewer than 2147483647 accepted black moves it is 1 plus the number of accepted
black moves of the sequence. -/
theorem fullMoveNumber_counts_black_moves (s : ChessBoard) (move : String) (c : Bool)
    (promotion : Char) (whiteCaptures blackCaptures : List Char) (calls : List Call) :
    ((movePiece s move c promotion whiteCaptures blackCaptures).ok = true →
      (c = true →
        (movePiece s move c promotion whiteCaptures blackCaptures).state.fullMoveNumber =
          s.fullMoveNumber) ∧
      (c = false → -2147483648 ≤ s.fullMoveNumber → s.fullMoveNumber < 2147483647 →
        (movePiece s move c promotion whiteCaptures blackCaptures).state.fullMoveNumber =
          s.fullMoveNumber + 1)) ∧
    initialBoard.fullMoveNumber = 1 ∧
    (acceptedBlackCount newGame calls < 2147483647 →
      (runCalls newGame calls).state.fullMoveNumber =
        1 + (acceptedBlackCount newGame calls : Int)) := by
  refine ⟨?_, rfl, ?_⟩
  · intro hacc
    rw [movePiece_fullMoveNumber, hacc]
    constructor
    · intro hc
      rw [if_neg (by rw [hc]; simp)]
    · intro hc hlow hhigh
      rw [if_pos ⟨rfl, hc⟩]
      exact wrapInt32_of_range _ (by omega) (by omega)
  · intro hcount
    rw [runCalls_fullMoveNumber calls newGame (by decide) (by decide)]
    have h1 : newGame.state.fullMoveNumber = 1 := rfl
    rw [h1]
    exact wrapInt32_of_range _ (by omega) (by omega)

/-- C19 as stated fails at the largest `int`: on the board that `loadGame`
builds from the header `1 1 1 1 2147483647 2147483647` and the lines of the
starting position, the accepted black move `g8 f6` takes `fullMoveNumber` from
2147483647 to -2147483648, not to the previous value plus 1. -/
theorem fullMoveNumber_overflows :
    (movePiece intMaxPosition "g8 f6" false 'Q' [] []).ok = true ∧
    intMaxPosition.fullMoveNumber = 2147483647 ∧
    (movePiece intMaxPosition "g8 f6" false 'Q' [] []).state.fullMoveNumber = -2147483648 ∧
    (movePiece intMaxPosition "g8 f6" false 'Q' [] []).state.fullMoveNumber ≠
      intMaxPosition.fullMoveNumber + 1 := by
  decide

/-- C19 at a concrete input: the accepted black reply `e7 e5` to `e2 e4` takes
the move number from 1 to 2. -/
theorem fullMoveNumber_counts_black_moves_witness :
    (movePiece (runCalls newGame [⟨"e2 e4", true, 'Q'⟩]).state "e7 e5" false 'Q' []
      []).state.fullMoveNumber = 2 :=
  (((fullMoveNumber_counts_black_moves (runCalls newGame [⟨"e2 e4", true, 'Q'⟩]).state
    "e7 e5" false 'Q' [] [] []).1 (by decide)).2 rfl (by decide) (by decide)).trans (by decide)

/-- C20: `isDraw` is true exactly when `halfMoveClock >= 50`; and on a board
whose rooks carry their colour, after an accepted move made with the clock at
49, `isDraw` is true if and only if the move was neither a capture (the
destination was occupied, or the move is an en passant move) nor a pawn move;
a capture or pawn move leaves the clock at 0. -/
theorem isDraw_iff_clock (s : ChessBoard) (m0 m1 m3 m4 : Char) (c : Bool)
    (promotion : Char) (whiteCaptures blackCaptures : List Char) :
    (isDraw s = true ↔ s.halfMoveClock ≥ 50) ∧
    (RooksCarryColour s → s.halfMoveClock = 49 →
      (movePiece s (String.mk [m0, m1, ' ', m3, m4]) c promotion whiteCaptures
        blackCaptures).ok = true →
      (isDraw (movePiece s (String.mk [m0, m1, ' ', m3, m4]) c promotion whiteCaptures
          blackCaptures).state = true ↔
        ¬ (((s.board (decodeRow m4) (decodeCol m3)).symbol ≠ EMPTY ∨
            isEnPassantFlag s.board (s.board (decodeRow m1) (decodeCol m0)) (decodeCol m0)
              (decodeRow m4) (decodeCol m3) = true) ∨
          isPawnMoveFlag (s.board (decodeRow m1) (decodeCol m0)) = true)) ∧
      ((((s.board (decodeRow m4) (decodeCol m3)).symbol ≠ EMPTY ∨
            isEnPassantFlag s.board (s.board (decodeRow m1) (decodeCol m0)) (decodeCol m0)
              (decodeRow m4) (decodeCol m3) = true) ∨
          isPawnMoveFlag (s.board (decodeRow m1) (decodeCol m0)) = true) →
        (movePiece s (String.mk [m0, m1, ' ', m3, m4]) c promotion whiteCaptures
          blackCaptures).state.halfMoveClock = 0)) := by
  refine ⟨by simp [isDraw], fun hrook h49 hacc => ?_⟩
  have hclock := halfMoveClock_update s m0 m1 m3 m4 c promotion whiteCaptures blackCaptures
    hrook hacc
  have h50 : wrapInt32 (s.halfMoveClock + 1) = 50 := by
    rw [h49]
    unfold wrapInt32
    omega
  simp only [isDraw, decide_eq_true_eq]
  rw [hclock, h50]
  split_ifs with h
  · exact ⟨⟨fun h0 => absurd h0 (by omega), fun hn => absurd h hn⟩, fun _ => rfl⟩
  · exact ⟨⟨fun _ => h, fun _ => by omega⟩, fun h1 => absurd h1 h⟩

/-- C20 at a concrete input: with the clock at 49 the knight move `g1 f3`
makes the game a draw. -/
theorem isDraw_iff_clock_witness :
    isDraw (movePiece clock49Position (String.mk ['g', '1', ' ', 'f', '3']) true 'Q' []
      []).state = true :=
  (((isDraw_iff_clock clock49Position 'g' '1' 'f' '3' true 'Q' [] []).2
    (rooksCarryColour_loadRows initialBoard clock49Position _
      rooksCarryColour_initialBoard rfl) rfl (by decide)).1).mpr (by decide)

/-! ## Rook moves and the castling flags -/

/-- C11 as stated fails: in the game `rookReturnCalls`, all of whose moves are
accepted, a white rook stands on its home corner h1 and the white kingside flag
is set; the move `h1 h2` of that rook is accepted and the flag is still set
afterwards.  (The rook came from a1, so its `hasMoved` mark is set and the
rook block of `movePiece` is skipped.) -/
theorem rook_leaves_corner_flag_stays :
    allAccepted newGame rookReturnCalls = true ∧
    (runCalls newGame rookReturnCalls).state.board 7 7 =
      { symbol := WHITE_ROOK, isWhite := true, hasMoved := true } ∧
    (runCalls newGame rookReturnCalls).state.whiteCanCastleKingside = true ∧
    (movePiece (runCalls newGame rookReturnCalls).state "h1 h2" true 'Q'
      (runCalls newGame rookReturnCalls).whiteCaptures
      (runCalls newGame rookReturnCalls).blackCaptures).ok = true ∧
    (movePiece (runCalls newGame rookReturnCalls).state "h1 h2" true 'Q'
      (runCalls newGame rookReturnCalls).whiteCaptures
      (runCalls newGame rookReturnCalls).blackCaptures).state.whiteCanCastleKingside = true := by
  decide!

/-- C11 (amended): whenever `movePiece` accepts a move of a rook whose
`hasMoved` mark is not set from column 0 or column 7, the castling flag of the
rook symbol's colour for the matching side (queenside for column 0, kingside
for column 7) is false afterwards, and the flag for the other side of that
colour is as it was before the call. -/
theorem unmoved_rook_move_clears_flag (s : ChessBoard) (m0 m1 m3 m4 : Char) (c : Bool)
    (promotion : Char) (whiteCaptures blackCaptures : List Char)
    (hunmoved : (s.board (decodeRow m1) (decodeCol m0)).hasMoved = false)
    (hacc : (movePiece s (String.mk [m0, m1, ' ', m3, m4]) c promotion whiteCaptures
      blackCaptures).ok = true) :
    ((s.board (decodeRow m1) (decodeCol m0)).symbol = WHITE_ROOK → decodeCol m0 = 0 →
      (movePiece s (String.mk [m0, m1, ' ', m3, m4]) c promotion whiteCaptures
        blackCaptures).state.whiteCanCastleQueenside = false ∧
      (movePiece s (String.mk [m0, m1, ' ', m3, m4]) c promotion whiteCaptures
        blackCaptures).state.whiteCanCastleKingside = s.whiteCanCastleKingside) ∧
    ((s.board (decodeRow m1) (decodeCol m0)).symbol = WHITE_ROOK → decodeCol m0 = 7 →
      (movePiece s (String.mk [m0, m1, ' ', m3, m4]) c promotion whiteCaptures
        blackCaptures).state.whiteCanCastleKingside = false ∧
      (movePiece s (String.mk [m0, m1, ' ', m3, m4]) c promotion whiteCaptures
        blackCaptures).state.whiteCanCastleQueenside = s.whiteCanCastleQueenside) ∧
    ((s.board (decodeRow m1) (decodeCol m0)).symbol = BLACK_ROOK → decodeCol m0 = 0 →
      (movePiece s (String.mk [m0, m1, ' ', m3, m4]) c promotion whiteCaptures
        blackCaptures).state.blackCanCastleQueenside = false ∧
      (movePiece s (String.mk [m0, m1, ' ', m3, m4]) c promotion whiteCaptures
        blackCaptures).state.blackCanCastleKingside = s.blackCanCastleKingside) ∧
    ((s.board (decodeRow m1) (decodeCol m0)).symbol = BLACK_ROOK → decodeCol m0 = 7 →
      (movePiece s (String.mk [m0, m1, ' ', m3, m4]) c promotion whiteCaptures
        blackCaptures).state.blackCanCastleKingside = false ∧
      (movePiece s (String.mk [m0, m1, ' ', m3, m4]) c promotion whiteCaptures
        blackCaptures).state.blackCanCastleQueenside = s.blackCanCastleQueenside) := by
  obtain ⟨-, -, -, -, -, hchk, he⟩ :=
    movePiece_accept_eq s m0 m1 m3 m4 c promotion whiteCaptures blackCaptures hacc
  obtain ⟨-, -, hwk, hwq, hbk, hbq, -, -⟩ :=
    isValidMove_scalars s (s.board (decodeRow m1) (decodeCol m0)) (decodeRow m1)
      (decodeCol m0) (decodeRow m4) (decodeCol m3)
  rw [he, movePieceCore_accept _ _ _ _ _ _ _ _ _ _ hchk]
  simp only [hwk, hwq, hbk, hbq]
  generalize s.board (decodeRow m1) (decodeCol m0) = piece at hunmoved ⊢
  generalize decodeCol m0 = fromCol
  refine ⟨?_, ?_, ?_, ?_⟩ <;> intro hsym hcol <;>
    simp [kingsideAfter, queensideAfter, isCastlingFlag, hsym, hcol, hunmoved, WHITE_ROOK,
      BLACK_ROOK, WHITE_KING, BLACK_KING]

/-- C11 (amended) at a concrete input: after `a2 a4`, `a7 a5` the first move
`a1 a3` of the white queenside rook clears the white queenside flag. -/
theorem unmoved_rook_move_clears_flag_witness :
    (movePiece (runCalls newGame [⟨"a2 a4", true, 'Q'⟩, ⟨"a7 a5", false, 'Q'⟩]).state
      (String.mk ['a', '1', ' ', 'a', '3']) true 'Q' [] []).state.whiteCanCastleQueenside =
        false :=
  ((unmoved_rook_move_clears_flag
    (runCalls newGame [⟨"a2 a4", true, 'Q'⟩, ⟨"a7 a5", false, 'Q'⟩]).state
    'a' '1' 'a' '3' true 'Q' [] [] (by decide) (by decide)).1 (by decide) (by decide)).1

/-! ## Castling and the rook's square -/

/-- C12 as stated fails: in `attackedRookPosition` the black rook on h8
attacks h1, and `movePiece` accepts the white move `e1 g1`. -/
theorem castling_with_attacked_rook :
    (attackedRookPosition.board 0 7).symbol = BLACK_ROOK ∧
    (attackedRookPosition.board 0 7).isWhite = false ∧
    canPieceAttack attackedRookPosition (attackedRookPosition.board 0 7) 0 7 7 7 = true ∧
    (attackedRookPosition.board 7 4).symbol = WHITE_KING ∧
    (attackedRookPosition.board 7 7).symbol = WHITE_ROOK ∧
    (attackedRookPosition.board 7 7).isWhite = true ∧
    (movePiece attackedRookPosition "e1 g1" true 'Q' [] []).ok = true := by
  decide

/-- C12 (amended): with the white king on e1, `movePiece` accepts the white
move `e1 g1` only if f1 and g1 are empty, the white kingside flag is set, h1
holds a white rook symbol with no `hasMoved` mark, and white is not in check
with the king on e1, on f1 or on g1 (none of these three squares is attacked
by a black piece; h1 is not tested). -/
theorem white_kingside_castling_only_if (s : ChessBoard) (promotion : Char)
    (whiteCaptures blackCaptures : List Char)
    (hking : (s.board 7 4).symbol = WHITE_KING)
    (hacc : (movePiece s "e1 g1" true promotion whiteCaptures blackCaptures).ok = true) :
    (s.board 7 5).symbol = EMPTY ∧ (s.board 7 6).symbol = EMPTY ∧
    s.whiteCanCastleKingside = true ∧
    (s.board 7 7).symbol = WHITE_ROOK ∧ (s.board 7 7).hasMoved = false ∧
    isKingInCheck s true = false ∧
    isKingInCheck (s.withGrid (kingAt s.board 7 4 5 (s.board 7 4))) true = false ∧
    isKingInCheck (s.withGrid (kingAt s.board 7 4 6 (s.board 7 4))) true = false := by
  have hacc' : (movePiece s (String.mk ['e', '1', ' ', 'g', '1']) true promotion whiteCaptures
      blackCaptures).ok = true := hacc
  obtain ⟨hfrom, hto, -, hside, hv, -, -⟩ :=
    movePiece_accept_eq s 'e' '1' 'g' '1' true promotion whiteCaptures blackCaptures hacc'
  have hr : decodeRow '1' = 7 := by decide
  have hce : decodeCol 'e' = 4 := by decide
  have hcg : decodeCol 'g' = 6 := by decide
  simp only [hr, hce, hcg] at hv hside
  have hC : isCastlingFlag (s.board 7 4) 4 6 = true := by
    simp [isCastlingFlag, hking]
  have hbranch := (isValidMove_accept_castle s (s.board 7 4) 7 4 7 6 hC hv).1
  rw [hbranch] at hv
  have hv2 : (castlingBranch s (s.board 7 4) 7 4 (4 + 2)).1 = true := hv
  obtain ⟨hflag, hcorner, hcm, hbetween, h0, h1, h2⟩ :=
    (castling_kingside_iff s (s.board 7 4) 7 4 (by decide) (by decide)).mp hv2
  simp only [hside, castlingFlagOf, if_true] at hflag hcorner h0 h1 h2
  exact ⟨hbetween 5 (by decide) (by decide), hbetween 6 (by decide) (by decide), hflag, hcorner,
    hcm, h0, h1, h2⟩

/-- C12 (amended) at a concrete input: in `castlingPosition` the accepted
`e1 g1` finds f1 empty. -/
theorem white_kingside_castling_only_if_witness :
    (castlingPosition.board 7 5).symbol = EMPTY :=
  (white_kingside_castling_only_if castlingPosition 'Q' [] [] (by decide) (by decide)).1

/-! ## `hasLegalMoves` -/

theorem sameUpToEmpty_refl (b : Grid) : SameUpToEmpty b b := fun _ _ => Or.inl rfl

theorem sameUpToEmpty_trans {b b' b'' : Grid} (h1 : SameUpToEmpty b b')
    (h2 : SameUpToEmpty b' b'') : SameUpToEmpty b b'' := by
  intro r c
  rcases h2 r c with h | ⟨he, h⟩
  · rw [h]; exact h1 r c
  · right
    refine ⟨?_, h⟩
    rcases h1 r c with h' | ⟨he', -⟩
    · rw [← h']; exact he
    · exact he'

theorem sameView_of_sameUpToEmpty {b b' : Grid} (h : SameUpToEmpty b b') : SameView b b' := by
  intro r c
  rcases h r c with h | ⟨he, h⟩
  · rw [h]; exact ⟨rfl, fun _ => rfl⟩
  · rw [h]; exact ⟨he, fun hne => absurd he hne⟩

theorem sameUpToEmpty_occupied {b b' : Grid} (h : SameUpToEmpty b b') (r c : Int)
    (hne : (b r c).symbol ≠ EMPTY) : b' r c = b r c := by
  rcases h r c with h | ⟨he, -⟩
  · exact h
  · exact absurd he hne

theorem rooksCarryColour_of_sameUpToEmpty {s t : ChessBoard} (hs : RooksCarryColour s)
    (h : SameUpToEmpty s.board t.board) : RooksCarryColour t := by
  intro r c hpos
  rcases h r c with h | ⟨-, h⟩
  · rw [h]; exact hs r c hpos
  · rw [h]; exact ⟨fun h => absurd h (by decide), fun h => absurd h (by decide)⟩

theorem sameView_setSq {b b' : Grid} (h : SameView b b') (r c : Int) (p p' : ChessPiece)
    (hp : p.symbol = p'.symbol) (hc : p.symbol ≠ EMPTY → p.isWhite = p'.isWhite) :
    SameView (setSq b r c p) (setSq b' r c p') := by
  intro r' c'
  simp only [setSq_apply]
  split_ifs
  · exact ⟨hp, hc⟩
  · exact h r' c'

theorem betweenEmptyLoop_sameView {s t : ChessBoard} (h : SameView s.board t.board)
    (fromRow step rookCol : Int) (fuel : Nat) (col : Int) :
    betweenEmptyLoop s fromRow step rookCol fuel col =
      betweenEmptyLoop t fromRow step rookCol fuel col := by
  induction fuel generalizing col with
  | zero => rfl
  | succ n ih =>
    simp only [betweenEmptyLoop]
    rw [(h fromRow col).1, ih]

theorem castleSimLoop_fst_sameView (w : Bool) (fromRow fromCol step : Int)
    (k k' : ChessPiece) (hk : k.symbol = k'.symbol)
    (hkc : k.symbol ≠ EMPTY → k.isWhite = k'.isWhite) (l : List Int) (s t : ChessBoard)
    (h : SameView s.board t.board) :
    (castleSimLoop w fromRow fromCol step k l s).1 =
      (castleSimLoop w fromRow fromCol step k' l t).1 := by
  induction l generalizing s t with
  | nil => rfl
  | cons i rest ih =>
    simp only [castleSimLoop]
    have h2 : SameView (setSq (setSq s.board fromRow fromCol emptyPiece) fromRow
        (fromCol + i * step) k) (setSq (setSq t.board fromRow fromCol emptyPiece) fromRow
        (fromCol + i * step) k') :=
      sameView_setSq (sameView_setSq h _ _ _ _ rfl (fun _ => rfl)) _ _ _ _ hk hkc
    have hchk := isKingInCheck_sameView
      (s := s.withGrid (setSq (setSq s.board fromRow fromCol emptyPiece) fromRow
        (fromCol + i * step) k))
      (t := t.withGrid (setSq (setSq t.board fromRow fromCol emptyPiece) fromRow
        (fromCol + i * step) k')) h2 w
    simp only [ChessBoard.withGrid] at hchk
    rw [hchk]
    split_ifs
    · rfl
    · exact ih _ _ (sameView_setSq h2 _ _ _ _ rfl (fun _ => rfl))

/-- The answer of the castling branch depends on the flags, on the symbols of
the board, and on the colours and has-moved marks of the occupied squares. -/
theorem castlingBranch_fst_congr {s t : ChessBoard} (hsc : SameScalars s t)
    (h : SameUpToEmpty s.board t.board) (piece : ChessPiece) (fromRow fromCol toCol : Int) :
    (castlingBranch t piece fromRow fromCol toCol).1 =
      (castlingBranch s piece fromRow fromCol toCol).1 := by
  have hv := sameView_of_sameUpToEmpty h
  obtain ⟨-, -, hwk, hwq, hbk, hbq, -, -⟩ := hsc
  unfold castlingBranch
  simp only [hwk, hwq, hbk, hbq, ← (hv _ _).1, ← isKingInCheck_sameView hv,
    ← betweenEmptyLoop_sameView hv]
  have hloop := fun step : Int => castleSimLoop_fst_sameView piece.isWhite fromRow fromCol step
    (s.board fromRow fromCol) (t.board fromRow fromCol) (hv _ _).1 (hv _ _).2 [1, 2] s t hv
  by_cases hr : (s.board fromRow (if decide (toCol - fromCol > 0) = true then 7 else 0)).symbol =
      (if piece.isWhite then WHITE_ROOK else BLACK_ROOK)
  · have hne : (s.board fromRow (if decide (toCol - fromCol > 0) = true then 7 else 0)).symbol ≠
        EMPTY := by
      rw [hr]; cases piece.isWhite <;> decide
    rw [sameUpToEmpty_occupied h _ _ hne]
    split_ifs <;> first | rfl | exact (hloop _).symm
  · simp only [hr, ne_eq, not_false_eq_true, decide_True, Bool.true_or, if_true]
    split_ifs <;> rfl

/-- The answer of `isValidMove` is the same on two board objects that agree up
to the fields of their empty squares. -/
theorem isValidMove_fst_congr {s t : ChessBoard} (hsc : SameScalars s t)
    (h : SameUpToEmpty s.board t.board) (piece : ChessPiece)
    (fromRow fromCol toRow toCol : Int) :
    (isValidMove t piece fromRow fromCol toRow toCol).1 =
      (isValidMove s piece fromRow fromCol toRow toCol).1 := by
  have hv := sameView_of_sameUpToEmpty h
  have hcastle := castlingBranch_fst_congr hsc h piece fromRow fromCol toCol
  have hattack := canPieceAttack_sameView hv piece piece rfl fromRow fromCol toRow toCol
  have h1 := (hv (fromRow - 1) fromCol).1
  have h2 := (hv (fromRow + 1) fromCol).1
  have h3 := (hv 6 toCol).1
  have h4 := (hv 1 toCol).1
  obtain ⟨hlf, hlt, -, -, -, -, -, -⟩ := hsc
  unfold isValidMove
  simp only [hlf, hlt, ← h1, ← h2, ← h3, ← h4, apply_ite Prod.fst, hcastle, ← hattack]
  rcases h toRow toCol with h5 | ⟨h5, h6⟩
  · rw [h5]
  · rw [h6]
    generalize s.board toRow toCol = q at h5 ⊢
    simp only [h5, show emptyPiece.symbol = EMPTY from rfl, ne_eq, not_true_eq_false,
      false_and, if_false, true_and, and_true, false_or]

theorem unsimulate_simulate (b : Grid) (piece : ChessPiece) (fromRow fromCol toRow toCol : Int) :
    unsimulateGrid (simulateGrid b piece fromRow fromCol toRow toCol) fromRow fromCol toRow toCol
      (b fromRow fromCol) (b toRow toCol) = b := by
  funext r c
  simp only [unsimulateGrid, simulateGrid, setSq_apply, markMoved_apply]
  by_cases h1 : r = toRow ∧ c = toCol
  · rw [if_pos h1, h1.1, h1.2]
  · rw [if_neg h1]
    by_cases h2 : r = fromRow ∧ c = fromCol
    · rw [if_pos h2, h2.1, h2.2]
    · rw [if_neg h2, if_neg h2, if_neg h1, if_neg h1]

theorem simulateGrid_sameView {b b' : Grid} (h : SameView b b') (piece : ChessPiece)
    (fromRow fromCol toRow toCol : Int) :
    SameView (simulateGrid b piece fromRow fromCol toRow toCol)
      (simulateGrid b' piece fromRow fromCol toRow toCol) := by
  intro r c
  simp only [simulateGrid, setSq_apply, markMoved_apply]
  by_cases h2 : r = fromRow ∧ c = fromCol
  · rw [if_pos h2, if_pos h2]; exact ⟨rfl, fun _ => rfl⟩
  · rw [if_neg h2, if_neg h2]
    by_cases h1 : r = toRow ∧ c = toCol
    · simp only [h1, and_self, if_true]; exact ⟨trivial, fun _ => trivial⟩
    · rw [if_neg h1, if_neg h1, if_neg h1, if_neg h1]; exact h r c

/-- The loop over the destinations, started on a board `t` that is the board
`s0` up to empty squares: it leaves such a board, and it answers true exactly
when one of the destinations passes `isValidMove` on `s0` and leaves the king
of the colour out of check in the simulated position. -/
theorem hasLegalMovesTo_spec (w : Bool) (piece : ChessPiece) (fromRow fromCol : Int)
    (s0 : ChessBoard) (hrook : RooksCarryColour s0) (l : List (Int × Int)) (t : ChessBoard)
    (hsc : SameScalars s0 t) (hb : SameUpToEmpty s0.board t.board) :
    SameScalars s0 (hasLegalMovesTo w piece fromRow fromCol l t).2 ∧
    SameUpToEmpty s0.board (hasLegalMovesTo w piece fromRow fromCol l t).2.board ∧
    ((hasLegalMovesTo w piece fromRow fromCol l t).1 = true ↔
      ∃ p ∈ l, (isValidMove s0 piece fromRow fromCol p.1 p.2).1 = true ∧
        isKingInCheck (simulatedState s0 piece fromRow fromCol p.1 p.2) w = false) := by
  induction l generalizing t with
  | nil => exact ⟨hsc, hb, by simp [hasLegalMovesTo]⟩
  | cons p rest ih =>
    have hvsc := sameScalars_trans hsc (isValidMove_scalars t piece fromRow fromCol p.1 p.2)
    have hvb := sameUpToEmpty_trans hb (isValidMove_sameUpToEmpty t piece fromRow fromCol p.1 p.2
      (rooksCarryColour_of_sameUpToEmpty hrook hb))
    have hv1 := isValidMove_fst_congr hsc hb piece fromRow fromCol p.1 p.2
    have hchk : isKingInCheck
        { (isValidMove t piece fromRow fromCol p.1 p.2).2 with
          board := simulateGrid (isValidMove t piece fromRow fromCol p.1 p.2).2.board piece
            fromRow fromCol p.1 p.2
          lastMoveFrom := (fromRow, fromCol)
          lastMoveTo := (p.1, p.2) } w =
        isKingInCheck (simulatedState s0 piece fromRow fromCol p.1 p.2) w :=
      isKingInCheck_sameView (simulateGrid_sameView
        (sameView_symm (sameView_of_sameUpToEmpty hvb)) piece fromRow fromCol p.1 p.2) w
    simp only [hasLegalMovesTo, unsimulate_simulate, hchk, hv1]
    generalize isValidMove t piece fromRow fromCol p.1 p.2 = v at hvsc hvb
    by_cases ha : (isValidMove s0 piece fromRow fromCol p.1 p.2).1 = true
    · rw [if_pos ha]
      by_cases hc : isKingInCheck (simulatedState s0 piece fromRow fromCol p.1 p.2) w = true
      · simp only [hc, Bool.not_true, Bool.false_eq_true, if_false]
        obtain ⟨i1, i2, i3⟩ := ih v.2 hvsc hvb
        refine ⟨i1, i2, i3.trans ?_⟩
        simp [hc]
      · simp only [Bool.not_eq_true] at hc
        simp only [hc, Bool.not_false, if_true]
        exact ⟨hvsc, hvb, by simp [ha, hc]⟩
    · rw [if_neg ha]
      obtain ⟨i1, i2, i3⟩ := ih v.2 hvsc hvb
      refine ⟨i1, i2, i3.trans ?_⟩
      simp [ha]

theorem mem_range8 (x : Int) : x ∈ ([0, 1, 2, 3, 4, 5, 6, 7] : List Int) ↔ 0 ≤ x ∧ x < 8 := by
  simp only [List.mem_cons, List.mem_singleton, List.not_mem_nil, or_false]
  omega

/-- The list `squares` holds exactly the squares of the board. -/
theorem mem_squares (p : Int × Int) : p ∈ squares ↔ isValidPosition p.1 p.2 = true := by
  simp only [squares, List.mem_flatMap, List.mem_map, mem_range8, isValidPosition,
    Bool.and_eq_true, decide_eq_true_eq, ge_iff_le]
  constructor
  · rintro ⟨r, hr, c, hc, rfl⟩
    exact ⟨⟨⟨hr.1, hr.2⟩, hc.1⟩, hc.2⟩
  · rintro ⟨⟨⟨h1, h2⟩, h3⟩, h4⟩
    exact ⟨p.1, ⟨h1, h2⟩, p.2, ⟨h3, h4⟩, rfl⟩

/-- The loop over the source squares, started on a board `t` that is the
board `s0` up to empty squares. -/
theorem hasLegalMovesFrom_spec (w : Bool) (s0 : ChessBoard) (hrook : RooksCarryColour s0)
    (l : List (Int × Int)) (t : ChessBoard)
    (hsc : SameScalars s0 t) (hb : SameUpToEmpty s0.board t.board) :
    SameScalars s0 (hasLegalMovesFrom w l t).2 ∧
    SameUpToEmpty s0.board (hasLegalMovesFrom w l t).2.board ∧
    ((hasLegalMovesFrom w l t).1 = true ↔
      ∃ f ∈ l, (s0.board f.1 f.2).symbol ≠ EMPTY ∧ (s0.board f.1 f.2).isWhite = w ∧
        ∃ p ∈ squares, (isValidMove s0 (s0.board f.1 f.2) f.1 f.2 p.1 p.2).1 = true ∧
          isKingInCheck (simulatedState s0 (s0.board f.1 f.2) f.1 f.2 p.1 p.2) w = false) := by
  induction l generalizing t with
  | nil => exact ⟨hsc, hb, by simp [hasLegalMovesFrom]⟩
  | cons f rest ih =>
    simp only [hasLegalMovesFrom]
    by_cases hocc : (s0.board f.1 f.2).symbol ≠ EMPTY ∧ (s0.board f.1 f.2).isWhite = w
    · rw [sameUpToEmpty_occupied hb _ _ hocc.1, if_pos hocc]
      obtain ⟨i1, i2, i3⟩ := hasLegalMovesTo_spec w (s0.board f.1 f.2) f.1 f.2 s0 hrook squares
        t hsc hb
      generalize hasLegalMovesTo w (s0.board f.1 f.2) f.1 f.2 squares t = r at i1 i2 i3
      by_cases hr : r.1 = true
      · rw [if_pos hr]
        refine ⟨i1, i2, ?_⟩
        simp only [true_iff]
        exact ⟨f, List.mem_cons_self _ _, hocc.1, hocc.2, i3.mp hr⟩
      · rw [if_neg hr]
        obtain ⟨j1, j2, j3⟩ := ih r.2 i1 i2
        refine ⟨j1, j2, j3.trans ?_⟩
        constructor
        · rintro ⟨g, hg, hrest⟩
          exact ⟨g, List.mem_cons_of_mem _ hg, hrest⟩
        · rintro ⟨g, hg, hrest⟩
          rcases List.mem_cons.mp hg with rfl | hg
          · exact absurd (i3.mpr hrest.2.2) hr
          · exact ⟨g, hg, hrest⟩
    · have hocc' : ¬ ((t.board f.1 f.2).symbol ≠ EMPTY ∧ (t.board f.1 f.2).isWhite = w) := by
        rcases hb f.1 f.2 with h | ⟨he, h⟩
        · rw [h]; exact hocc
        · rw [h]; exact fun hh => hh.1 rfl
      rw [if_neg hocc']
      obtain ⟨j1, j2, j3⟩ := ih t hsc hb
      refine ⟨j1, j2, j3.trans ?_⟩
      constructor
      · rintro ⟨g, hg, hrest⟩
        exact ⟨g, List.mem_cons_of_mem _ hg, hrest⟩
      · rintro ⟨g, hg, hrest⟩
        rcases List.mem_cons.mp hg with rfl | hg
        · exact absurd ⟨hrest.1, hrest.2.1⟩ hocc
        · exact ⟨g, hg, hrest⟩

/-- C16: on a board whose rooks carry their colour, `hasLegalMoves(c)` returns
true if and only if there are squares `from` and `to` on the board such that
`from` holds a non-empty piece of colour `c`, `isValidMove` accepts the piece
from `from` to `to`, and `isKingInCheck(c)` is false in the position in which
the piece stands on `to` and `from` is empty; every pair of the 64 squares
counts. -/
theorem hasLegalMoves_iff (s : ChessBoard) (c : Bool) (hrook : RooksCarryColour s) :
    ((hasLegalMoves s c).1 = true ↔
      ∃ fromRow fromCol toRow toCol : Int,
        isValidPosition fromRow fromCol = true ∧ isValidPosition toRow toCol = true ∧
        (s.board fromRow fromCol).symbol ≠ EMPTY ∧ (s.board fromRow fromCol).isWhite = c ∧
        (isValidMove s (s.board fromRow fromCol) fromRow fromCol toRow toCol).1 = true ∧
        isKingInCheck (simulatedState s (s.board fromRow fromCol) fromRow fromCol toRow toCol)
          c = false) ∧
    squares.length = 64 := by
  refine ⟨?_, rfl⟩
  unfold hasLegalMoves
  refine (hasLegalMovesFrom_spec c s hrook squares s (sameScalars_refl s)
    (sameUpToEmpty_refl _)).2.2.trans ?_
  constructor
  · rintro ⟨f, hf, h1, h2, p, hp, h3, h4⟩
    exact ⟨f.1, f.2, p.1, p.2, (mem_squares f).mp hf, (mem_squares p).mp hp, h1, h2, h3, h4⟩
  · rintro ⟨fr, fc, tr, tc, hf, hp, h1, h2, h3, h4⟩
    exact ⟨(fr, fc), (mem_squares _).mpr hf, h1, h2, (tr, tc), (mem_squares _).mpr hp, h3, h4⟩

/-- C16 at a concrete input: white has a legal move in the initial position
(the pawn move from e2 to e4 is one). -/
theorem hasLegalMoves_iff_witness : (hasLegalMoves initialBoard true).1 = true :=
  ((hasLegalMoves_iff initialBoard true rooksCarryColour_initialBoard).1).mpr
    ⟨6, 4, 4, 4, by decide, by decide, by decide, by decide, by decide, by decide⟩

/-! ## Every board the program reaches has its rooks in their colours -/

theorem toLower_ne_white_rook (ch : Char) : ch.toLower ≠ WHITE_ROOK := by
  intro h
  unfold Char.toLower at h
  simp only at h
  split_ifs at h with hc
  · have h2 := congrArg Char.toNat h
    have hv : (ch.toNat + 32).isValidChar := by
      left; omega
    rw [Char.ofNat, dif_pos hv] at h2
    have h3 : ch.toNat + 32 = 82 := h2
    omega
  · subst h
    exact hc (by decide)

theorem rookCarriesColour_empty : rookCarriesColour emptyPiece :=
  ⟨fun h => absurd h (by decide), fun h => absurd h (by decide)⟩

theorem rooks_setSq (b : Grid)
    (hb : ∀ r c, isValidPosition r c = true → rookCarriesColour (b r c))
    (r0 c0 : Int) (p : ChessPiece) (hp : rookCarriesColour p) :
    ∀ r c, isValidPosition r c = true → rookCarriesColour (setSq b r0 c0 p r c) := by
  intro r c h
  rw [setSq_apply]
  split_ifs
  · exact hp
  · exact hb r c h

theorem rooks_markMoved (b : Grid)
    (hb : ∀ r c, isValidPosition r c = true → rookCarriesColour (b r c))
    (r0 c0 : Int) :
    ∀ r c, isValidPosition r c = true → rookCarriesColour (markMoved b r0 c0 r c) := by
  intro r c h
  rw [markMoved_apply]
  split_ifs with h3
  · obtain ⟨rfl, rfl⟩ := h3
    exact hb r c h
  · exact hb r c h

theorem rooks_rookStage (b : Grid)
    (hb : ∀ r c, isValidPosition r c = true → rookCarriesColour (b r c))
    (piece : ChessPiece) (hp : rookCarriesColour piece)
    (fromRow fromCol toRow toCol : Int) (isCastling : Bool)
    (hfrom : isValidPosition fromRow fromCol = true) :
    ∀ r c, isValidPosition r c = true →
      rookCarriesColour (rookStage b piece fromRow fromCol toRow toCol isCastling r c) := by
  have h1 : ∀ r c, isValidPosition r c = true →
      rookCarriesColour (placeMover b piece fromRow fromCol toRow toCol r c) := by
    unfold placeMover
    have hp2 : rookCarriesColour (ChessPiece.new piece.symbol piece.isWhite) := hp
    exact rooks_markMoved _ (rooks_setSq _ (rooks_setSq _ hb _ _ _ rookCarriesColour_empty)
      _ _ _ hp2) _ _
  unfold rookStage
  split_ifs
  · have hrow : 0 ≤ fromRow ∧ fromRow < 8 := by
      simp only [isValidPosition, Bool.and_eq_true, decide_eq_true_eq] at hfrom
      omega
    have hf : isValidPosition fromRow (rookFromColOf fromCol toCol) = true := by
      unfold rookFromColOf
      simp only [isValidPosition, Bool.and_eq_true, decide_eq_true_eq]
      split_ifs <;> omega
    unfold relocateRook
    exact rooks_markMoved _ (rooks_setSq _ (rooks_setSq _ h1 fromRow (rookToColOf fromCol toCol) _
      (h1 _ _ hf)) fromRow (rookFromColOf fromCol toCol) _ rookCarriesColour_empty) _ _
  · exact h1

theorem rooks_promoteSq (g : Grid)
    (hg : ∀ r c, isValidPosition r c = true → rookCarriesColour (g r c))
    (piece : ChessPiece) (isPawnMove : Bool) (toRow toCol : Int) (promotion : Char)
    (hwhite : isPawnMove = true → (g toRow toCol).isWhite = piece.isWhite) :
    ∀ r c, isValidPosition r c = true →
      rookCarriesColour (promoteSq g piece isPawnMove toRow toCol promotion r c) := by
  unfold promoteSq
  by_cases hpr : isPawnMove = true ∧ (toRow = 0 ∨ toRow = 7)
  · rw [if_pos hpr]
    simp only
    have h0 : (if piece.isWhite = true then promotion.toUpper else promotion.toLower) =
        WHITE_ROOK → piece.isWhite = true := by
      intro h
      cases hw : piece.isWhite
      · rw [hw] at h
        exact absurd h (toLower_ne_white_rook promotion)
      · rfl
    generalize (if piece.isWhite = true then promotion.toUpper else promotion.toLower) = p0
      at h0 ⊢
    have h1 : (if p0 ≠ 'Q' ∧ p0 ≠ 'R' ∧ p0 ≠ 'B' ∧ p0 ≠ 'N' then 'Q' else p0) ≠ BLACK_ROOK := by
      split_ifs with hc
      · decide
      · intro h
        rw [h] at hc
        exact hc (by decide)
    have h2 : (if p0 ≠ 'Q' ∧ p0 ≠ 'R' ∧ p0 ≠ 'B' ∧ p0 ≠ 'N' then 'Q' else p0) = WHITE_ROOK →
        piece.isWhite = true := by
      split_ifs with hc
      · intro h; exact absurd h (by decide)
      · exact h0
    generalize (if p0 ≠ 'Q' ∧ p0 ≠ 'R' ∧ p0 ≠ 'B' ∧ p0 ≠ 'N' then 'Q' else p0) = p1 at h1 h2 ⊢
    intro r c h
    rw [setSq_apply]
    split_ifs
    · exact ⟨fun hR => (hwhite hpr.1).trans (h2 hR), fun hr => absurd hr h1⟩
    · exact hg r c h
  · rw [if_neg hpr]
    exact hg

theorem rooks_speculativeGrid (b : Grid)
    (hb : ∀ r c, isValidPosition r c = true → rookCarriesColour (b r c))
    (piece : ChessPiece) (hp : rookCarriesColour piece)
    (fromRow fromCol toRow toCol : Int) (promotion : Char)
    (hfrom : isValidPosition fromRow fromCol = true) :
    ∀ r c, isValidPosition r c = true →
      rookCarriesColour (speculativeGrid b piece fromRow fromCol toRow toCol promotion r c) := by
  have h2 := rooks_rookStage b hb piece hp fromRow fromCol toRow toCol
    (isCastlingFlag piece fromCol toCol) hfrom
  have h3 : ∀ r c, isValidPosition r c = true →
      rookCarriesColour ((if isEnPassantFlag b piece fromCol toRow toCol = true then
        setSq (rookStage b piece fromRow fromCol toRow toCol (isCastlingFlag piece fromCol toCol))
          (capturedRowOf piece toRow) toCol emptyPiece
        else rookStage b piece fromRow fromCol toRow toCol (isCastlingFlag piece fromCol toCol))
        r c) := by
    split_ifs
    · exact rooks_setSq _ h2 _ _ _ rookCarriesColour_empty
    · exact h2
  have hwhite : isPawnMoveFlag piece = true →
      ((if isEnPassantFlag b piece fromCol toRow toCol = true then
        setSq (rookStage b piece fromRow fromCol toRow toCol (isCastlingFlag piece fromCol toCol))
          (capturedRowOf piece toRow) toCol emptyPiece
        else rookStage b piece fromRow fromCol toRow toCol (isCastlingFlag piece fromCol toCol))
        toRow toCol).isWhite = piece.isWhite := by
    intro hpawn
    have hC : isCastlingFlag piece fromCol toCol = false := by
      cases hc : isCastlingFlag piece fromCol toCol
      · rfl
      · rw [castling_not_pawn piece fromCol toCol hc] at hpawn
        exact absurd hpawn (by simp)
    have hst : rookStage b piece fromRow fromCol toRow toCol false toRow toCol =
        { symbol := piece.symbol, isWhite := piece.isWhite, hasMoved := true } := by
      simp only [rookStage, Bool.false_eq_true, if_false]
      rw [placeMover_apply, if_pos ⟨rfl, rfl⟩]
    rw [hC]
    split_ifs
    · rw [setSq_apply, if_neg (fun h => capturedRowOf_ne piece toRow h.1.symm), hst]
    · rw [hst]
  unfold speculativeGrid applyToGrid
  exact rooks_promoteSq _ h3 piece _ toRow toCol promotion hwhite

/-- A call of `movePiece`, accepted or not, keeps the rooks in their colours. -/
theorem rooksCarryColour_movePiece (s : ChessBoard) (move : String) (w : Bool)
    (promotion : Char) (wc bc : List Char) (hrook : RooksCarryColour s) :
    RooksCarryColour (movePiece s move w promotion wc bc).state := by
  rcases movePiece_cases s move w promotion wc bc with
    h | ⟨m0, m1, m3, m4, -, hfrom, hto, -, -, h⟩
  · rw [h]; exact hrook
  · have hv2 : RooksCarryColour (isValidMove s (s.board (decodeRow m1) (decodeCol m0))
        (decodeRow m1) (decodeCol m0) (decodeRow m4) (decodeCol m3)).2 :=
      rooksCarryColour_of_sameUpToEmpty hrook (isValidMove_sameUpToEmpty s _ _ _ _ _ hrook)
    rcases h with ⟨-, h⟩ | ⟨hv, h⟩
    · rw [h]; exact hv2
    · rw [h]
      by_cases hchk : isKingInCheck (speculativeState
          (isValidMove s (s.board (decodeRow m1) (decodeCol m0)) (decodeRow m1) (decodeCol m0)
            (decodeRow m4) (decodeCol m3)).2
          (s.board (decodeRow m1) (decodeCol m0)) (decodeRow m1) (decodeCol m0)
          (decodeRow m4) (decodeCol m3) promotion) w = true
      · rw [movePieceCore_reject _ _ _ _ _ _ _ _ _ _ hchk]
        intro r c hpos
        simp only
        rw [undoneGrid_after_isValidMove s _ _ _ _ _ promotion hrook hto hv]
        exact hv2 r c hpos
      · have hchk2 := Bool.eq_false_iff.mpr hchk
        rw [movePieceCore_accept _ _ _ _ _ _ _ _ _ _ hchk2]
        intro r c hpos
        simp only
        rw [finalGrid_eq_speculativeGrid _ _ _ _ _ _ promotion hto]
        exact rooks_speculativeGrid _ hv2 _ (hrook _ _ hfrom) _ _ _ _ promotion hfrom r c hpos

/-- Every board that a sequence of `movePiece` calls reaches from the initial
position has its rooks in their colours. -/
theorem rooksCarryColour_runCalls (r : MoveResult) (calls : List Call)
    (hrook : RooksCarryColour r.state) : RooksCarryColour (runCalls r calls).state := by
  induction calls generalizing r with
  | nil => exact hrook
  | cons k rest ih =>
    rw [runCalls]
    exact ih _ (rooksCarryColour_movePiece _ _ _ _ _ _ hrook)

/-- The board that `hasLegalMoves` leaves has its rooks in their colours. -/
theorem rooksCarryColour_hasLegalMoves (s : ChessBoard) (c : Bool) (hrook : RooksCarryColour s) :
    RooksCarryColour (hasLegalMoves s c).2 :=
  rooksCarryColour_of_sameUpToEmpty hrook
    (hasLegalMovesFrom_spec c s hrook squares s (sameScalars_refl s) (sameUpToEmpty_refl _)).2.1

/-! ## Evaluations of whole games -/

/-- C15: the four moves `f2 f3`, `e7 e5`, `g2 g4`, `d8 h4` are each accepted
from the initial position, and in the resulting state white is in check, has
no legal move, and is checkmated. -/
theorem fools_mate :
    allAccepted newGame foolsMateCalls = true ∧
    isKingInCheck (runCalls newGame foolsMateCalls).state true = true ∧
    (hasLegalMoves (runCalls newGame foolsMateCalls).state true).1 = false ∧
    (isCheckmate (runCalls newGame foolsMateCalls).state true).1 = true := by
  decide!

/-! ## The moves of the initial position, row by row -/

theorem pairsFrom_append (a b : List (Int × Int)) :
    pairsFrom (a ++ b) = pairsFrom a ++ pairsFrom b := by
  unfold pairsFrom
  exact List.flatMap_append _ _ _

theorem squarePairs_split :
    squarePairs =
      pairsFrom (rowSquares 0 ++ rowSquares 1 ++ rowSquares 2 ++ rowSquares 3 ++ rowSquares 4 ++
        rowSquares 5) ++
      (pairsFrom (rowPart 6 [0, 1, 2, 3]) ++ (pairsFrom (rowPart 6 [4, 5, 6, 7]) ++
      (pairsFrom (rowPart 7 [0, 1, 2, 3]) ++ pairsFrom (rowPart 7 [4, 5, 6, 7])))) := by
  rw [← pairsFrom_append, ← pairsFrom_append, ← pairsFrom_append, ← pairsFrom_append]
  rfl

theorem mem_pairsFrom (fs : List (Int × Int)) (p : (Int × Int) × (Int × Int))
    (h : p ∈ pairsFrom fs) : p.1 ∈ fs := by
  simp only [pairsFrom, List.mem_flatMap, List.mem_map] at h
  obtain ⟨f, hf, t, -, rfl⟩ := h
  exact hf

/-- The text that `moveText` builds for a square of the board decodes to that
square. -/
theorem squareText_decode :
    ∀ f ∈ squares, decodeRow (Char.ofNat ('8'.toNat - f.1.toNat)) = f.1 ∧
      decodeCol (Char.ofNat ('a'.toNat + f.2.toNat)) = f.2 := by
  decide

/-- A move that `movePiece` accepts starts on a square that holds a piece of
the side to move. -/
theorem movePiece_moveText_piece (s : ChessBoard) (f t : Int × Int) (w : Bool) (promotion : Char)
    (wc bc : List Char) (hf : f ∈ squares)
    (hacc : (movePiece s (moveText f t) w promotion wc bc).ok = true) :
    (s.board f.1 f.2).symbol ≠ EMPTY ∧ (s.board f.1 f.2).isWhite = w := by
  have h := movePiece_accept_eq s (Char.ofNat ('a'.toNat + f.2.toNat))
    (Char.ofNat ('8'.toNat - f.1.toNat)) (Char.ofNat ('a'.toNat + t.2.toNat))
    (Char.ofNat ('8'.toNat - t.1.toNat)) w promotion wc bc hacc
  rw [(squareText_decode f hf).1, (squareText_decode f hf).2] at h
  exact ⟨h.2.2.1, h.2.2.2.1⟩

theorem accepted_upper_rows :
    (pairsFrom (rowSquares 0 ++ rowSquares 1 ++ rowSquares 2 ++ rowSquares 3 ++ rowSquares 4 ++
      rowSquares 5)).filter
      (fun p => (movePiece initialBoard (moveText p.1 p.2) true 'Q' [] []).ok) = [] := by
  rw [List.filter_eq_nil_iff]
  intro p hp hacc
  have hmem := mem_pairsFrom _ p hp
  have hsq : p.1 ∈ squares := by
    have hsub : ∀ f ∈ rowSquares 0 ++ rowSquares 1 ++ rowSquares 2 ++ rowSquares 3 ++
        rowSquares 4 ++ rowSquares 5, f ∈ squares := by decide
    exact hsub _ hmem
  have hpiece := movePiece_moveText_piece initialBoard p.1 p.2 true 'Q' [] [] hsq hacc
  have hnone : ∀ f ∈ rowSquares 0 ++ rowSquares 1 ++ rowSquares 2 ++ rowSquares 3 ++
      rowSquares 4 ++ rowSquares 5,
      ¬ ((initialBoard.board f.1 f.2).symbol ≠ EMPTY ∧
        (initialBoard.board f.1 f.2).isWhite = true) := by decide
  exact hnone _ hmem hpiece

theorem accepted_row6a :
    (pairsFrom (rowPart 6 [0, 1, 2, 3])).filter
      (fun p => (movePiece initialBoard (moveText p.1 p.2) true 'Q' [] []).ok) =
      [((6, 0), (4, 0)), ((6, 0), (5, 0)), ((6, 1), (4, 1)), ((6, 1), (5, 1)),
       ((6, 2), (4, 2)), ((6, 2), (5, 2)), ((6, 3), (4, 3)), ((6, 3), (5, 3))] := by
  decide!

theorem accepted_row6b :
    (pairsFrom (rowPart 6 [4, 5, 6, 7])).filter
      (fun p => (movePiece initialBoard (moveText p.1 p.2) true 'Q' [] []).ok) =
      [((6, 4), (4, 4)), ((6, 4), (5, 4)), ((6, 5), (4, 5)), ((6, 5), (5, 5)),
       ((6, 6), (4, 6)), ((6, 6), (5, 6)), ((6, 7), (4, 7)), ((6, 7), (5, 7))] := by
  decide!

theorem accepted_row7a :
    (pairsFrom (rowPart 7 [0, 1, 2, 3])).filter
      (fun p => (movePiece initialBoard (moveText p.1 p.2) true 'Q' [] []).ok) =
      [((7, 1), (5, 0)), ((7, 1), (5, 2))] := by
  decide!

theorem accepted_row7b :
    (pairsFrom (rowPart 7 [4, 5, 6, 7])).filter
      (fun p => (movePiece initialBoard (moveText p.1 p.2) true 'Q' [] []).ok) =
      [((7, 6), (5, 5)), ((7, 6), (5, 7))] := by
  decide!

theorem legal_upper_rows :
    (pairsFrom (rowSquares 0 ++ rowSquares 1 ++ rowSquares 2 ++ rowSquares 3 ++ rowSquares 4 ++
      rowSquares 5)).filter
      (fun p =>
        decide ((initialBoard.board p.1.1 p.1.2).symbol ≠ EMPTY) &&
        decide ((initialBoard.board p.1.1 p.1.2).isWhite = true) &&
        (isValidMove initialBoard (initialBoard.board p.1.1 p.1.2) p.1.1 p.1.2 p.2.1 p.2.2).1 &&
        !isKingInCheck
          (initialBoard.withGrid
            (speculativeGrid initialBoard.board (initialBoard.board p.1.1 p.1.2) p.1.1 p.1.2
              p.2.1 p.2.2 'Q')) true) = [] := by
  rw [List.filter_eq_nil_iff]
  intro p hp h
  have hmem := mem_pairsFrom _ p hp
  have hnone : ∀ f ∈ rowSquares 0 ++ rowSquares 1 ++ rowSquares 2 ++ rowSquares 3 ++
      rowSquares 4 ++ rowSquares 5,
      ¬ ((initialBoard.board f.1 f.2).symbol ≠ EMPTY ∧
        (initialBoard.board f.1 f.2).isWhite = true) := by decide
  simp only [Bool.and_eq_true, decide_eq_true_eq] at h
  exact hnone _ hmem ⟨h.1.1.1, h.1.1.2⟩

theorem legal_row6a :
    (pairsFrom (rowPart 6 [0, 1, 2, 3])).filter
      (fun p =>
        decide ((initialBoard.board p.1.1 p.1.2).symbol ≠ EMPTY) &&
        decide ((initialBoard.board p.1.1 p.1.2).isWhite = true) &&
        (isValidMove initialBoard (initialBoard.board p.1.1 p.1.2) p.1.1 p.1.2 p.2.1 p.2.2).1 &&
        !isKingInCheck
          (initialBoard.withGrid
            (speculativeGrid initialBoard.board (initialBoard.board p.1.1 p.1.2) p.1.1 p.1.2
              p.2.1 p.2.2 'Q')) true) =
      [((6, 0), (4, 0)), ((6, 0), (5, 0)), ((6, 1), (4, 1)), ((6, 1), (5, 1)),
       ((6, 2), (4, 2)), ((6, 2), (5, 2)), ((6, 3), (4, 3)), ((6, 3), (5, 3))] := by
  decide!

theorem legal_row6b :
    (pairsFrom (rowPart 6 [4, 5, 6, 7])).filter
      (fun p =>
        decide ((initialBoard.board p.1.1 p.1.2).symbol ≠ EMPTY) &&
        decide ((initialBoard.board p.1.1 p.1.2).isWhite = true) &&
        (isValidMove initialBoard (initialBoard.board p.1.1 p.1.2) p.1.1 p.1.2 p.2.1 p.2.2).1 &&
        !isKingInCheck
          (initialBoard.withGrid
            (speculativeGrid initialBoard.board (initialBoard.board p.1.1 p.1.2) p.1.1 p.1.2
              p.2.1 p.2.2 'Q')) true) =
      [((6, 4), (4, 4)), ((6, 4), (5, 4)), ((6, 5), (4, 5)), ((6, 5), (5, 5)),
       ((6, 6), (4, 6)), ((6, 6), (5, 6)), ((6, 7), (4, 7)), ((6, 7), (5, 7))] := by
  decide!

theorem legal_row7a :
    (pairsFrom (rowPart 7 [0, 1, 2, 3])).filter
      (fun p =>
        decide ((initialBoard.board p.1.1 p.1.2).symbol ≠ EMPTY) &&
        decide ((initialBoard.board p.1.1 p.1.2).isWhite = true) &&
        (isValidMove initialBoard (initialBoard.board p.1.1 p.1.2) p.1.1 p.1.2 p.2.1 p.2.2).1 &&
        !isKingInCheck
          (initialBoard.withGrid
            (speculativeGrid initialBoard.board (initialBoard.board p.1.1 p.1.2) p.1.1 p.1.2
              p.2.1 p.2.2 'Q')) true) =
      [((7, 1), (5, 0)), ((7, 1), (5, 2))] := by
  decide!

theorem legal_row7b :
    (pairsFrom (rowPart 7 [4, 5, 6, 7])).filter
      (fun p =>
        decide ((initialBoard.board p.1.1 p.1.2).symbol ≠ EMPTY) &&
        decide ((initialBoard.board p.1.1 p.1.2).isWhite = true) &&
        (isValidMove initialBoard (initialBoard.board p.1.1 p.1.2) p.1.1 p.1.2 p.2.1 p.2.2).1 &&
        !isKingInCheck
          (initialBoard.withGrid
            (speculativeGrid initialBoard.board (initialBoard.board p.1.1 p.1.2) p.1.1 p.1.2
              p.2.1 p.2.2 'Q')) true) =
      [((7, 6), (5, 5)), ((7, 6), (5, 7))] := by
  decide!

/-- C14: in the state produced by `resetBoard`, the pairs of squares for which
`movePiece` accepts a white move are exactly the sixteen one- and two-square
advances of the eight pawns and the four knight moves b1-a3, b1-c3, g1-f3,
g1-h3, twenty in all; the same twenty pairs are those with a white piece on
the first square that pass `isValidMove` and leave white's king out of
check. -/
theorem initial_position_has_twenty_moves :
    acceptedPairs initialBoard true =
      [((6, 0), (4, 0)), ((6, 0), (5, 0)), ((6, 1), (4, 1)), ((6, 1), (5, 1)),
       ((6, 2), (4, 2)), ((6, 2), (5, 2)), ((6, 3), (4, 3)), ((6, 3), (5, 3)),
       ((6, 4), (4, 4)), ((6, 4), (5, 4)), ((6, 5), (4, 5)), ((6, 5), (5, 5)),
       ((6, 6), (4, 6)), ((6, 6), (5, 6)), ((6, 7), (4, 7)), ((6, 7), (5, 7)),
       ((7, 1), (5, 0)), ((7, 1), (5, 2)), ((7, 6), (5, 5)), ((7, 6), (5, 7))] ∧
    (acceptedPairs initialBoard true).length = 20 ∧
    legalPairs initialBoard true = acceptedPairs initialBoard true := by
  have ha : acceptedPairs initialBoard true =
      [((6, 0), (4, 0)), ((6, 0), (5, 0)), ((6, 1), (4, 1)), ((6, 1), (5, 1)),
       ((6, 2), (4, 2)), ((6, 2), (5, 2)), ((6, 3), (4, 3)), ((6, 3), (5, 3)),
       ((6, 4), (4, 4)), ((6, 4), (5, 4)), ((6, 5), (4, 5)), ((6, 5), (5, 5)),
       ((6, 6), (4, 6)), ((6, 6), (5, 6)), ((6, 7), (4, 7)), ((6, 7), (5, 7)),
       ((7, 1), (5, 0)), ((7, 1), (5, 2)), ((7, 6), (5, 5)), ((7, 6), (5, 7))] := by
    unfold acceptedPairs
    rw [squarePairs_split, List.filter_append, List.filter_append, List.filter_append,
      List.filter_append, accepted_upper_rows, accepted_row6a, accepted_row6b, accepted_row7a,
      accepted_row7b]
    rfl
  have hl : legalPairs initialBoard true =
      [((6, 0), (4, 0)), ((6, 0), (5, 0)), ((6, 1), (4, 1)), ((6, 1), (5, 1)),
       ((6, 2), (4, 2)), ((6, 2), (5, 2)), ((6, 3), (4, 3)), ((6, 3), (5, 3)),
       ((6, 4), (4, 4)), ((6, 4), (5, 4)), ((6, 5), (4, 5)), ((6, 5), (5, 5)),
       ((6, 6), (4, 6)), ((6, 6), (5, 6)), ((6, 7), (4, 7)), ((6, 7), (5, 7)),
       ((7, 1), (5, 0)), ((7, 1), (5, 2)), ((7, 6), (5, 5)), ((7, 6), (5, 7))] := by
    unfold legalPairs
    rw [squarePairs_split, List.filter_append, List.filter_append, List.filter_append,
      List.filter_append, legal_upper_rows, legal_row6a, legal_row6b, legal_row7a, legal_row7b]
    rfl
  exact ⟨ha, by rw [ha]; rfl, by rw [ha, hl]⟩

/-! ## Rejections at the door -/

/-- C27: for all integers `row` and `col`, `isValidPosition(row, col)` is true
if and only if `0 <= row < 8` and `0 <= col < 8`. -/
theorem isValidPosition_iff (row col : Int) :
    isValidPosition row col = true ↔ (0 ≤ row ∧ row < 8) ∧ (0 ≤ col ∧ col < 8) := by
  simp only [isValidPosition, Bool.and_eq_true, decide_eq_true_eq, ge_iff_le]
  tauto

/-- The tests at the head of `isValidMove`: a square off the board, a null
move, or a destination that holds a piece of the mover's colour. -/
theorem isValidMove_reject_door (s : ChessBoard) (piece : ChessPiece)
    (fromRow fromCol toRow toCol : Int)
    (h : isValidPosition fromRow fromCol = false ∨ isValidPosition toRow toCol = false ∨
      (fromRow = toRow ∧ fromCol = toCol) ∨
      ((s.board toRow toCol).symbol ≠ EMPTY ∧ (s.board toRow toCol).isWhite = piece.isWhite)) :
    isValidMove s piece fromRow fromCol toRow toCol = (false, s) := by
  unfold isValidMove
  by_cases h1 : (!isValidPosition fromRow fromCol || !isValidPosition toRow toCol) = true
  · rw [if_pos h1]
  · rw [if_neg h1]
    by_cases h2 : fromRow = toRow ∧ fromCol = toCol
    · rw [if_pos h2]
    · rw [if_neg h2]
      have h3 : (s.board toRow toCol).symbol ≠ EMPTY ∧
          (s.board toRow toCol).isWhite = piece.isWhite := by
        rcases h with h | h | h | h
        · rw [h] at h1; exact absurd rfl h1
        · rw [h] at h1; simp at h1
        · exact absurd h h2
        · exact h
      simp only
      rw [if_pos h3]

/-- C24: for every piece and every state, `isValidMove` returns false (and
leaves the board object as it is) when the from-square or the to-square is off
the board, when from equals to, and when the to-square holds a non-empty piece
of the moving piece's colour, whatever the kind of the moving piece. -/
theorem isValidMove_rejects (s : ChessBoard) (piece : ChessPiece)
    (fromRow fromCol toRow toCol : Int)
    (h : isValidPosition fromRow fromCol = false ∨ isValidPosition toRow toCol = false ∨
      (fromRow = toRow ∧ fromCol = toCol) ∨
      ((s.board toRow toCol).symbol ≠ EMPTY ∧ (s.board toRow toCol).isWhite = piece.isWhite)) :
    isValidMove s piece fromRow fromCol toRow toCol = (false, s) :=
  isValidMove_reject_door s piece fromRow fromCol toRow toCol h

/-- C24 at a concrete input: in the initial position the white king may not
step onto its own bishop on f1. -/
theorem isValidMove_rejects_witness :
    isValidMove initialBoard (initialBoard.board 7 4) 7 4 7 5 = (false, initialBoard) :=
  isValidMove_rejects initialBoard (initialBoard.board 7 4) 7 4 7 5
    (Or.inr (Or.inr (Or.inr (by decide))))

/-- C23: `movePiece` returns false (and changes nothing) whenever the move
string is not exactly five characters with a space as its third, whenever a
decoded square lies off the board, whenever the from-square is empty, and
whenever the piece on the from-square is not of the side `isWhiteTurn`. -/
theorem movePiece_rejects_at_the_door (s : ChessBoard) (move : String) (isWhiteTurn : Bool)
    (promotion : Char) (whiteCaptures blackCaptures : List Char) :
    ((move.data.length ≠ 5 ∨ move.data.get? 2 ≠ some ' ') →
      movePiece s move isWhiteTurn promotion whiteCaptures blackCaptures =
        { ok := false, state := s, whiteCaptures := whiteCaptures,
          blackCaptures := blackCaptures }) ∧
    (∀ m0 m1 m3 m4 : Char, move.data = [m0, m1, ' ', m3, m4] →
      (isValidPosition (decodeRow m1) (decodeCol m0) = false ∨
        isValidPosition (decodeRow m4) (decodeCol m3) = false ∨
        (s.board (decodeRow m1) (decodeCol m0)).symbol = EMPTY ∨
        (s.board (decodeRow m1) (decodeCol m0)).isWhite ≠ isWhiteTurn) →
      movePiece s move isWhiteTurn promotion whiteCaptures blackCaptures =
        { ok := false, state := s, whiteCaptures := whiteCaptures,
          blackCaptures := blackCaptures }) := by
  constructor
  · intro h
    unfold movePiece
    split
    · rename_i m0 m1 m2 m3 m4 hdata
      rw [hdata] at h
      have h2 : m2 ≠ ' ' := by
        rcases h with h | h
        · exact absurd rfl h
        · intro he
          apply h
          rw [he]
          rfl
      rw [if_pos h2]
    · rfl
  · intro m0 m1 m3 m4 hdata h
    unfold movePiece
    rw [hdata]
    simp only [ne_eq, not_true_eq_false, if_false]
    by_cases h1 : (!isValidPosition (decodeRow m1) (decodeCol m0) ||
        !isValidPosition (decodeRow m4) (decodeCol m3)) = true
    · rw [if_pos h1]
    · rw [if_neg h1]
      have h3 : (s.board (decodeRow m1) (decodeCol m0)).symbol = EMPTY ∨
          ¬ (s.board (decodeRow m1) (decodeCol m0)).isWhite = isWhiteTurn := by
        rcases h with h | h | h | h
        · rw [h] at h1; exact absurd rfl h1
        · rw [h] at h1; simp at h1
        · exact Or.inl h
        · exact Or.inr h
      rw [if_pos h3]

/-- C23 at a concrete input: the text `e2e4` (no space) is rejected. -/
theorem movePiece_rejects_at_the_door_witness :
    movePiece initialBoard "e2e4" true 'Q' [] [] =
      { ok := false, state := initialBoard, whiteCaptures := [], blackCaptures := [] } :=
  (movePiece_rejects_at_the_door initialBoard "e2e4" true 'Q' [] []).1 (Or.inl (by decide))

/-! ## Check detection -/

theorem findKing_spec (s : ChessBoard) (c : Bool) :
    ((findKing s c).1 ≠ -1 →
      isValidPosition (findKing s c).1 (findKing s c).2 = true ∧
      (s.board (findKing s c).1 (findKing s c).2).symbol =
        (if c then WHITE_KING else BLACK_KING)) ∧
    ((findKing s c).1 = -1 →
      ∀ r col, isValidPosition r col = true →
        (s.board r col).symbol ≠ (if c then WHITE_KING else BLACK_KING)) := by
  unfold findKing
  cases hf : squares.find? fun p =>
      decide ((s.board p.1 p.2).symbol = (if c then WHITE_KING else BLACK_KING)) with
  | none =>
    simp only [ne_eq, not_true_eq_false, false_implies, true_and, forall_const]
    intro r col hpos hsym
    have h := List.find?_eq_none.mp hf (r, col) ((mem_squares (r, col)).mpr hpos)
    simp only [decide_eq_true_eq] at h
    exact h hsym
  | some p =>
    simp only
    have hmem := List.mem_of_find?_eq_some hf
    have hp := List.find?_some hf
    simp only [decide_eq_true_eq] at hp
    have hpos := (mem_squares p).mp hmem
    refine ⟨fun _ => ⟨hpos, hp⟩, fun h1 => ?_⟩
    exfalso
    simp only [isValidPosition, Bool.and_eq_true, decide_eq_true_eq] at hpos
    omega

/-- C25: `isKingInCheck(c)` is true if and only if `findKing(c)` finds a king
of colour `c` (its result is a square of the board that holds the king symbol
of `c`) and some non-empty piece of the opposite colour on the board passes
`canPieceAttack` from its own square to that square; it is false whenever no
square of the board holds the king symbol of `c`. -/
theorem isKingInCheck_iff (s : ChessBoard) (c : Bool) :
    (isKingInCheck s c = true ↔
      (isValidPosition (findKing s c).1 (findKing s c).2 = true ∧
        (s.board (findKing s c).1 (findKing s c).2).symbol =
          (if c then WHITE_KING else BLACK_KING)) ∧
      ∃ r col, isValidPosition r col = true ∧ (s.board r col).symbol ≠ EMPTY ∧
        (s.board r col).isWhite ≠ c ∧
        canPieceAttack s (s.board r col) r col (findKing s c).1 (findKing s c).2 = true) ∧
    ((∀ r col, isValidPosition r col = true →
        (s.board r col).symbol ≠ (if c then WHITE_KING else BLACK_KING)) →
      isKingInCheck s c = false) := by
  have hk := findKing_spec s c
  have hany : (squares.any fun p =>
      decide ((s.board p.1 p.2).symbol ≠ EMPTY) && decide ((s.board p.1 p.2).isWhite ≠ c) &&
        canPieceAttack s (s.board p.1 p.2) p.1 p.2 (findKing s c).1 (findKing s c).2) = true ↔
      ∃ r col, isValidPosition r col = true ∧ (s.board r col).symbol ≠ EMPTY ∧
        (s.board r col).isWhite ≠ c ∧
        canPieceAttack s (s.board r col) r col (findKing s c).1 (findKing s c).2 = true := by
    simp only [List.any_eq_true, Bool.and_eq_true, decide_eq_true_eq]
    constructor
    · rintro ⟨p, hp, ⟨h1, h2⟩, h3⟩
      exact ⟨p.1, p.2, (mem_squares p).mp hp, h1, h2, h3⟩
    · rintro ⟨r, col, hpos, h1, h2, h3⟩
      exact ⟨(r, col), (mem_squares _).mpr hpos, ⟨h1, h2⟩, h3⟩
  unfold isKingInCheck
  simp only
  by_cases h1 : (findKing s c).1 = -1
  · rw [if_pos h1]
    refine ⟨⟨fun h => absurd h (by simp), fun h => ?_⟩, fun _ => rfl⟩
    exact absurd h.1.2 (hk.2 h1 _ _ h.1.1)
  · rw [if_neg h1]
    refine ⟨⟨fun h => ⟨hk.1 h1, hany.mp h⟩, fun h => hany.mpr h.2⟩, fun hno => ?_⟩
    exact absurd (hk.1 h1).2 (hno _ _ (hk.1 h1).1)

/-- C25 at a concrete input: a board without a white king symbol gives no
check. -/
theorem isKingInCheck_iff_witness :
    isKingInCheck (initialBoard.withGrid fun _ _ => emptyPiece) true = false :=
  (isKingInCheck_iff (initialBoard.withGrid fun _ _ => emptyPiece) true).2
    (fun _ _ _ => (by decide : EMPTY ≠ WHITE_KING))

/-! ## The board after an accepted move -/

theorem promoteSq_at (g : Grid) (piece : ChessPiece) (isPawnMove : Bool) (toRow toCol : Int)
    (promotion : Char) :
    (promoteSq g piece isPawnMove toRow toCol promotion toRow toCol).isWhite =
        (g toRow toCol).isWhite ∧
    (promoteSq g piece isPawnMove toRow toCol promotion toRow toCol).hasMoved =
        (g toRow toCol).hasMoved ∧
    (¬ (isPawnMove = true ∧ (toRow = 0 ∨ toRow = 7)) →
      promoteSq g piece isPawnMove toRow toCol promotion toRow toCol = g toRow toCol) ∧
    ((isPawnMove = true ∧ (toRow = 0 ∨ toRow = 7)) →
      (promoteSq g piece isPawnMove toRow toCol promotion toRow toCol).symbol ∈
        ['Q', 'R', 'B', 'N']) := by
  unfold promoteSq
  by_cases hpr : isPawnMove = true ∧ (toRow = 0 ∨ toRow = 7)
  · rw [if_pos hpr]
    simp only [setSq_apply, and_self, if_true]
    refine ⟨trivial, trivial, fun h => absurd hpr h, fun _ => ?_⟩
    generalize (if piece.isWhite = true then promotion.toUpper else promotion.toLower) = p0
    split_ifs with h
    · simp
    · simp only [List.mem_cons, List.mem_singleton, List.not_mem_nil, or_false]
      by_contra hn
      exact h ⟨fun e => hn (Or.inl e), fun e => hn (Or.inr (Or.inl e)),
        fun e => hn (Or.inr (Or.inr (Or.inl e))), fun e => hn (Or.inr (Or.inr (Or.inr e)))⟩
  · rw [if_neg hpr]
    exact ⟨rfl, rfl, fun _ => rfl, fun h => absurd h hpr⟩

/-- The board and the last-move pair after an accepted move that is neither
castling nor an en passant capture. -/
theorem plain_move_board (s : ChessBoard) (m0 m1 m3 m4 : Char) (c : Bool)
    (promotion : Char) (whiteCaptures blackCaptures : List Char)
    (hC : isCastlingFlag (s.board (decodeRow m1) (decodeCol m0)) (decodeCol m0) (decodeCol m3) =
      false)
    (hE : isEnPassantFlag s.board (s.board (decodeRow m1) (decodeCol m0)) (decodeCol m0)
      (decodeRow m4) (decodeCol m3) = false)
    (hacc : (movePiece s (String.mk [m0, m1, ' ', m3, m4]) c promotion whiteCaptures
      blackCaptures).ok = true) :
    (movePiece s (String.mk [m0, m1, ' ', m3, m4]) c promotion whiteCaptures
      blackCaptures).state.board (decodeRow m1) (decodeCol m0) = emptyPiece ∧
    ((movePiece s (String.mk [m0, m1, ' ', m3, m4]) c promotion whiteCaptures
      blackCaptures).state.board (decodeRow m4) (decodeCol m3)).isWhite =
        (s.board (decodeRow m1) (decodeCol m0)).isWhite ∧
    (s.board (decodeRow m1) (decodeCol m0)).isWhite = c ∧
    ((movePiece s (String.mk [m0, m1, ' ', m3, m4]) c promotion whiteCaptures
      blackCaptures).state.board (decodeRow m4) (decodeCol m3)).hasMoved = true ∧
    (¬ (isPawnMoveFlag (s.board (decodeRow m1) (decodeCol m0)) = true ∧
        (decodeRow m4 = 0 ∨ decodeRow m4 = 7)) →
      ((movePiece s (String.mk [m0, m1, ' ', m3, m4]) c promotion whiteCaptures
        blackCaptures).state.board (decodeRow m4) (decodeCol m3)).symbol =
          (s.board (decodeRow m1) (decodeCol m0)).symbol) ∧
    ((isPawnMoveFlag (s.board (decodeRow m1) (decodeCol m0)) = true ∧
        (decodeRow m4 = 0 ∨ decodeRow m4 = 7)) →
      ((movePiece s (String.mk [m0, m1, ' ', m3, m4]) c promotion whiteCaptures
        blackCaptures).state.board (decodeRow m4) (decodeCol m3)).symbol ∈
          ['Q', 'R', 'B', 'N']) ∧
    (∀ r col, ¬ (r = decodeRow m1 ∧ col = decodeCol m0) →
      ¬ (r = decodeRow m4 ∧ col = decodeCol m3) →
      (movePiece s (String.mk [m0, m1, ' ', m3, m4]) c promotion whiteCaptures
        blackCaptures).state.board r col = s.board r col) ∧
    (movePiece s (String.mk [m0, m1, ' ', m3, m4]) c promotion whiteCaptures
      blackCaptures).state.lastMoveFrom = (decodeRow m1, decodeCol m0) ∧
    (movePiece s (String.mk [m0, m1, ' ', m3, m4]) c promotion whiteCaptures
      blackCaptures).state.lastMoveTo = (decodeRow m4, decodeCol m3) := by
  obtain ⟨-, hto, -, hside, hv, hchk, he⟩ :=
    movePiece_accept_eq s m0 m1 m3 m4 c promotion whiteCaptures blackCaptures hacc
  have hsame : (isValidMove s (s.board (decodeRow m1) (decodeCol m0)) (decodeRow m1)
      (decodeCol m0) (decodeRow m4) (decodeCol m3)).2 = s := by
    rcases isValidMove_same_or_castle s (s.board (decodeRow m1) (decodeCol m0)) (decodeRow m1)
      (decodeCol m0) (decodeRow m4) (decodeCol m3) with h | h
    · exact h
    · rw [h.2.1] at hC; exact absurd hC (by simp)
  have hne : ¬ (decodeRow m1 = decodeRow m4 ∧ decodeCol m0 = decodeCol m3) := by
    intro h
    rw [isValidMove_reject_door s _ _ _ _ _ (Or.inr (Or.inr (Or.inl h)))] at hv
    exact absurd hv (by simp)
  rw [hsame] at he hchk
  rw [he, movePieceCore_accept _ _ _ _ _ _ _ _ _ _ hchk]
  simp only
  rw [finalGrid_eq_speculativeGrid _ _ _ _ _ _ promotion hto]
  generalize s.board (decodeRow m1) (decodeCol m0) = piece at hC hE hside ⊢
  generalize decodeRow m1 = fromRow at hne ⊢
  generalize decodeCol m0 = fromCol at hC hE hne ⊢
  generalize decodeRow m4 = toRow at hE hne ⊢
  generalize decodeCol m3 = toCol at hC hE hne ⊢
  have hspec : speculativeGrid s.board piece fromRow fromCol toRow toCol promotion =
      promoteSq (placeMover s.board piece fromRow fromCol toRow toCol) piece
        (isPawnMoveFlag piece) toRow toCol promotion := by
    simp only [speculativeGrid, applyToGrid, rookStage, hC, hE, Bool.false_eq_true, if_false]
  have hat := promoteSq_at (placeMover s.board piece fromRow fromCol toRow toCol) piece
    (isPawnMoveFlag piece) toRow toCol promotion
  have hplace : placeMover s.board piece fromRow fromCol toRow toCol toRow toCol =
      { symbol := piece.symbol, isWhite := piece.isWhite, hasMoved := true } := by
    rw [placeMover_apply, if_pos ⟨rfl, rfl⟩]
  rw [hplace] at hat
  rw [hspec]
  refine ⟨?_, hat.1, hside, hat.2.1, fun h => ?_, hat.2.2.2, fun r col h1 h2 => ?_, trivial, trivial⟩
  · rw [promoteSq_apply_ne _ _ _ _ _ _ _ _ hne, placeMover_apply, if_neg hne,
      if_pos ⟨rfl, rfl⟩]
  · rw [hat.2.2.1 h]
  · rw [promoteSq_apply_ne _ _ _ _ _ _ _ _ h2, placeMover_apply, if_neg h2, if_neg h1]

/-- C29: whenever `movePiece` accepts a move that is neither castling nor an
en passant capture, in the resulting state the from-square holds
`ChessPiece(EMPTY)`, the to-square holds a piece with the mover's colour and
`hasMoved` set, whose symbol is the mover's unless a pawn reached row 0 or 7
(then it is one of `'Q'`, `'R'`, `'B'`, `'N'`), every other square is as it
was, and `lastMoveFrom`, `lastMoveTo` are the squares of the move. -/
theorem plain_move_result (s : ChessBoard) (m0 m1 m3 m4 : Char) (c : Bool)
    (promotion : Char) (whiteCaptures blackCaptures : List Char)
    (hC : isCastlingFlag (s.board (decodeRow m1) (decodeCol m0)) (decodeCol m0) (decodeCol m3) =
      false)
    (hE : isEnPassantFlag s.board (s.board (decodeRow m1) (decodeCol m0)) (decodeCol m0)
      (decodeRow m4) (decodeCol m3) = false)
    (hacc : (movePiece s (String.mk [m0, m1, ' ', m3, m4]) c promotion whiteCaptures
      blackCaptures).ok = true) :
    (movePiece s (String.mk [m0, m1, ' ', m3, m4]) c promotion whiteCaptures
      blackCaptures).state.board (decodeRow m1) (decodeCol m0) = emptyPiece ∧
    ((movePiece s (String.mk [m0, m1, ' ', m3, m4]) c promotion whiteCaptures
      blackCaptures).state.board (decodeRow m4) (decodeCol m3)).isWhite =
        (s.board (decodeRow m1) (decodeCol m0)).isWhite ∧
    (s.board (decodeRow m1) (decodeCol m0)).isWhite = c ∧
    ((movePiece s (String.mk [m0, m1, ' ', m3, m4]) c promotion whiteCaptures
      blackCaptures).state.board (decodeRow m4) (decodeCol m3)).hasMoved = true ∧
    (¬ (isPawnMoveFlag (s.board (decodeRow m1) (decodeCol m0)) = true ∧
        (decodeRow m4 = 0 ∨ decodeRow m4 = 7)) →
      ((movePiece s (String.mk [m0, m1, ' ', m3, m4]) c promotion whiteCaptures
        blackCaptures).state.board (decodeRow m4) (decodeCol m3)).symbol =
          (s.board (decodeRow m1) (decodeCol m0)).symbol) ∧
    ((isPawnMoveFlag (s.board (decodeRow m1) (decodeCol m0)) = true ∧
        (decodeRow m4 = 0 ∨ decodeRow m4 = 7)) →
      ((movePiece s (String.mk [m0, m1, ' ', m3, m4]) c promotion whiteCaptures
        blackCaptures).state.board (decodeRow m4) (decodeCol m3)).symbol ∈
          ['Q', 'R', 'B', 'N']) ∧
    (∀ r col, ¬ (r = decodeRow m1 ∧ col = decodeCol m0) →
      ¬ (r = decodeRow m4 ∧ col = decodeCol m3) →
      (movePiece s (String.mk [m0, m1, ' ', m3, m4]) c promotion whiteCaptures
        blackCaptures).state.board r col = s.board r col) ∧
    (movePiece s (String.mk [m0, m1, ' ', m3, m4]) c promotion whiteCaptures
      blackCaptures).state.lastMoveFrom = (decodeRow m1, decodeCol m0) ∧
    (movePiece s (String.mk [m0, m1, ' ', m3, m4]) c promotion whiteCaptures
      blackCaptures).state.lastMoveTo = (decodeRow m4, decodeCol m3) :=
  plain_move_board s m0 m1 m3 m4 c promotion whiteCaptures blackCaptures hC hE hacc

/-- C29 at a concrete input: after `e2 e4` in the initial position the square
e2 is empty. -/
theorem plain_move_result_witness :
    (movePiece initialBoard (String.mk ['e', '2', ' ', 'e', '4']) true 'Q' []
      []).state.board (decodeRow '2') (decodeCol 'e') = emptyPiece :=
  (plain_move_result initialBoard 'e' '2' 'e' '4' true 'Q' [] [] (by decide) (by decide)
    (by decide)).1

theorem speculativeGrid_castling_apply (g : Grid) (piece : ChessPiece)
    (fromRow fromCol toRow toCol : Int) (promotion : Char)
    (hC : isCastlingFlag piece fromCol toCol = true)
    (hto : isValidPosition toRow toCol = true) (r c : Int) :
    speculativeGrid g piece fromRow fromCol toRow toCol promotion r c =
      if r = fromRow ∧ c = rookToColOf fromCol toCol then
        { placeMover g piece fromRow fromCol toRow toCol fromRow
            (rookFromColOf fromCol toCol) with hasMoved := true }
      else if r = fromRow ∧ c = rookFromColOf fromCol toCol then emptyPiece
      else placeMover g piece fromRow fromCol toRow toCol r c := by
  unfold speculativeGrid
  rw [hC, castling_not_enPassant g piece fromCol toRow toCol hC,
    castling_not_pawn piece fromCol toCol hC]
  exact applyToGrid_castling_apply g piece fromRow fromCol toRow toCol promotion r c
    (castling_rook_cols piece fromCol toRow toCol hC hto).1

theorem castlingBranch_corner (s : ChessBoard) (piece : ChessPiece)
    (fromRow fromCol toCol : Int) (htc : toCol = fromCol + 2 ∨ toCol = fromCol - 2)
    (h : (castlingBranch s piece fromRow fromCol toCol).1 = true) :
    (s.board fromRow (rookFromColOf fromCol toCol)).symbol =
      (if piece.isWhite then WHITE_ROOK else BLACK_ROOK) := by
  rcases htc with rfl | rfl
  · rw [castlingBranch_kingside] at h
    have hcol : rookFromColOf fromCol (fromCol + 2) = 7 := by
      unfold rookFromColOf; rw [if_pos (by omega)]
    rw [hcol]
    by_contra hne
    by_cases h1 : castlingFlagOf s piece.isWhite true = false
    · rw [if_pos h1] at h; exact absurd h (by simp)
    · rw [if_neg h1, if_pos (Or.inl hne)] at h; exact absurd h (by simp)
  · rw [castlingBranch_queenside] at h
    have hcol : rookFromColOf fromCol (fromCol - 2) = 0 := by
      unfold rookFromColOf; rw [if_neg (by omega)]
    rw [hcol]
    by_contra hne
    by_cases h1 : castlingFlagOf s piece.isWhite false = false
    · rw [if_pos h1] at h; exact absurd h (by simp)
    · rw [if_neg h1, if_pos (Or.inl hne)] at h; exact absurd h (by simp)

/-- The board and the castling flags after an accepted castling move, on a
board whose rooks carry their colour. -/
theorem castling_board (s : ChessBoard) (m0 m1 m3 m4 : Char) (c : Bool)
    (promotion : Char) (whiteCaptures blackCaptures : List Char)
    (hrook : RooksCarryColour s)
    (hC : isCastlingFlag (s.board (decodeRow m1) (decodeCol m0)) (decodeCol m0) (decodeCol m3) =
      true)
    (hacc : (movePiece s (String.mk [m0, m1, ' ', m3, m4]) c promotion whiteCaptures
      blackCaptures).ok = true) :
    decodeRow m4 = decodeRow m1 ∧
    (movePiece s (String.mk [m0, m1, ' ', m3, m4]) c promotion whiteCaptures
      blackCaptures).state.board (decodeRow m1) (decodeCol m3) =
        { symbol := (s.board (decodeRow m1) (decodeCol m0)).symbol
          isWhite := (s.board (decodeRow m1) (decodeCol m0)).isWhite
          hasMoved := true } ∧
    (movePiece s (String.mk [m0, m1, ' ', m3, m4]) c promotion whiteCaptures
      blackCaptures).state.board (decodeRow m1)
        (if decodeCol m3 > decodeCol m0 then decodeCol m0 + 1 else decodeCol m0 - 1) =
        { s.board (decodeRow m1) (if decodeCol m3 > decodeCol m0 then 7 else 0) with
          hasMoved := true } ∧
    (s.board (decodeRow m1) (if decodeCol m3 > decodeCol m0 then 7 else 0)).symbol =
      (if (s.board (decodeRow m1) (decodeCol m0)).isWhite then WHITE_ROOK else BLACK_ROOK) ∧
    (s.board (decodeRow m1) (if decodeCol m3 > decodeCol m0 then 7 else 0)).isWhite =
      (s.board (decodeRow m1) (decodeCol m0)).isWhite ∧
    (movePiece s (String.mk [m0, m1, ' ', m3, m4]) c promotion whiteCaptures
      blackCaptures).state.board (decodeRow m1) (decodeCol m0) = emptyPiece ∧
    (movePiece s (String.mk [m0, m1, ' ', m3, m4]) c promotion whiteCaptures
      blackCaptures).state.board (decodeRow m1)
        (if decodeCol m3 > decodeCol m0 then 7 else 0) = emptyPiece ∧
    castlingFlagOf (movePiece s (String.mk [m0, m1, ' ', m3, m4]) c promotion whiteCaptures
      blackCaptures).state (s.board (decodeRow m1) (decodeCol m0)).isWhite true = false ∧
    castlingFlagOf (movePiece s (String.mk [m0, m1, ' ', m3, m4]) c promotion whiteCaptures
      blackCaptures).state (s.board (decodeRow m1) (decodeCol m0)).isWhite false = false ∧
    (∀ r col, ¬ (r = decodeRow m1 ∧ (col = decodeCol m0 ∨ col = decodeCol m3 ∨
        col = (if decodeCol m3 > decodeCol m0 then decodeCol m0 + 1 else decodeCol m0 - 1) ∨
        col = (if decodeCol m3 > decodeCol m0 then 7 else 0))) →
      (movePiece s (String.mk [m0, m1, ' ', m3, m4]) c promotion whiteCaptures
        blackCaptures).state.board r col = s.board r col) := by
  obtain ⟨hfrom, hto, -, -, hv, hchk, he⟩ :=
    movePiece_accept_eq s m0 m1 m3 m4 c promotion whiteCaptures blackCaptures hacc
  obtain ⟨hbranch, hrow, -, -, -, hown⟩ :=
    isValidMove_accept_castle s _ _ _ _ _ hC hv
  have hboard := isValidMove_board s (s.board (decodeRow m1) (decodeCol m0)) (decodeRow m1)
    (decodeCol m0) (decodeRow m4) (decodeCol m3)
  obtain ⟨-, -, hwk, hwq, hbk, hbq, -, -⟩ :=
    isValidMove_scalars s (s.board (decodeRow m1) (decodeCol m0)) (decodeRow m1)
      (decodeCol m0) (decodeRow m4) (decodeCol m3)
  obtain ⟨hc1, hc2, hc3, hc4⟩ := castling_rook_cols _ _ (decodeRow m4) _ hC hto
  have hfacts := castlingBranch_facts s _ _ _ (decodeRow m4) _ hC hrow hfrom hto hown hrook
  rw [← hbranch] at hfacts
  have hcorner := castlingBranch_corner s _ _ _ _ (isCastlingFlag_cols _ _ _ hC).1 (hbranch ▸ hv)
  have htf : decodeCol m3 ≠ rookFromColOf (decodeCol m0) (decodeCol m3) := by
    rcases hfacts with h | h
    · rw [h] at hv; exact absurd hv (by simp)
    · exact h.2.1
  have htc : decodeCol m3 ≠ decodeCol m0 := by
    rcases (isCastlingFlag_cols _ _ _ hC).1 with h | h <;> omega
  have hcornerPos : isValidPosition (decodeRow m1)
      (rookFromColOf (decodeCol m0) (decodeCol m3)) = true := by
    simp only [isValidPosition, Bool.and_eq_true, decide_eq_true_eq] at hfrom ⊢
    unfold rookFromColOf
    split_ifs <;> omega
  rw [he, movePieceCore_accept _ _ _ _ _ _ _ _ _ _ hchk]
  simp only
  rw [finalGrid_eq_speculativeGrid _ _ _ _ _ _ promotion hto]
  have e1 : (if decodeCol m3 > decodeCol m0 then decodeCol m0 + 1 else decodeCol m0 - 1) =
      rookToColOf (decodeCol m0) (decodeCol m3) := rfl
  have e2 : (if decodeCol m3 > decodeCol m0 then (7 : Int) else 0) =
      rookFromColOf (decodeCol m0) (decodeCol m3) := rfl
  rw [e1, e2]
  rw [← hrow] at hto hboard ⊢
  generalize (isValidMove s (s.board (decodeRow m1) (decodeCol m0)) (decodeRow m1)
    (decodeCol m0) (decodeRow m1) (decodeCol m3)).2 = v at hboard hwk hwq hbk hbq ⊢
  generalize s.board (decodeRow m1) (decodeCol m0) = piece at hC hcorner hboard ⊢
  generalize decodeRow m1 = fromRow at hcorner hboard hcornerPos hto ⊢
  generalize decodeCol m0 = fromCol at hC hcorner hboard hcornerPos hc1 hc2 hc3 hc4 htf htc ⊢
  generalize decodeCol m3 = toCol at hC hcorner hboard hcornerPos hc1 hc2 hc3 hc4 htf htc hto ⊢
  have hspec := speculativeGrid_castling_apply v.board piece fromRow fromCol fromRow toCol
    promotion hC hto
  have hvcorner : v.board fromRow (rookFromColOf fromCol toCol) =
      s.board fromRow (rookFromColOf fromCol toCol) := by
    rcases hboard fromRow (rookFromColOf fromCol toCol) with h | h
    · exact h
    · rcases h.2.2.2 with h | h
      · exact absurd h.symm hc1
      · exact absurd h.symm htf
  refine ⟨rfl, ?_, ?_, hcorner, ?_, ?_, ?_, ?_, ?_, ?_⟩
  · rw [hspec, if_neg (fun h => hc2 h.2.symm), if_neg (fun h => htf h.2), placeMover_apply,
      if_pos ⟨rfl, rfl⟩]
  · rw [hspec, if_pos ⟨rfl, rfl⟩, placeMover_apply, if_neg (fun h => htf h.2.symm),
      if_neg (fun h => hc4 h.2), hvcorner]
  · have hr := hrook fromRow (rookFromColOf fromCol toCol) hcornerPos
    rw [hcorner] at hr
    cases hw : piece.isWhite
    · rw [hw] at hr; exact hr.2 rfl
    · rw [hw] at hr; exact hr.1 rfl
  · rw [hspec, if_neg (fun h => hc3 h.2.symm), if_neg (fun h => hc4 h.2.symm), placeMover_apply,
      if_neg (fun h => htc h.2.symm), if_pos ⟨rfl, rfl⟩]
  · rw [hspec, if_neg (fun h => hc1 h.2.symm), if_pos ⟨rfl, rfl⟩]
  · unfold castlingFlagOf
    cases hw : piece.isWhite <;> simp [kingsideAfter, hC, hw]
  · unfold castlingFlagOf
    cases hw : piece.isWhite <;> simp [queensideAfter, hC, hw]
  · intro r col hn
    rw [speculativeGrid_other _ _ _ _ _ _ _ _ _ (fun h => hn ⟨h.1, Or.inr (Or.inl h.2)⟩)
      (fun h => hn ⟨h.1, Or.inl h.2⟩)
      (fun _ h => hn ⟨h.1, Or.inr (Or.inr (Or.inl h.2))⟩)
      (fun _ h => hn ⟨h.1, Or.inr (Or.inr (Or.inr h.2))⟩)
      (fun h => absurd h (by rw [castling_not_enPassant _ _ _ _ _ hC]; simp))]
    rcases hboard r col with h | h
    · exact h
    · exact absurd ⟨h.2.2.1, h.2.2.2.elim (fun h => Or.inr (Or.inr (Or.inl h)))
        (fun h => Or.inr (Or.inl h))⟩ hn

/-- C28: on a board whose rooks carry their colour, whenever `movePiece`
accepts a king move of two columns, the move stays on the king's row, and in
the resulting state the king stands on the destination with `hasMoved` set,
the piece that stood on the corner of the row (column 7 when the king moved
right, column 0 when it moved left), a rook of the king's colour, stands on the
square the king crossed (the king's column plus or minus 1) with `hasMoved`
set, the king's origin and the corner hold `ChessPiece(EMPTY)`, both castling
flags of the king's colour are false, and every other square is as it was. -/
theorem castling_result (s : ChessBoard) (m0 m1 m3 m4 : Char) (c : Bool)
    (promotion : Char) (whiteCaptures blackCaptures : List Char)
    (hrook : RooksCarryColour s)
    (hC : isCastlingFlag (s.board (decodeRow m1) (decodeCol m0)) (decodeCol m0) (decodeCol m3) =
      true)
    (hacc : (movePiece s (String.mk [m0, m1, ' ', m3, m4]) c promotion whiteCaptures
      blackCaptures).ok = true) :
    decodeRow m4 = decodeRow m1 ∧
    (movePiece s (String.mk [m0, m1, ' ', m3, m4]) c promotion whiteCaptures
      blackCaptures).state.board (decodeRow m1) (decodeCol m3) =
        { symbol := (s.board (decodeRow m1) (decodeCol m0)).symbol
          isWhite := (s.board (decodeRow m1) (decodeCol m0)).isWhite
          hasMoved := true } ∧
    (movePiece s (String.mk [m0, m1, ' ', m3, m4]) c promotion whiteCaptures
      blackCaptures).state.board (decodeRow m1)
        (if decodeCol m3 > decodeCol m0 then decodeCol m0 + 1 else decodeCol m0 - 1) =
        { s.board (decodeRow m1) (if decodeCol m3 > decodeCol m0 then 7 else 0) with
          hasMoved := true } ∧
    (s.board (decodeRow m1) (if decodeCol m3 > decodeCol m0 then 7 else 0)).symbol =
      (if (s.board (decodeRow m1) (decodeCol m0)).isWhite then WHITE_ROOK else BLACK_ROOK) ∧
    (s.board (decodeRow m1) (if decodeCol m3 > decodeCol m0 then 7 else 0)).isWhite =
      (s.board (decodeRow m1) (decodeCol m0)).isWhite ∧
    (movePiece s (String.mk [m0, m1, ' ', m3, m4]) c promotion whiteCaptures
      blackCaptures).state.board (decodeRow m1) (decodeCol m0) = emptyPiece ∧
    (movePiece s (String.mk [m0, m1, ' ', m3, m4]) c promotion whiteCaptures
      blackCaptures).state.board (decodeRow m1)
        (if decodeCol m3 > decodeCol m0 then 7 else 0) = emptyPiece ∧
    castlingFlagOf (movePiece s (String.mk [m0, m1, ' ', m3, m4]) c promotion whiteCaptures
      blackCaptures).state (s.board (decodeRow m1) (decodeCol m0)).isWhite true = false ∧
    castlingFlagOf (movePiece s (String.mk [m0, m1, ' ', m3, m4]) c promotion whiteCaptures
      blackCaptures).state (s.board (decodeRow m1) (decodeCol m0)).isWhite false = false ∧
    (∀ r col, ¬ (r = decodeRow m1 ∧ (col = decodeCol m0 ∨ col = decodeCol m3 ∨
        col = (if decodeCol m3 > decodeCol m0 then decodeCol m0 + 1 else decodeCol m0 - 1) ∨
        col = (if decodeCol m3 > decodeCol m0 then 7 else 0))) →
      (movePiece s (String.mk [m0, m1, ' ', m3, m4]) c promotion whiteCaptures
        blackCaptures).state.board r col = s.board r col) :=
  castling_board s m0 m1 m3 m4 c promotion whiteCaptures blackCaptures hrook hC hacc

/-- C28 at a concrete input: in `castlingPosition` the accepted `e1 g1` puts
the white king on g1. -/
theorem castling_result_witness :
    (movePiece castlingPosition (String.mk ['e', '1', ' ', 'g', '1']) true 'Q' []
      []).state.board (decodeRow '1') (decodeCol 'g') =
        { symbol := (castlingPosition.board (decodeRow '1') (decodeCol 'e')).symbol
          isWhite := (castlingPosition.board (decodeRow '1') (decodeCol 'e')).isWhite
          hasMoved := true } :=
  (castling_result castlingPosition 'e' '1' 'g' '1' true 'Q' [] []
    (rooksCarryColour_loadRows initialBoard castlingPosition _ rooksCarryColour_initialBoard rfl)
    (by decide) (by decide)).2.1

/-! ## The terminal-state queries and the board -/

theorem chessBoard_eq_of (s t : ChessBoard) (hsc : SameScalars s t) (hb : t.board = s.board) :
    t = s := by
  obtain ⟨h1, h2, h3, h4, h5, h6, h7, h8⟩ := hsc
  cases s
  cases t
  simp only at h1 h2 h3 h4 h5 h6 h7 h8 hb
  subst h1 h2 h3 h4 h5 h6 h7 h8 hb
  rfl

theorem sameUpToEmpty_eq {b b' : Grid} (h : SameUpToEmpty b b')
    (hempty : ∀ r c, (b r c).symbol = EMPTY → b r c = emptyPiece) : b' = b := by
  funext r c
  rcases h r c with h | ⟨he, h⟩
  · exact h
  · rw [h, hempty r c he]

/-- C22 as stated fails: in `queryPosition` the call `hasLegalMoves(black)`
returns true and leaves the empty square f8 with the fields of
`ChessPiece(EMPTY)` where `loadGame` had put `ChessPiece('.', false)`; the
castling attempt e8-g8 that the search tries (rejected inside the pass-through
simulation of `isValidMove`) has rewritten it. -/
theorem query_rewrites_square :
    (hasLegalMoves queryPosition false).1 = true ∧
    queryPosition.board 0 5 = { symbol := EMPTY, isWhite := false, hasMoved := false } ∧
    (hasLegalMoves queryPosition false).2.board 0 5 =
      { symbol := EMPTY, isWhite := true, hasMoved := false } := by
  decide!

/-- C22 (amended): on a board whose rooks carry their colour, `hasLegalMoves`,
`isCheckmate` and `isStalemate` leave `lastMoveFrom`, `lastMoveTo`, the four
castling flags and both clocks as they were and leave every square as it was,
except that an empty square may now hold the value `ChessPiece(EMPTY)`; when
every empty square of the board already holds `ChessPiece(EMPTY)`, the board
object after the call equals the board object before it. -/
theorem queries_leave_board (s : ChessBoard) (c : Bool) (hrook : RooksCarryColour s) :
    (SameScalars s (hasLegalMoves s c).2 ∧ SameUpToEmpty s.board (hasLegalMoves s c).2.board) ∧
    (SameScalars s (isCheckmate s c).2 ∧ SameUpToEmpty s.board (isCheckmate s c).2.board) ∧
    (SameScalars s (isStalemate s c).2 ∧ SameUpToEmpty s.board (isStalemate s c).2.board) ∧
    ((∀ r col, (s.board r col).symbol = EMPTY → s.board r col = emptyPiece) →
      (hasLegalMoves s c).2 = s ∧ (isCheckmate s c).2 = s ∧ (isStalemate s c).2 = s) := by
  obtain ⟨h1, h2, -⟩ := hasLegalMovesFrom_spec c s hrook squares s (sameScalars_refl s)
    (sameUpToEmpty_refl _)
  have hl : SameScalars s (hasLegalMoves s c).2 ∧
      SameUpToEmpty s.board (hasLegalMoves s c).2.board := ⟨h1, h2⟩
  have hm : SameScalars s (isCheckmate s c).2 ∧
      SameUpToEmpty s.board (isCheckmate s c).2.board := by
    unfold isCheckmate
    split_ifs
    · exact ⟨sameScalars_refl s, sameUpToEmpty_refl _⟩
    · exact hl
  have hst : SameScalars s (isStalemate s c).2 ∧
      SameUpToEmpty s.board (isStalemate s c).2.board := by
    unfold isStalemate
    split_ifs
    · exact ⟨sameScalars_refl s, sameUpToEmpty_refl _⟩
    · exact hl
  refine ⟨hl, hm, hst, fun hempty => ⟨?_, ?_, ?_⟩⟩
  · exact chessBoard_eq_of _ _ hl.1 (sameUpToEmpty_eq hl.2 hempty)
  · exact chessBoard_eq_of _ _ hm.1 (sameUpToEmpty_eq hm.2 hempty)
  · exact chessBoard_eq_of _ _ hst.1 (sameUpToEmpty_eq hst.2 hempty)

/-- Every empty square of the constructor's board holds `ChessPiece(EMPTY)`. -/
theorem initialBoard_empty_squares (r c : Int)
    (h : (initialBoard.board r c).symbol = EMPTY) : initialBoard.board r c = emptyPiece := by
  by_cases hb : 0 ≤ r ∧ r < 8 ∧ 0 ≤ c ∧ c < 8
  · obtain ⟨h1, h2, h3, h4⟩ := hb
    revert h
    interval_cases r <;> interval_cases c <;> decide
  · simp only [initialBoard, resetBoard, hb, if_false]

/-- C22 (amended) at a concrete input: in the initial position, whose empty
squares hold `ChessPiece(EMPTY)`, `hasLegalMoves(white)` leaves the board
object as it was. -/
theorem queries_leave_board_witness : (hasLegalMoves initialBoard true).2 = initialBoard :=
  ((queries_leave_board initialBoard true rooksCarryColour_initialBoard).2.2.2
    initialBoard_empty_squares).1

/-! ## Saving and loading -/

/-- What `loadGame` reads back from the text of `saveGame`: every square of
the board has the symbol it had, the colour white exactly when that symbol is
an upper-case letter, and no `hasMoved` mark; the four castling flags and the
two clocks are those of the saved board. -/
theorem load_save (s t : ChessBoard) :
    (∀ r c, isValidPosition r c = true →
      (loadGame t (saveGame s)).board r c = loadedPiece (s.board r c).symbol) ∧
    SameScalars { s with lastMoveFrom := t.lastMoveFrom, lastMoveTo := t.lastMoveTo }
      (loadGame t (saveGame s)) := by
  refine ⟨?_, rfl, rfl, rfl, rfl, rfl, rfl, rfl, rfl⟩
  intro r c h
  simp only [isValidPosition, Bool.and_eq_true, decide_eq_true_eq] at h
  obtain ⟨⟨⟨h1, h2⟩, h3⟩, h4⟩ := h
  have hr : r = 0 ∨ r = 1 ∨ r = 2 ∨ r = 3 ∨ r = 4 ∨ r = 5 ∨ r = 6 ∨ r = 7 := by omega
  have hc : c = 0 ∨ c = 1 ∨ c = 2 ∨ c = 3 ∨ c = 4 ∨ c = 5 ∨ c = 6 ∨ c = 7 := by omega
  rcases hr with rfl | rfl | rfl | rfl | rfl | rfl | rfl | rfl <;>
    rcases hc with rfl | rfl | rfl | rfl | rfl | rfl | rfl | rfl <;> rfl

/-- C21 fails on a reachable state: every move of `blackPromotionCalls` is
accepted; in the resulting state h1 holds the promoted black pawn, which
`movePiece` has given the symbol `'Q'` and the colour black; after `saveGame`
and `loadGame` the square h1 holds a white piece. -/
theorem save_load_changes_colour :
    allAccepted newGame blackPromotionCalls = true ∧
    (runCalls newGame blackPromotionCalls).state.board 7 7 =
      { symbol := 'Q', isWhite := false, hasMoved := true } ∧
    (loadGame (runCalls newGame blackPromotionCalls).state
      (saveGame (runCalls newGame blackPromotionCalls).state)).board 7 7 =
      { symbol := 'Q', isWhite := true, hasMoved := false } := by
  decide!

/-! ## The legal-move search and the move engine -/

/-- C30, the code at the failing input: in `enPassantMatePosition` white is in
check, `hasLegalMoves(white)` is false and `isCheckmate(white)` is true, yet
`movePiece` accepts the white move `e2 d3`: the en passant test of
`isValidMove` passes, `movePiece` removes the checking pawn on d2 in its
speculative move before it tests for check (source lines 292-296), and the
simulation of `hasLegalMoves` (source lines 401-403) relocates only the moving
piece and leaves the pawn on the board. -/
theorem checkmate_with_accepted_move :
    isKingInCheck enPassantMatePosition true = true ∧
    (hasLegalMoves enPassantMatePosition true).1 = false ∧
    (isCheckmate enPassantMatePosition true).1 = true ∧
    (movePiece enPassantMatePosition "e2 d3" true 'Q' [] []).ok = true := by
  decide!

theorem checkView_of_sameView {b b' : Grid} (h : SameView b b') (w : Bool) :
    CheckView w b b' := by
  intro r c
  obtain ⟨h1, h2⟩ := h r c
  exact ⟨by rw [h1], h2, fun _ _ => h1, by rw [h1]⟩

theorem findKing_checkView {s t : ChessBoard} {w : Bool} (h : CheckView w s.board t.board) :
    findKing s w = findKing t w := by
  unfold findKing
  have : (fun p : Int × Int =>
      decide ((s.board p.1 p.2).symbol = (if w then WHITE_KING else BLACK_KING))) =
      (fun p : Int × Int =>
      decide ((t.board p.1 p.2).symbol = (if w then WHITE_KING else BLACK_KING))) := by
    funext p
    exact decide_eq_decide.mpr (h p.1 p.2).2.2.2
  rw [this]

theorem isPathClearLoop_checkView {s t : ChessBoard} {w : Bool}
    (h : CheckView w s.board t.board)
    (rowStep colStep toRow toCol : Int) (fuel : Nat) (row col : Int) :
    isPathClearLoop s rowStep colStep toRow toCol fuel row col =
      isPathClearLoop t rowStep colStep toRow toCol fuel row col := by
  induction fuel generalizing row col with
  | zero => rfl
  | succ n ih =>
    simp only [isPathClearLoop]
    have he : decide ((s.board row col).symbol ≠ EMPTY) =
        decide ((t.board row col).symbol ≠ EMPTY) :=
      decide_eq_decide.mpr (not_congr (h row col).1)
    rw [he, ih]

theorem isPathClear_checkView {s t : ChessBoard} {w : Bool} (h : CheckView w s.board t.board)
    (fromRow fromCol toRow toCol : Int) :
    isPathClear s fromRow fromCol toRow toCol = isPathClear t fromRow fromCol toRow toCol := by
  unfold isPathClear
  exact isPathClearLoop_checkView h _ _ _ _ _ _ _

theorem canPieceAttack_checkView {s t : ChessBoard} {w : Bool} (h : CheckView w s.board t.board)
    (p q : ChessPiece) (hpq : p.symbol = q.symbol) (fromRow fromCol toRow toCol : Int) :
    canPieceAttack s p fromRow fromCol toRow toCol =
      canPieceAttack t q fromRow fromCol toRow toCol := by
  unfold canPieceAttack
  have he : decide ((s.board toRow toCol).symbol ≠ EMPTY) =
      decide ((t.board toRow toCol).symbol ≠ EMPTY) :=
    decide_eq_decide.mpr (not_congr (h toRow toCol).1)
  simp only [hpq, isPathClear_checkView h, he]
  by_cases hemp : (t.board toRow toCol).symbol = EMPTY
  · simp [hemp]
  · have hc := (h toRow toCol).2.1 (fun e => hemp ((h toRow toCol).1.mp e))
    rw [hc]

/-- Check detection for the side `w` gives the same answer on two grids that
it cannot tell apart. -/
theorem isKingInCheck_checkView {s t : ChessBoard} {w : Bool}
    (h : CheckView w s.board t.board) : isKingInCheck s w = isKingInCheck t w := by
  unfold isKingInCheck
  simp only [findKing_checkView h]
  have : (fun p : Int × Int =>
      decide ((s.board p.1 p.2).symbol ≠ EMPTY) && decide ((s.board p.1 p.2).isWhite ≠ w) &&
        canPieceAttack s (s.board p.1 p.2) p.1 p.2 (findKing t w).1 (findKing t w).2) =
      (fun p : Int × Int =>
      decide ((t.board p.1 p.2).symbol ≠ EMPTY) && decide ((t.board p.1 p.2).isWhite ≠ w) &&
        canPieceAttack t (t.board p.1 p.2) p.1 p.2 (findKing t w).1 (findKing t w).2) := by
    funext p
    obtain ⟨h1, h2, h3, -⟩ := h p.1 p.2
    by_cases he : (s.board p.1 p.2).symbol = EMPTY
    · have he' := h1.mp he
      simp [he, he']
    · have he' : (t.board p.1 p.2).symbol ≠ EMPTY := fun e => he (h1.mpr e)
      have hc := h2 he
      by_cases hw : (s.board p.1 p.2).isWhite = w
      · have hw' : (t.board p.1 p.2).isWhite = w := by rw [← hc]; exact hw
        simp [hw, hw']
      · have hsym := h3 he hw
        rw [canPieceAttack_checkView h _ _ hsym, ← hc]
        simp [he, he']
  rw [this]

theorem castling_accept_checks (s : ChessBoard) (fromRow fromCol toRow toCol : Int)
    (hC : isCastlingFlag (s.board fromRow fromCol) fromCol toCol = true)
    (hv : (isValidMove s (s.board fromRow fromCol) fromRow fromCol toRow toCol).1 = true) :
    fromRow = toRow ∧ isValidPosition fromRow fromCol = true ∧
    isValidPosition fromRow (rookToColOf fromCol toCol) = true ∧
    rookToColOf fromCol toCol ≠ fromCol ∧ toCol ≠ fromCol ∧
    (rookToColOf fromCol toCol - fromCol).natAbs ≤ 1 ∧
    (s.board fromRow (rookToColOf fromCol toCol)).symbol = EMPTY ∧
    isKingInCheck (s.withGrid (kingAt s.board fromRow fromCol (rookToColOf fromCol toCol)
      (s.board fromRow fromCol))) (s.board fromRow fromCol).isWhite = false ∧
    isKingInCheck (s.withGrid (kingAt s.board fromRow fromCol toCol
      (s.board fromRow fromCol))) (s.board fromRow fromCol).isWhite = false := by
  obtain ⟨hbranch, hrow, -, hfrom, hto, -⟩ := isValidMove_accept_castle s _ _ _ _ _ hC hv
  rw [hbranch] at hv
  have hf := hfrom
  simp only [isValidPosition, Bool.and_eq_true, decide_eq_true_eq] at hfrom hto
  rcases (isCastlingFlag_cols _ _ _ hC).1 with rfl | rfl
  · obtain ⟨-, -, -, hbetween, -, h1, h2⟩ :=
      (castling_kingside_iff s _ fromRow fromCol (by omega) (by omega)).mp hv
    have hrt : rookToColOf fromCol (fromCol + 2) = fromCol + 1 := by
      unfold rookToColOf; rw [if_pos (by omega)]
    rw [hrt]
    refine ⟨hrow, hf, ?_, by omega, by omega, by omega, hbetween _ (by omega) (by omega), h1, h2⟩
    simp only [isValidPosition, Bool.and_eq_true, decide_eq_true_eq]
    omega
  · obtain ⟨-, -, -, hbetween, -, h1, h2⟩ :=
      (castling_queenside_iff s _ fromRow fromCol (by omega) (by omega)).mp hv
    have hrt : rookToColOf fromCol (fromCol - 2) = fromCol - 1 := by
      unfold rookToColOf; rw [if_neg (by omega)]
    rw [hrt]
    refine ⟨hrow, hf, ?_, by omega, by omega, by omega, hbetween _ (by omega) (by omega), h1, h2⟩
    simp only [isValidPosition, Bool.and_eq_true, decide_eq_true_eq]
    omega

theorem simulateGrid_apply (b : Grid) (piece : ChessPiece)
    (fromRow fromCol toRow toCol r c : Int) :
    simulateGrid b piece fromRow fromCol toRow toCol r c =
      if r = fromRow ∧ c = fromCol then emptyPiece
      else if r = toRow ∧ c = toCol then
        { symbol := piece.symbol, isWhite := piece.isWhite, hasMoved := true }
      else b r c := by
  simp only [simulateGrid, markMoved_apply, setSq_apply, ChessPiece.new]
  split_ifs <;> first | rfl | simp_all

theorem kingAt_apply (b : Grid) (fromRow fromCol col : Int) (king : ChessPiece) (r c : Int) :
    kingAt b fromRow fromCol col king r c =
      if r = fromRow ∧ c = col then king
      else if r = fromRow ∧ c = fromCol then emptyPiece
      else b r c := by
  simp only [kingAt, setSq_apply]

/-- The simulated move of `hasLegalMoves` shows check detection the board on
which the castling branch of `isValidMove` tests the king's destination. -/
theorem simulateGrid_sameView_kingAt (b : Grid) (fromRow fromCol toCol : Int)
    (hne : toCol ≠ fromCol) :
    SameView (simulateGrid b (b fromRow fromCol) fromRow fromCol fromRow toCol)
      (kingAt b fromRow fromCol toCol (b fromRow fromCol)) := by
  intro r c
  rw [simulateGrid_apply, kingAt_apply]
  by_cases h1 : r = fromRow ∧ c = fromCol
  · rw [if_pos h1, if_neg (fun h => hne (h.2.symm.trans h1.2)), if_pos h1]
    exact ⟨rfl, fun _ => rfl⟩
  · rw [if_neg h1, if_neg h1]
    split_ifs
    · exact ⟨rfl, fun _ => rfl⟩
    · exact ⟨rfl, fun _ => rfl⟩

/-- The board of a king step shows check detection the board on which the
castling branch of `isValidMove` tests the square the king crosses. -/
theorem placeMover_sameView_kingAt (b : Grid) (fromRow fromCol toCol : Int) :
    SameView (placeMover b (b fromRow fromCol) fromRow fromCol fromRow toCol)
      (kingAt b fromRow fromCol toCol (b fromRow fromCol)) := by
  intro r c
  rw [placeMover_apply, kingAt_apply]
  split_ifs
  · exact ⟨rfl, fun _ => rfl⟩
  · exact ⟨rfl, fun _ => rfl⟩
  · exact ⟨rfl, fun _ => rfl⟩

/-- For a move that is neither castling nor en passant, the board on which
`movePiece` tests for check and the board of the simulated move of
`hasLegalMoves` differ at most in the symbol of the mover's promoted pawn and
in `hasMoved` marks. -/
theorem speculativeGrid_checkView_simulateGrid (b : Grid) (piece : ChessPiece)
    (fromRow fromCol toRow toCol : Int) (promotion : Char) (w : Bool)
    (hpiece : piece.symbol ≠ EMPTY) (hside : piece.isWhite = w)
    (hC : isCastlingFlag piece fromCol toCol = false)
    (hE : isEnPassantFlag b piece fromCol toRow toCol = false)
    (hne : ¬ (fromRow = toRow ∧ fromCol = toCol)) :
    CheckView w (speculativeGrid b piece fromRow fromCol toRow toCol promotion)
      (simulateGrid b piece fromRow fromCol toRow toCol) := by
  have hspec : speculativeGrid b piece fromRow fromCol toRow toCol promotion =
      promoteSq (placeMover b piece fromRow fromCol toRow toCol) piece
        (isPawnMoveFlag piece) toRow toCol promotion := by
    simp only [speculativeGrid, applyToGrid, rookStage, hC, hE, Bool.false_eq_true, if_false]
  have hat := promoteSq_at (placeMover b piece fromRow fromCol toRow toCol) piece
    (isPawnMoveFlag piece) toRow toCol promotion
  have hplace : placeMover b piece fromRow fromCol toRow toCol toRow toCol =
      { symbol := piece.symbol, isWhite := piece.isWhite, hasMoved := true } := by
    rw [placeMover_apply, if_pos ⟨rfl, rfl⟩]
  rw [hplace] at hat
  rw [hspec]
  intro r c
  rw [simulateGrid_apply]
  by_cases h2 : r = toRow ∧ c = toCol
  · obtain ⟨rfl, rfl⟩ := h2
    rw [if_neg (fun h => hne ⟨h.1.symm, h.2.symm⟩), if_pos ⟨rfl, rfl⟩]
    by_cases hpr : isPawnMoveFlag piece = true ∧ (r = 0 ∨ r = 7)
    · have hmem := hat.2.2.2 hpr
      have hpawn : piece.symbol = WHITE_PAWN ∨ piece.symbol = BLACK_PAWN := by
        have := hpr.1
        simpa [isPawnMoveFlag] using this
      simp only [List.mem_cons, List.mem_singleton, List.not_mem_nil, or_false] at hmem
      refine ⟨?_, fun _ => hat.1, fun _ hw => absurd (hat.1.trans hside) hw, ?_⟩
      · constructor
        · intro h
          rw [h] at hmem
          exact absurd hmem (by decide)
        · intro h
          exact absurd h hpiece
      · constructor
        · intro h
          rw [h] at hmem
          cases w <;> exact absurd hmem (by decide)
        · intro h
          have h' : piece.symbol = (if w then WHITE_KING else BLACK_KING) := h
          rw [h'] at hpawn
          cases w <;> exact absurd hpawn (by decide)
    · rw [hat.2.2.1 hpr]
      exact ⟨Iff.rfl, fun _ => rfl, fun _ _ => rfl, Iff.rfl⟩
  · rw [promoteSq_apply_ne _ _ _ _ _ _ _ _ h2, placeMover_apply, if_neg h2, if_neg h2]
    exact ⟨Iff.rfl, fun _ => rfl, fun _ _ => rfl, Iff.rfl⟩

theorem isEnPassantFlag_pawn (b : Grid) (piece : ChessPiece) (fromCol toRow toCol : Int)
    (h : isEnPassantFlag b piece fromCol toRow toCol = true) :
    (piece.symbol = WHITE_PAWN ∨ piece.symbol = BLACK_PAWN) ∧
    (b toRow toCol).symbol = EMPTY := by
  unfold isEnPassantFlag isPawnMoveFlag at h
  simp only [Bool.and_eq_true, Bool.or_eq_true, decide_eq_true_eq] at h
  exact ⟨h.1.1.1, h.1.2⟩

/-- Where no en passant test of `isValidMove` can succeed, no accepted move
raises the en passant flag of `movePiece`. -/
theorem isEnPassantFlag_false_of_closed (s : ChessBoard) (piece : ChessPiece)
    (fromRow fromCol toRow toCol : Int) (hep : ¬ enPassantOpen s)
    (hv : (isValidMove s piece fromRow fromCol toRow toCol).1 = true) :
    isEnPassantFlag s.board piece fromCol toRow toCol = false := by
  cases hE : isEnPassantFlag s.board piece fromCol toRow toCol
  · rfl
  · exfalso
    obtain ⟨hp, hempty⟩ := isEnPassantFlag_pawn _ _ _ _ _ hE
    have hcol := isEnPassantFlag_cols _ _ _ _ _ hE
    exact hep ⟨toCol, pawn_sideways_onto_empty s piece fromRow fromCol toRow toCol hp
      (fun h => hcol h.symm) hempty hv⟩

theorem isValidMove_king_step (s : ChessBoard) (piece : ChessPiece)
    (fromRow fromCol toRow toCol : Int)
    (hk : piece.symbol = WHITE_KING ∨ piece.symbol = BLACK_KING)
    (hfrom : isValidPosition fromRow fromCol = true) (hto : isValidPosition toRow toCol = true)
    (hne : ¬ (fromRow = toRow ∧ fromCol = toCol))
    (hempty : (s.board toRow toCol).symbol = EMPTY)
    (hr : (toRow - fromRow).natAbs ≤ 1) (hc : (toCol - fromCol).natAbs ≤ 1) :
    isValidMove s piece fromRow fromCol toRow toCol = (true, s) := by
  have hp1 : piece.symbol ≠ WHITE_PAWN := by
    rcases hk with h | h <;> rw [h] <;> decide
  have hp2 : piece.symbol ≠ BLACK_PAWN := by
    rcases hk with h | h <;> rw [h] <;> decide
  unfold isValidMove
  simp only [hfrom, hto, Bool.not_true, Bool.or_self, Bool.false_eq_true, if_false, hne, hempty,
    ne_eq, not_true_eq_false, false_and, hp1, hp2, hk, if_true, hr, hc, and_self]

/-- The text `moveText f t` for two squares of the board, the first holding a
piece of the side to move, is accepted when `isValidMove` accepts and the
mover is not in check on the speculative board. -/
theorem movePiece_moveText_accept (s : ChessBoard) (f t : Int × Int) (c : Bool)
    (promotion : Char) (wc bc : List Char) (hf : f ∈ squares) (ht : t ∈ squares)
    (hpiece : (s.board f.1 f.2).symbol ≠ EMPTY) (hside : (s.board f.1 f.2).isWhite = c)
    (hv : (isValidMove s (s.board f.1 f.2) f.1 f.2 t.1 t.2).1 = true)
    (hchk : isKingInCheck (speculativeState
      (isValidMove s (s.board f.1 f.2) f.1 f.2 t.1 t.2).2 (s.board f.1 f.2) f.1 f.2 t.1 t.2
      promotion) c = false) :
    (movePiece s (moveText f t) c promotion wc bc).ok = true := by
  obtain ⟨hfr, hfc⟩ := squareText_decode f hf
  obtain ⟨htr, htc⟩ := squareText_decode t ht
  have hdec := movePiece_decoded s (Char.ofNat ('a'.toNat + f.2.toNat))
    (Char.ofNat ('8'.toNat - f.1.toNat)) (Char.ofNat ('a'.toNat + t.2.toNat))
    (Char.ofNat ('8'.toNat - t.1.toNat)) c promotion wc bc
  rw [hfr, hfc, htr, htc] at hdec
  have hm : moveText f t = String.mk [Char.ofNat ('a'.toNat + f.2.toNat),
      Char.ofNat ('8'.toNat - f.1.toNat), ' ', Char.ofNat ('a'.toNat + t.2.toNat),
      Char.ofNat ('8'.toNat - t.1.toNat)] := rfl
  rw [hm, hdec ((mem_squares f).mp hf) ((mem_squares t).mp ht) hpiece hside, if_pos hv,
    movePieceCore_ok, hchk]
  rfl

/-- The answer of `hasLegalMoves` in terms of the pairs of squares it tries. -/
theorem hasLegalMoves_pairs (s : ChessBoard) (c : Bool) (hrook : RooksCarryColour s) :
    (hasLegalMoves s c).1 = true ↔
      ∃ fromRow fromCol toRow toCol : Int,
        isValidPosition fromRow fromCol = true ∧ isValidPosition toRow toCol = true ∧
        (s.board fromRow fromCol).symbol ≠ EMPTY ∧ (s.board fromRow fromCol).isWhite = c ∧
        (isValidMove s (s.board fromRow fromCol) fromRow fromCol toRow toCol).1 = true ∧
        isKingInCheck (simulatedState s (s.board fromRow fromCol) fromRow fromCol toRow toCol)
          c = false := by
  unfold hasLegalMoves
  refine (hasLegalMovesFrom_spec c s hrook squares s (sameScalars_refl s)
    (sameUpToEmpty_refl _)).2.2.trans ?_
  constructor
  · rintro ⟨f, hf, h1, h2, p, hp, h3, h4⟩
    exact ⟨f.1, f.2, p.1, p.2, (mem_squares f).mp hf, (mem_squares p).mp hp, h1, h2, h3, h4⟩
  · rintro ⟨fr, fc, tr, tc, hf, hp, h1, h2, h3, h4⟩
    exact ⟨(fr, fc), (mem_squares _).mpr hf, h1, h2, (tr, tc), (mem_squares _).mpr hp, h3, h4⟩

/-- A pair of squares that the search of `hasLegalMoves` counts as a legal
move yields a move that `movePiece` accepts: the move itself, or for a
castling move the king's step onto the square it would cross. -/
theorem legal_pair_gives_move (s : ChessBoard) (c : Bool) (promotion : Char)
    (hep : ¬ enPassantOpen s) (fromRow fromCol toRow toCol : Int)
    (hfrom : isValidPosition fromRow fromCol = true) (hto : isValidPosition toRow toCol = true)
    (hpiece : (s.board fromRow fromCol).symbol ≠ EMPTY)
    (hside : (s.board fromRow fromCol).isWhite = c)
    (hv : (isValidMove s (s.board fromRow fromCol) fromRow fromCol toRow toCol).1 = true)
    (hsim : isKingInCheck
      (simulatedState s (s.board fromRow fromCol) fromRow fromCol toRow toCol) c = false) :
    ∃ move : String, (movePiece s move c promotion [] []).ok = true := by
  have hne : ¬ (fromRow = toRow ∧ fromCol = toCol) := by
    intro h
    rw [isValidMove_reject_door s _ _ _ _ _ (Or.inr (Or.inr (Or.inl h)))] at hv
    exact absurd hv (by simp)
  cases hC : isCastlingFlag (s.board fromRow fromCol) fromCol toCol
  · -- the move itself
    have hE := isEnPassantFlag_false_of_closed s _ _ _ _ _ hep hv
    have hsame : (isValidMove s (s.board fromRow fromCol) fromRow fromCol toRow toCol).2 = s := by
      rcases isValidMove_same_or_castle s (s.board fromRow fromCol) fromRow fromCol toRow toCol
        with h | h
      · exact h
      · rw [h.2.1] at hC; exact absurd hC (by simp)
    refine ⟨moveText (fromRow, fromCol) (toRow, toCol),
      movePiece_moveText_accept s (fromRow, fromCol) (toRow, toCol) c promotion [] []
        ((mem_squares _).mpr hfrom) ((mem_squares _).mpr hto) hpiece hside hv ?_⟩
    simp only
    rw [hsame, ← hsim]
    exact isKingInCheck_checkView (speculativeGrid_checkView_simulateGrid s.board _ _ _ _ _
      promotion c hpiece hside hC hE hne)
  · -- castling: the king's step onto the square it crosses
    obtain ⟨-, -, hcross, hcne, -, hcabs, hcempty, hchk1, -⟩ :=
      castling_accept_checks s fromRow fromCol toRow toCol hC hv
    have hk := (isCastlingFlag_cols _ _ _ hC).2
    have hne2 : ¬ (fromRow = fromRow ∧ fromCol = rookToColOf fromCol toCol) :=
      fun h => hcne h.2.symm
    have hstep := isValidMove_king_step s (s.board fromRow fromCol) fromRow fromCol fromRow
      (rookToColOf fromCol toCol) hk hfrom hcross hne2 hcempty (by simp) hcabs
    have hC2 : isCastlingFlag (s.board fromRow fromCol) fromCol (rookToColOf fromCol toCol) =
        false := by
      unfold isCastlingFlag
      have : ¬ (rookToColOf fromCol toCol - fromCol).natAbs = 2 := by omega
      simp [this]
    have hE2 : isEnPassantFlag s.board (s.board fromRow fromCol) fromCol fromRow
        (rookToColOf fromCol toCol) = false := by
      unfold isEnPassantFlag
      rw [castling_not_pawn _ _ _ hC]
      rfl
    refine ⟨moveText (fromRow, fromCol) (fromRow, rookToColOf fromCol toCol),
      movePiece_moveText_accept s (fromRow, fromCol) (fromRow, rookToColOf fromCol toCol) c
        promotion [] [] ((mem_squares _).mpr hfrom) ((mem_squares _).mpr hcross) hpiece hside
        (by rw [hstep]) ?_⟩
    simp only
    rw [hstep]
    rw [hside] at hchk1
    rw [← hchk1]
    have h1 : isKingInCheck (speculativeState s (s.board fromRow fromCol) fromRow fromCol fromRow
        (rookToColOf fromCol toCol) promotion) c =
        isKingInCheck (s.withGrid (simulateGrid s.board (s.board fromRow fromCol) fromRow fromCol
          fromRow (rookToColOf fromCol toCol))) c :=
      isKingInCheck_checkView (speculativeGrid_checkView_simulateGrid s.board _ _ _ _ _
        promotion c hpiece hside hC2 hE2 hne2)
    exact h1.trans
      (isKingInCheck_sameView (simulateGrid_sameView_kingAt s.board fromRow fromCol _ hcne) c)

/-- A move that `movePiece` accepts is a pair of squares that the search of
`hasLegalMoves` counts as a legal move. -/
theorem accepted_move_gives_legal_pair (s : ChessBoard) (move : String) (c : Bool)
    (promotion : Char) (wc bc : List Char) (hep : ¬ enPassantOpen s)
    (hacc : (movePiece s move c promotion wc bc).ok = true) :
    ∃ fromRow fromCol toRow toCol : Int,
      isValidPosition fromRow fromCol = true ∧ isValidPosition toRow toCol = true ∧
      (s.board fromRow fromCol).symbol ≠ EMPTY ∧ (s.board fromRow fromCol).isWhite = c ∧
      (isValidMove s (s.board fromRow fromCol) fromRow fromCol toRow toCol).1 = true ∧
      isKingInCheck (simulatedState s (s.board fromRow fromCol) fromRow fromCol toRow toCol)
        c = false := by
  rcases movePiece_cases s move c promotion wc bc with
    h | ⟨m0, m1, m3, m4, -, hfrom, hto, hpiece, hside, h⟩
  · rw [h] at hacc; exact absurd hacc (by simp)
  · rcases h with ⟨-, h⟩ | ⟨hv, h⟩
    · rw [h] at hacc; exact absurd hacc (by simp)
    · rw [h, movePieceCore_ok] at hacc
      have hchk : isKingInCheck (speculativeState
          (isValidMove s (s.board (decodeRow m1) (decodeCol m0)) (decodeRow m1) (decodeCol m0)
            (decodeRow m4) (decodeCol m3)).2
          (s.board (decodeRow m1) (decodeCol m0)) (decodeRow m1) (decodeCol m0)
          (decodeRow m4) (decodeCol m3) promotion) c = false := by simpa using hacc
      refine ⟨_, _, _, _, hfrom, hto, hpiece, hside, hv, ?_⟩
      have hne : ¬ (decodeRow m1 = decodeRow m4 ∧ decodeCol m0 = decodeCol m3) := by
        intro h
        rw [isValidMove_reject_door s _ _ _ _ _ (Or.inr (Or.inr (Or.inl h)))] at hv
        exact absurd hv (by simp)
      cases hC : isCastlingFlag (s.board (decodeRow m1) (decodeCol m0)) (decodeCol m0)
          (decodeCol m3)
      · have hE := isEnPassantFlag_false_of_closed s _ _ _ _ _ hep hv
        have hsame : (isValidMove s (s.board (decodeRow m1) (decodeCol m0)) (decodeRow m1)
            (decodeCol m0) (decodeRow m4) (decodeCol m3)).2 = s := by
          rcases isValidMove_same_or_castle s (s.board (decodeRow m1) (decodeCol m0))
            (decodeRow m1) (decodeCol m0) (decodeRow m4) (decodeCol m3) with h | h
          · exact h
          · rw [h.2.1] at hC; exact absurd hC (by simp)
        rw [hsame] at hchk
        rw [← hchk]
        exact (isKingInCheck_checkView (speculativeGrid_checkView_simulateGrid s.board _ _ _ _ _
          promotion c hpiece hside hC hE hne)).symm
      · obtain ⟨hrow, -, -, -, htne, -, -, -, hchk2⟩ :=
          castling_accept_checks s _ _ _ _ hC hv
        rw [hside] at hchk2
        rw [← hchk2, ← hrow]
        exact isKingInCheck_sameView (simulateGrid_sameView_kingAt s.board _ _ _ htne) c

/-- Where the search and the engine do agree: on a board whose rooks carry
their colour and on which no en passant test of `isValidMove` can succeed,
`hasLegalMoves(c)` is true if and only if there are a move string and a
promotion character for which `movePiece`, called for the side `c`, returns
true.  The disagreement shown by `checkmate_with_accepted_move` therefore
comes from the en passant removal alone, which the simulation of
`hasLegalMoves` leaves out. -/
theorem legal_moves_agree (s : ChessBoard) (c : Bool) (hrook : RooksCarryColour s)
    (hep : ¬ enPassantOpen s) :
    ((hasLegalMoves s c).1 = true ↔
      ∃ (move : String) (promotion : Char) (whiteCaptures blackCaptures : List Char),
        (movePiece s move c promotion whiteCaptures blackCaptures).ok = true) ∧
    ((isCheckmate s c).1 = true ↔
      isKingInCheck s c = true ∧
      ∀ (move : String) (promotion : Char) (whiteCaptures blackCaptures : List Char),
        (movePiece s move c promotion whiteCaptures blackCaptures).ok = false) ∧
    ((isStalemate s c).1 = true ↔
      isKingInCheck s c = false ∧
      ∀ (move : String) (promotion : Char) (whiteCaptures blackCaptures : List Char),
        (movePiece s move c promotion whiteCaptures blackCaptures).ok = false) := by
  have hmain : (hasLegalMoves s c).1 = true ↔
      ∃ (move : String) (promotion : Char) (whiteCaptures blackCaptures : List Char),
        (movePiece s move c promotion whiteCaptures blackCaptures).ok = true := by
    rw [hasLegalMoves_pairs s c hrook]
    constructor
    · rintro ⟨fr, fc, tr, tc, hfrom, hto, hpiece, hside, hv, hsim⟩
      obtain ⟨move, hm⟩ := legal_pair_gives_move s c 'Q' hep fr fc tr tc hfrom hto hpiece hside
        hv hsim
      exact ⟨move, 'Q', [], [], hm⟩
    · rintro ⟨move, promotion, wc, bc, hacc⟩
      exact accepted_move_gives_legal_pair s move c promotion wc bc hep hacc
  have hnone : (hasLegalMoves s c).1 = false ↔
      ∀ (move : String) (promotion : Char) (whiteCaptures blackCaptures : List Char),
        (movePiece s move c promotion whiteCaptures blackCaptures).ok = false := by
    rw [← Bool.not_eq_true, hmain]
    simp only [not_exists, Bool.not_eq_true]
  refine ⟨hmain, ?_, ?_⟩
  · rw [← hnone]
    unfold isCheckmate
    cases isKingInCheck s c <;> cases (hasLegalMoves s c).1 <;> simp
  · rw [← hnone]
    unfold isStalemate
    cases isKingInCheck s c <;> cases (hasLegalMoves s c).1 <;> simp

theorem not_enPassantOpen_initialBoard : ¬ enPassantOpen initialBoard := by
  rintro ⟨c, h | h⟩
  · have h1 : (-1 : Int) = 6 := congrArg Prod.fst h.1
    exact absurd h1 (by decide)
  · have h1 : (-1 : Int) = 1 := congrArg Prod.fst h.1
    exact absurd h1 (by decide)

/-- No en passant test of `isValidMove` can succeed in a state left by an
accepted call of `movePiece`. -/
theorem not_enPassantOpen_after_accept (s : ChessBoard) (move : String) (w : Bool)
    (promotion : Char) (wc bc : List Char)
    (hacc : (movePiece s move w promotion wc bc).ok = true) :
    ¬ enPassantOpen (movePiece s move w promotion wc bc).state := by
  rintro ⟨c, h | h⟩
  · exact (no_en_passant_after_accept s move w promotion wc bc hacc c).1 h
  · exact (no_en_passant_after_accept s move w promotion wc bc hacc c).2 h

/-- In the initial position, where the search and the engine agree, some white
move is accepted. -/
theorem legal_moves_agree_witness :
    ∃ (move : String) (promotion : Char) (whiteCaptures blackCaptures : List Char),
      (movePiece initialBoard move true promotion whiteCaptures blackCaptures).ok = true :=
  (legal_moves_agree initialBoard true rooksCarryColour_initialBoard
    not_enPassantOpen_initialBoard).1.mp (by decide)

/-! ## One king of each colour -/

theorem isKingInCheck_of_attack (s : ChessBoard) (c : Bool) (r col : Int)
    (hking : (findKing s c).1 ≠ -1)
    (hpos : isValidPosition r col = true) (hocc : (s.board r col).symbol ≠ EMPTY)
    (hcol : (s.board r col).isWhite ≠ c)
    (hatt : canPieceAttack s (s.board r col) r col (findKing s c).1 (findKing s c).2 = true) :
    isKingInCheck s c = true := by
  unfold isKingInCheck
  simp only
  rw [if_neg hking]
  simp only [List.any_eq_true, Bool.and_eq_true, decide_eq_true_eq]
  exact ⟨(r, col), (mem_squares _).mpr hpos, ⟨hocc, hcol⟩, hatt⟩

theorem findKing_unique (s : ChessBoard) (c : Bool) (r col : Int)
    (hone : OneOnBoard s (if c then WHITE_KING else BLACK_KING))
    (hpos : isValidPosition r col = true)
    (hsym : (s.board r col).symbol = (if c then WHITE_KING else BLACK_KING)) :
    findKing s c = (r, col) := by
  obtain ⟨h1, h2⟩ := findKing_spec s c
  by_cases hk : (findKing s c).1 = -1
  · exact absurd hsym (h2 hk r col hpos)
  · obtain ⟨p, -, huniq⟩ := hone
    have e1 := huniq (findKing s c) (h1 hk)
    have e2 := huniq (r, col) ⟨hpos, hsym⟩
    rw [e1, e2]

/-- Where no en passant test can succeed, a move that `isValidMove` accepts
onto an occupied square is an attack in the sense of `canPieceAttack`. -/
theorem isValidMove_occupied_attack (s : ChessBoard) (piece : ChessPiece)
    (fromRow fromCol toRow toCol : Int) (hrook : RooksCarryColour s) (hep : ¬ enPassantOpen s)
    (hocc : (s.board toRow toCol).symbol ≠ EMPTY)
    (hv : (isValidMove s piece fromRow fromCol toRow toCol).1 = true) :
    canPieceAttack s piece fromRow fromCol toRow toCol = true := by
  have hE := isEnPassantFlag_false_of_closed s piece fromRow fromCol toRow toCol hep hv
  have hep1 : ¬ (s.lastMoveTo = (6, toCol) ∧ s.lastMoveFrom = (4, toCol) ∧
      (s.board 6 toCol).symbol = BLACK_PAWN) := fun h => hep ⟨toCol, Or.inl h⟩
  have hep2 : ¬ (s.lastMoveTo = (1, toCol) ∧ s.lastMoveFrom = (3, toCol) ∧
      (s.board 1 toCol).symbol = WHITE_PAWN) := fun h => hep ⟨toCol, Or.inr h⟩
  cases hC : isCastlingFlag piece fromCol toCol
  · unfold isValidMove at hv
    unfold isCastlingFlag at hC
    by_cases h1 : (!isValidPosition fromRow fromCol || !isValidPosition toRow toCol) = true
    · rw [if_pos h1] at hv; exact absurd hv (by simp)
    rw [if_neg h1] at hv
    by_cases h2 : fromRow = toRow ∧ fromCol = toCol
    · rw [if_pos h2] at hv; exact absurd hv (by simp)
    rw [if_neg h2] at hv
    simp only at hv
    by_cases h3 : (s.board toRow toCol).symbol ≠ EMPTY ∧
        (s.board toRow toCol).isWhite = piece.isWhite
    · rw [if_pos h3] at hv; exact absurd hv (by simp)
    rw [if_neg h3] at hv
    by_cases hp1 : piece.symbol = WHITE_PAWN
    · rw [if_pos hp1] at hv
      unfold canPieceAttack
      simp only
      rw [if_pos hp1]
      split_ifs at hv with h4 h5
      · exact absurd h4.2.2.1 hocc
      · rcases h5.2.2 with h6 | h6
        · simp [h5.1, h5.2.1, h6.1, h6.2]
        · exact absurd h6.2 hep1
    rw [if_neg hp1] at hv
    by_cases hp2 : piece.symbol = BLACK_PAWN
    · rw [if_pos hp2] at hv
      unfold canPieceAttack
      simp only
      rw [if_neg hp1, if_pos hp2]
      split_ifs at hv with h4 h5
      · exact absurd h4.2.2.1 hocc
      · rcases h5.2.2 with h6 | h6
        · simp [h5.1, h5.2.1, h6.1, h6.2]
        · exact absurd h6.2 hep2
    rw [if_neg hp2] at hv
    by_cases hk : piece.symbol = WHITE_KING ∨ piece.symbol = BLACK_KING
    · rw [if_pos hk] at hv
      unfold canPieceAttack
      simp only
      rw [if_neg hp1, if_neg hp2, if_pos hk]
      have h2' : ¬ (toCol - fromCol).natAbs = 2 := by
        intro h
        rcases hk with hk | hk <;> simp [hk, h] at hC
      by_cases h5 : (toRow - fromRow).natAbs ≤ 1 ∧ (toCol - fromCol).natAbs ≤ 1
      · simp [h5.1, h5.2]
      · rw [if_neg h5, if_neg (fun h => h2' h.2.2)] at hv
        exact absurd hv (by simp)
    · rw [if_neg hk] at hv
      exact hv
  · exfalso
    obtain ⟨hbranch, hrow, -, hfrom, hto, hown⟩ := isValidMove_accept_castle s _ _ _ _ _ hC hv
    rcases castlingBranch_facts s piece fromRow fromCol toRow toCol hC hrow hfrom hto hown hrook
      with h | h
    · rw [hbranch, h] at hv; exact absurd hv (by simp)
    · rw [hrow] at h; exact hocc h.2.2.2.2.2
/-- In a position that satisfies the invariant, a move of the side to move
that `isValidMove` accepts does not end on a king. -/
theorem target_not_king (s : ChessBoard) (mover : Bool) (fromRow fromCol toRow toCol : Int)
    (hinv : KingInvariant s (!mover))
    (hfrom : isValidPosition fromRow fromCol = true)
    (hpiece : (s.board fromRow fromCol).symbol ≠ EMPTY)
    (hside : (s.board fromRow fromCol).isWhite = mover)
    (hv : (isValidMove s (s.board fromRow fromCol) fromRow fromCol toRow toCol).1 = true)
    (z : Bool) : (s.board toRow toCol).symbol ≠ (if z then WHITE_KING else BLACK_KING) := by
  obtain ⟨hrook, hkings, hwk, hbk, hchk, hep⟩ := hinv
  intro hsym
  have hto : isValidPosition toRow toCol = true := by
    cases h : isValidPosition toRow toCol
    · rw [isValidMove_reject_door s _ _ _ _ _ (Or.inr (Or.inl h))] at hv
      exact absurd hv (by simp)
    · rfl
  have hocc : (s.board toRow toCol).symbol ≠ EMPTY := by
    rw [hsym]; cases z <;> decide
  have hcolour : (s.board toRow toCol).isWhite = z := by
    cases z
    · exact (hkings toRow toCol hto).2 hsym
    · exact (hkings toRow toCol hto).1 hsym
  by_cases hz : z = mover
  · have hown : (s.board toRow toCol).symbol ≠ EMPTY ∧
        (s.board toRow toCol).isWhite = (s.board fromRow fromCol).isWhite :=
      ⟨hocc, by rw [hcolour, hside, hz]⟩
    rw [isValidMove_reject_door s _ _ _ _ _ (Or.inr (Or.inr (Or.inr hown)))] at hv
    exact absurd hv (by simp)
  · have hz' : z = !mover := by cases z <;> cases mover <;> simp_all
    subst hz'
    have hone : OneOnBoard s (if (!mover) = true then WHITE_KING else BLACK_KING) := by
      cases mover
      · exact hwk
      · exact hbk
    have hfind := findKing_unique s (!mover) toRow toCol hone hto hsym
    have hatt := isValidMove_occupied_attack s _ fromRow fromCol toRow toCol hrook hep hocc hv
    have hin : isKingInCheck s (!mover) = true := by
      apply isKingInCheck_of_attack s (!mover) fromRow fromCol _ hfrom hpiece
      · rw [hside]; cases mover <;> simp
      · rw [hfind]; exact hatt
      · rw [hfind]
        simp only [isValidPosition, Bool.and_eq_true, decide_eq_true_eq] at hto
        simp only
        omega
    rw [hin] at hchk
    exact absurd hchk (by simp)

/-- Where the king symbols stand after an accepted move of the side to move,
in a position that satisfies the invariant. -/
theorem kings_after_accept (s : ChessBoard) (m0 m1 m3 m4 : Char) (c : Bool)
    (promotion : Char) (wc bc : List Char) (hinv : KingInvariant s (!c))
    (hacc : (movePiece s (String.mk [m0, m1, ' ', m3, m4]) c promotion wc bc).ok = true)
    (z : Bool) :
    (((movePiece s (String.mk [m0, m1, ' ', m3, m4]) c promotion wc bc).state.board
        (decodeRow m4) (decodeCol m3)).symbol = (if z then WHITE_KING else BLACK_KING) ↔
      (s.board (decodeRow m1) (decodeCol m0)).symbol = (if z then WHITE_KING else BLACK_KING)) ∧
    ((movePiece s (String.mk [m0, m1, ' ', m3, m4]) c promotion wc bc).state.board
        (decodeRow m4) (decodeCol m3)).isWhite =
      (s.board (decodeRow m1) (decodeCol m0)).isWhite ∧
    (∀ r col, ¬ (r = decodeRow m4 ∧ col = decodeCol m3) →
      ((((movePiece s (String.mk [m0, m1, ' ', m3, m4]) c promotion wc bc).state.board
          r col).symbol = (if z then WHITE_KING else BLACK_KING) ↔
        ((s.board r col).symbol = (if z then WHITE_KING else BLACK_KING) ∧
          ¬ (r = decodeRow m1 ∧ col = decodeCol m0))) ∧
      (((movePiece s (String.mk [m0, m1, ' ', m3, m4]) c promotion wc bc).state.board
          r col).symbol = (if z then WHITE_KING else BLACK_KING) →
        ((movePiece s (String.mk [m0, m1, ' ', m3, m4]) c promotion wc bc).state.board
          r col).isWhite = (s.board r col).isWhite))) := by
  obtain ⟨hfrom, hto, hpiece, hside, hv, -, -⟩ :=
    movePiece_accept_eq s m0 m1 m3 m4 c promotion wc bc hacc
  have hrook := hinv.1
  have hep := hinv.2.2.2.2.2
  have hE := isEnPassantFlag_false_of_closed s _ _ _ _ _ hep hv
  have hkz : (if z then WHITE_KING else BLACK_KING) ≠ EMPTY := by cases z <;> decide
  cases hC : isCastlingFlag (s.board (decodeRow m1) (decodeCol m0)) (decodeCol m0) (decodeCol m3)
  · obtain ⟨b1, b2, -, -, b4, b5, b6, -, -⟩ :=
      plain_move_board s m0 m1 m3 m4 c promotion wc bc hC hE hacc
    generalize (movePiece s (String.mk [m0, m1, ' ', m3, m4]) c promotion wc bc).state.board = b'
      at b1 b2 b4 b5 b6 ⊢
    refine ⟨?_, b2, fun r col hn => ?_⟩
    · by_cases hpr : isPawnMoveFlag (s.board (decodeRow m1) (decodeCol m0)) = true ∧
          (decodeRow m4 = 0 ∨ decodeRow m4 = 7)
      · have hmem := b5 hpr
        have hpawn : (s.board (decodeRow m1) (decodeCol m0)).symbol = WHITE_PAWN ∨
            (s.board (decodeRow m1) (decodeCol m0)).symbol = BLACK_PAWN := by
          have := hpr.1
          simpa [isPawnMoveFlag] using this
        simp only [List.mem_cons, List.mem_singleton, List.not_mem_nil, or_false] at hmem
        constructor
        · intro h
          rw [h] at hmem
          cases z <;> exact absurd hmem (by decide)
        · intro h
          rw [h] at hpawn
          cases z <;> exact absurd hpawn (by decide)
      · rw [b4 hpr]
    · by_cases hf : r = decodeRow m1 ∧ col = decodeCol m0
      · obtain ⟨rfl, rfl⟩ := hf
        rw [b1]
        exact ⟨⟨fun h => absurd h.symm hkz, fun h => absurd ⟨rfl, rfl⟩ h.2⟩,
          fun h => absurd h.symm hkz⟩
      · rw [b6 r col hf hn]
        exact ⟨⟨fun h => ⟨h, hf⟩, fun h => h.1⟩, fun _ => rfl⟩
  · obtain ⟨c0, c1, c2, c3, -, c5, c6, -, -, c9⟩ :=
      castling_board s m0 m1 m3 m4 c promotion wc bc hrook hC hacc
    obtain ⟨-, -, -, hcne, -, -, hcempty, -, -⟩ := castling_accept_checks s _ _ _ _ hC hv
    have e1 : (if decodeCol m3 > decodeCol m0 then decodeCol m0 + 1 else decodeCol m0 - 1) =
        rookToColOf (decodeCol m0) (decodeCol m3) := rfl
    rw [e1] at c2 c9
    rw [c0] at hto ⊢
    generalize (movePiece s (String.mk [m0, m1, ' ', m3, m4]) c promotion wc bc).state.board = b'
      at c1 c2 c5 c6 c9 ⊢
    refine ⟨by rw [c1], by rw [c1], fun r col hn => ?_⟩
    by_cases hf : r = decodeRow m1 ∧ col = decodeCol m0
    · obtain ⟨rfl, rfl⟩ := hf
      rw [c5]
      exact ⟨⟨fun h => absurd h.symm hkz, fun h => absurd ⟨rfl, rfl⟩ h.2⟩,
        fun h => absurd h.symm hkz⟩
    · by_cases hrt : r = decodeRow m1 ∧ col = rookToColOf (decodeCol m0) (decodeCol m3)
      · obtain ⟨rfl, rfl⟩ := hrt
        rw [c2]
        have hne1 : (s.board (decodeRow m1) (if decodeCol m3 > decodeCol m0 then 7 else 0)).symbol ≠
            (if z then WHITE_KING else BLACK_KING) := by
          rw [c3]
          cases z <;> cases (s.board (decodeRow m1) (decodeCol m0)).isWhite <;> decide
        have hne2 : (s.board (decodeRow m1)
            (rookToColOf (decodeCol m0) (decodeCol m3))).symbol ≠
            (if z then WHITE_KING else BLACK_KING) := by
          rw [hcempty]; exact hkz.symm
        exact ⟨⟨fun h => absurd h hne1, fun h => absurd h.1 hne2⟩, fun h => absurd h hne1⟩
      · by_cases hrf : r = decodeRow m1 ∧ col = (if decodeCol m3 > decodeCol m0 then 7 else 0)
        · obtain ⟨rfl, rfl⟩ := hrf
          rw [c6]
          have hne1 : (s.board (decodeRow m1)
              (if decodeCol m3 > decodeCol m0 then 7 else 0)).symbol ≠
              (if z then WHITE_KING else BLACK_KING) := by
            rw [c3]
            cases z <;> cases (s.board (decodeRow m1) (decodeCol m0)).isWhite <;> decide
          exact ⟨⟨fun h => absurd h.symm hkz, fun h => absurd h.1 hne1⟩,
            fun h => absurd h.symm hkz⟩
        · rw [c9 r col (fun h => by
            rcases h.2 with h2 | h2 | h2 | h2
            · exact hf ⟨h.1, h2⟩
            · exact hn ⟨h.1, h2⟩
            · exact hrt ⟨h.1, h2⟩
            · exact hrf ⟨h.1, h2⟩)]
          exact ⟨⟨fun h => ⟨h, hf⟩, fun h => h.1⟩, fun _ => rfl⟩
/-- After an accepted move the mover is not in check. -/
theorem mover_not_in_check (s : ChessBoard) (m0 m1 m3 m4 : Char) (c : Bool)
    (promotion : Char) (wc bc : List Char)
    (hacc : (movePiece s (String.mk [m0, m1, ' ', m3, m4]) c promotion wc bc).ok = true) :
    isKingInCheck (movePiece s (String.mk [m0, m1, ' ', m3, m4]) c promotion wc bc).state c =
      false := by
  obtain ⟨-, hto, -, -, -, hchk, he⟩ := movePiece_accept_eq s m0 m1 m3 m4 c promotion wc bc hacc
  rw [← hchk, he, movePieceCore_accept _ _ _ _ _ _ _ _ _ _ hchk]
  apply isKingInCheck_congr
  simp only [speculativeState]
  exact finalGrid_eq_speculativeGrid _ _ _ _ _ _ promotion hto

theorem oneOnBoard_after_accept (s : ChessBoard) (m0 m1 m3 m4 : Char) (c : Bool)
    (promotion : Char) (wc bc : List Char) (hinv : KingInvariant s (!c))
    (hacc : (movePiece s (String.mk [m0, m1, ' ', m3, m4]) c promotion wc bc).ok = true)
    (z : Bool) (hone : OneOnBoard s (if z then WHITE_KING else BLACK_KING)) :
    OneOnBoard (movePiece s (String.mk [m0, m1, ' ', m3, m4]) c promotion wc bc).state
      (if z then WHITE_KING else BLACK_KING) := by
  obtain ⟨hfrom, hto, hpiece, hside, hv, -, -⟩ :=
    movePiece_accept_eq s m0 m1 m3 m4 c promotion wc bc hacc
  obtain ⟨u1, -, u3⟩ := kings_after_accept s m0 m1 m3 m4 c promotion wc bc hinv hacc z
  have hnk := target_not_king s c _ _ _ _ hinv hfrom hpiece hside hv z
  obtain ⟨q, ⟨hq1, hq2⟩, huniq⟩ := hone
  generalize (movePiece s (String.mk [m0, m1, ' ', m3, m4]) c promotion wc bc).state = s'
    at u1 u3 ⊢
  by_cases hpk : (s.board (decodeRow m1) (decodeCol m0)).symbol =
      (if z then WHITE_KING else BLACK_KING)
  · have hqf : (decodeRow m1, decodeCol m0) = q := huniq (decodeRow m1, decodeCol m0) ⟨hfrom, hpk⟩
    refine ⟨(decodeRow m4, decodeCol m3), ⟨hto, u1.mpr hpk⟩, ?_⟩
    rintro ⟨r, col⟩ ⟨hy1, hy2⟩
    by_cases hyt : r = decodeRow m4 ∧ col = decodeCol m3
    · rw [hyt.1, hyt.2]
    · exfalso
      have h := ((u3 r col hyt).1.mp hy2)
      have hyq := huniq (r, col) ⟨hy1, h.1⟩
      rw [← hqf] at hyq
      exact h.2 ⟨congrArg Prod.fst hyq, congrArg Prod.snd hyq⟩
  · have hqt : ¬ (q.1 = decodeRow m4 ∧ q.2 = decodeCol m3) := by
      intro h
      rw [h.1, h.2] at hq2
      exact hnk hq2
    have hqf : ¬ (q.1 = decodeRow m1 ∧ q.2 = decodeCol m0) := by
      intro h
      rw [h.1, h.2] at hq2
      exact hpk hq2
    refine ⟨q, ⟨hq1, (u3 q.1 q.2 hqt).1.mpr ⟨hq2, hqf⟩⟩, ?_⟩
    rintro ⟨r, col⟩ ⟨hy1, hy2⟩
    by_cases hyt : r = decodeRow m4 ∧ col = decodeCol m3
    · exfalso
      simp only at hy2
      rw [hyt.1, hyt.2] at hy2
      exact hpk (u1.mp hy2)
    · exact huniq (r, col) ⟨hy1, ((u3 r col hyt).1.mp hy2).1⟩

theorem kingsCarryColour_after_accept (s : ChessBoard) (m0 m1 m3 m4 : Char) (c : Bool)
    (promotion : Char) (wc bc : List Char) (hinv : KingInvariant s (!c))
    (hacc : (movePiece s (String.mk [m0, m1, ' ', m3, m4]) c promotion wc bc).ok = true) :
    KingsCarryColour (movePiece s (String.mk [m0, m1, ' ', m3, m4]) c promotion wc bc).state := by
  obtain ⟨hfrom, -, -, -, -, -, -⟩ := movePiece_accept_eq s m0 m1 m3 m4 c promotion wc bc hacc
  have hkings := hinv.2.1
  have key : ∀ z : Bool, ∀ r col, isValidPosition r col = true →
      ((movePiece s (String.mk [m0, m1, ' ', m3, m4]) c promotion wc bc).state.board
        r col).symbol = (if z then WHITE_KING else BLACK_KING) →
      ((movePiece s (String.mk [m0, m1, ' ', m3, m4]) c promotion wc bc).state.board
        r col).isWhite = z := by
    intro z r col hpos hsym
    obtain ⟨u1, u2, u3⟩ := kings_after_accept s m0 m1 m3 m4 c promotion wc bc hinv hacc z
    have hk : ∀ r col, isValidPosition r col = true →
        (s.board r col).symbol = (if z then WHITE_KING else BLACK_KING) →
        (s.board r col).isWhite = z := by
      intro r col hp h
      cases z
      · exact (hkings r col hp).2 h
      · exact (hkings r col hp).1 h
    by_cases hyt : r = decodeRow m4 ∧ col = decodeCol m3
    · rw [hyt.1, hyt.2] at hsym ⊢
      rw [u2]
      exact hk _ _ hfrom (u1.mp hsym)
    · rw [(u3 r col hyt).2 hsym]
      exact hk r col hpos ((u3 r col hyt).1.mp hsym).1
  intro r col hpos
  exact ⟨key true r col hpos, key false r col hpos⟩

/-- An accepted move of the side to move keeps the invariant, with the sides
exchanged. -/
theorem kingInvariant_step (s : ChessBoard) (move : String) (c : Bool)
    (promotion : Char) (wc bc : List Char) (hinv : KingInvariant s (!c))
    (hacc : (movePiece s move c promotion wc bc).ok = true) :
    KingInvariant (movePiece s move c promotion wc bc).state c := by
  have hrook' := rooksCarryColour_movePiece s move c promotion wc bc hinv.1
  have hep' := not_enPassantOpen_after_accept s move c promotion wc bc hacc
  rcases movePiece_cases s move c promotion wc bc with
    h | ⟨m0, m1, m3, m4, hdata, -⟩
  · rw [h] at hacc; exact absurd hacc (by simp)
  · have hm : move = String.mk [m0, m1, ' ', m3, m4] := by
      cases move
      simp only at hdata
      rw [hdata]
    subst hm
    exact ⟨hrook', kingsCarryColour_after_accept s m0 m1 m3 m4 c promotion wc bc hinv hacc,
      oneOnBoard_after_accept s m0 m1 m3 m4 c promotion wc bc hinv hacc true hinv.2.2.1,
      oneOnBoard_after_accept s m0 m1 m3 m4 c promotion wc bc hinv hacc false hinv.2.2.2.1,
      mover_not_in_check s m0 m1 m3 m4 c promotion wc bc hacc, hep'⟩

theorem kingsCarryColour_initialBoard : KingsCarryColour initialBoard := by
  intro r c h
  simp only [isValidPosition, Bool.and_eq_true, decide_eq_true_eq] at h
  obtain ⟨⟨⟨h1, h2⟩, h3⟩, h4⟩ := h
  interval_cases r <;> interval_cases c <;> decide

theorem oneOnBoard_initialBoard (z : Bool) :
    OneOnBoard initialBoard (if z then WHITE_KING else BLACK_KING) := by
  refine ⟨(if z then 7 else 0, 4), ⟨by cases z <;> decide, by cases z <;> decide⟩, ?_⟩
  rintro ⟨r, c⟩ ⟨hpos, hsym⟩
  simp only [isValidPosition, Bool.and_eq_true, decide_eq_true_eq] at hpos
  obtain ⟨⟨⟨h1, h2⟩, h3⟩, h4⟩ := hpos
  simp only at hsym h1 h2 h3 h4
  revert hsym
  cases z <;> interval_cases r <;> interval_cases c <;> decide

theorem kingInvariant_initialBoard : KingInvariant initialBoard false :=
  ⟨rooksCarryColour_initialBoard, kingsCarryColour_initialBoard, oneOnBoard_initialBoard true,
    oneOnBoard_initialBoard false, by decide, not_enPassantOpen_initialBoard⟩

theorem kingInvariant_runCalls (calls : List Call) (r : MoveResult) (w : Bool)
    (hinv : KingInvariant r.state (!w)) (halt : alternatesFrom w calls = true)
    (hacc : allAccepted r calls = true) :
    ∃ j : Bool, KingInvariant (runCalls r calls).state j := by
  induction calls generalizing r w with
  | nil => exact ⟨!w, hinv⟩
  | cons k rest ih =>
    simp only [alternatesFrom, Bool.and_eq_true, beq_iff_eq] at halt
    simp only [allAccepted, Bool.and_eq_true] at hacc
    obtain ⟨hk, hrest⟩ := halt
    obtain ⟨hok, hacc'⟩ := hacc
    rw [runCalls]
    rw [hk] at hok hacc' ⊢
    have hstep := kingInvariant_step r.state k.move w k.promotion r.whiteCaptures
      r.blackCaptures hinv hok
    apply ih _ (!w) _ hrest hacc'
    rw [Bool.not_not]
    exact hstep

/-- C26: in every state reached from the `resetBoard` position by a sequence
of accepted `movePiece` calls in which the sides alternate starting with
white, exactly one square of the board holds the white king symbol and exactly
one holds the black king symbol. -/
theorem one_king_each (calls : List Call)
    (halt : alternatesFrom true calls = true) (hacc : allAccepted newGame calls = true) :
    OneOnBoard (runCalls newGame calls).state WHITE_KING ∧
    OneOnBoard (runCalls newGame calls).state BLACK_KING := by
  obtain ⟨j, hinv⟩ := kingInvariant_runCalls calls newGame true kingInvariant_initialBoard halt
    hacc
  exact ⟨hinv.2.2.1, hinv.2.2.2.1⟩

/-- C26 at a concrete input: after `e2 e4`, `e7 e5` the board holds one white
king symbol. -/
theorem one_king_each_witness :
    OneOnBoard (runCalls newGame [⟨"e2 e4", true, 'Q'⟩, ⟨"e7 e5", false, 'Q'⟩]).state
      WHITE_KING :=
  (one_king_each [⟨"e2 e4", true, 'Q'⟩, ⟨"e7 e5", false, 'Q'⟩] (by decide) (by decide)).1

/-! ## Pawn attacks and clear paths -/

theorem canPieceAttack_white_pawn (s : ChessBoard) (piece : ChessPiece)
    (fromRow fromCol toRow toCol : Int) (hp : piece.symbol = WHITE_PAWN) :
    canPieceAttack s piece fromRow fromCol toRow toCol = true ↔
      toRow = fromRow - 1 ∧ (toCol = fromCol + 1 ∨ toCol = fromCol - 1) ∧
      (s.board toRow toCol).symbol ≠ EMPTY ∧ (s.board toRow toCol).isWhite = false := by
  have hcol : (toCol - fromCol).natAbs = 1 ↔ (toCol = fromCol + 1 ∨ toCol = fromCol - 1) := by
    omega
  unfold canPieceAttack
  simp only [hp, if_true, Bool.and_eq_true, decide_eq_true_eq, Bool.not_eq_true', hcol]
  constructor
  · rintro ⟨⟨⟨h1, h2⟩, h3⟩, h4⟩
    exact ⟨by omega, h2, h3, h4⟩
  · rintro ⟨h1, h2, h3, h4⟩
    exact ⟨⟨⟨by omega, h2⟩, h3⟩, h4⟩

theorem canPieceAttack_black_pawn (s : ChessBoard) (piece : ChessPiece)
    (fromRow fromCol toRow toCol : Int) (hp : piece.symbol = BLACK_PAWN) :
    canPieceAttack s piece fromRow fromCol toRow toCol = true ↔
      toRow = fromRow + 1 ∧ (toCol = fromCol + 1 ∨ toCol = fromCol - 1) ∧
      (s.board toRow toCol).symbol ≠ EMPTY ∧ (s.board toRow toCol).isWhite = true := by
  have hbw : ¬ (BLACK_PAWN = WHITE_PAWN) := by decide
  have hcol : (toCol - fromCol).natAbs = 1 ↔ (toCol = fromCol + 1 ∨ toCol = fromCol - 1) := by
    omega
  unfold canPieceAttack
  simp only [hp, hbw, if_false, if_true, Bool.and_eq_true, decide_eq_true_eq, hcol]
  constructor
  · rintro ⟨⟨⟨h1, h2⟩, h3⟩, h4⟩
    exact ⟨by omega, h2, h3, h4⟩
  · rintro ⟨h1, h2, h3, h4⟩
    exact ⟨⟨⟨by omega, h2⟩, h3⟩, h4⟩

/-- C33: for a piece with a pawn symbol, `canPieceAttack` is true if and only
if the target is exactly one row forward (row - 1 for a white pawn, row + 1
for a black pawn), exactly one column to either side, and holds a non-empty
piece of the opposite colour (black for a white pawn, white for a black pawn);
it is false for every empty target square and for every target in the pawn's
own column. -/
theorem pawn_attack_iff (s : ChessBoard) (piece : ChessPiece)
    (fromRow fromCol toRow toCol : Int) :
    (piece.symbol = WHITE_PAWN →
      (canPieceAttack s piece fromRow fromCol toRow toCol = true ↔
        toRow = fromRow - 1 ∧ (toCol = fromCol + 1 ∨ toCol = fromCol - 1) ∧
        (s.board toRow toCol).symbol ≠ EMPTY ∧ (s.board toRow toCol).isWhite = false)) ∧
    (piece.symbol = BLACK_PAWN →
      (canPieceAttack s piece fromRow fromCol toRow toCol = true ↔
        toRow = fromRow + 1 ∧ (toCol = fromCol + 1 ∨ toCol = fromCol - 1) ∧
        (s.board toRow toCol).symbol ≠ EMPTY ∧ (s.board toRow toCol).isWhite = true)) ∧
    (piece.symbol = WHITE_PAWN ∨ piece.symbol = BLACK_PAWN →
      (s.board toRow toCol).symbol = EMPTY ∨ toCol = fromCol →
      canPieceAttack s piece fromRow fromCol toRow toCol = false) := by
  refine ⟨canPieceAttack_white_pawn s piece fromRow fromCol toRow toCol,
    canPieceAttack_black_pawn s piece fromRow fromCol toRow toCol, ?_⟩
  intro hp hno
  rw [← Bool.not_eq_true]
  intro hatt
  rcases hp with hp | hp
  · obtain ⟨-, h2, h3, -⟩ := (canPieceAttack_white_pawn s piece _ _ _ _ hp).mp hatt
    rcases hno with h | h
    · exact h3 h
    · omega
  · obtain ⟨-, h2, h3, -⟩ := (canPieceAttack_black_pawn s piece _ _ _ _ hp).mp hatt
    rcases hno with h | h
    · exact h3 h
    · omega

/-- C33 at a concrete input: in the initial position the white pawn on e2
does not attack the square e3 straight ahead. -/
theorem pawn_attack_iff_witness :
    canPieceAttack initialBoard (initialBoard.board 6 4) 6 4 5 4 = false :=
  (pawn_attack_iff initialBoard (initialBoard.board 6 4) 6 4 5 4).2.2 (by decide)
    (Or.inr rfl)

theorem isPathClearLoop_iff (s : ChessBoard) (rs cs : Int)
    (hrs : rs = 1 ∨ rs = -1 ∨ rs = 0) (hcs : cs = 1 ∨ cs = -1 ∨ cs = 0)
    (hnz : rs ≠ 0 ∨ cs ≠ 0) (m : Nat) :
    ∀ (fuel : Nat) (row col : Int), m < fuel →
      (∀ j : Nat, j < m → isValidPosition (row + j * rs) (col + j * cs) = true) →
      (isPathClearLoop s rs cs (row + m * rs) (col + m * cs) fuel row col = true ↔
        ∀ j : Nat, j < m → (s.board (row + j * rs) (col + j * cs)).symbol = EMPTY) := by
  induction m with
  | zero =>
    intro fuel row col hf _
    obtain ⟨f, rfl⟩ : ∃ f, fuel = f + 1 := ⟨fuel - 1, by omega⟩
    simp [isPathClearLoop]
  | succ m ih =>
    intro fuel row col hf hvalid
    obtain ⟨f, rfl⟩ : ∃ f, fuel = f + 1 := ⟨fuel - 1, by omega⟩
    have hmove : row ≠ row + ((m + 1 : Nat) : Int) * rs ∨ col ≠ col + ((m + 1 : Nat) : Int) * cs := by
      rcases hrs with h | h | h <;> rcases hcs with h2 | h2 | h2 <;> subst h <;> subst h2 <;>
        first
        | (exfalso; rcases hnz with h | h <;> exact h rfl)
        | (push_cast; omega)
    have hv0 : isValidPosition row col = true := by
      have := hvalid 0 (by omega)
      simpa using this
    have htr : row + ((m + 1 : Nat) : Int) * rs = (row + rs) + (m : Int) * rs := by
      push_cast; ring
    have htc : col + ((m + 1 : Nat) : Int) * cs = (col + cs) + (m : Int) * cs := by
      push_cast; ring
    have hshift : ∀ j : Nat, row + ((j + 1 : Nat) : Int) * rs = (row + rs) + (j : Int) * rs := by
      intro j; push_cast; ring
    have hshiftc : ∀ j : Nat, col + ((j + 1 : Nat) : Int) * cs = (col + cs) + (j : Int) * cs := by
      intro j; push_cast; ring
    have hrec := ih f (row + rs) (col + cs) (by omega)
      (fun j hj => by
        have := hvalid (j + 1) (by omega)
        rw [hshift, hshiftc] at this
        exact this)
    rw [isPathClearLoop, if_pos hmove, hv0]
    by_cases he : (s.board row col).symbol = EMPTY
    · have hd : decide ((s.board row col).symbol ≠ EMPTY) = false := by simp [he]
      rw [hd]
      simp only [Bool.not_true, Bool.or_self, Bool.false_eq_true, if_false]
      rw [htr, htc, hrec]
      constructor
      · intro h j hj
        rcases Nat.eq_zero_or_pos j with h0 | h0
        · subst h0; simpa using he
        · obtain ⟨i, rfl⟩ : ∃ i, j = i + 1 := ⟨j - 1, by omega⟩
          rw [hshift, hshiftc]
          exact h i (by omega)
      · intro h j hj
        have := h (j + 1) (by omega)
        rw [hshift, hshiftc] at this
        exact this
    · have hd : decide ((s.board row col).symbol ≠ EMPTY) = true := by simp [he]
      rw [hd]
      simp only [Bool.not_true, Bool.or_true, if_true, Bool.false_eq_true, false_iff]
      intro h
      have := h 0 (by omega)
      exact he (by simpa using this)

theorem lineStep_cases (a b : Int) :
    (lineStep a b = 1 ∧ a < b) ∨ (lineStep a b = -1 ∧ b < a) ∨ (lineStep a b = 0 ∧ a = b) := by
  unfold lineStep
  split_ifs <;> omega

theorem isPathClear_eq_loop (s : ChessBoard) (fromRow fromCol toRow toCol : Int) :
    isPathClear s fromRow fromCol toRow toCol =
      isPathClearLoop s (lineStep fromRow toRow) (lineStep fromCol toCol) toRow toCol 8
        (fromRow + lineStep fromRow toRow) (fromCol + lineStep fromCol toCol) := rfl

/-- On a line between two distinct on-board squares, `isPathClear` is true
exactly when every square strictly between them is empty. -/
theorem isPathClear_between (s : ChessBoard) (fromRow fromCol toRow toCol : Int)
    (hfrom : isValidPosition fromRow fromCol = true)
    (hto : isValidPosition toRow toCol = true)
    (hne : ¬ (fromRow = toRow ∧ fromCol = toCol))
    (hline : fromRow = toRow ∨ fromCol = toCol ∨
      (toRow - fromRow).natAbs = (toCol - fromCol).natAbs) :
    isPathClear s fromRow fromCol toRow toCol = true ↔
      ∀ k : Nat, 0 < k → k < max (toRow - fromRow).natAbs (toCol - fromCol).natAbs →
        (s.board (fromRow + k * lineStep fromRow toRow)
          (fromCol + k * lineStep fromCol toCol)).symbol = EMPTY := by
  rw [isPathClear_eq_loop]
  simp only [isValidPosition, Bool.and_eq_true, decide_eq_true_eq, ge_iff_le] at hfrom hto
  generalize hn : max (toRow - fromRow).natAbs (toCol - fromCol).natAbs = n
  generalize hrs : lineStep fromRow toRow = rs
  generalize hcs : lineStep fromCol toCol = cs
  have hr := lineStep_cases fromRow toRow
  have hc := lineStep_cases fromCol toCol
  rw [hrs] at hr
  rw [hcs] at hc
  have hrs3 : rs = 1 ∨ rs = -1 ∨ rs = 0 := by
    rcases hr with h | h | h <;> simp [h.1]
  have hcs3 : cs = 1 ∨ cs = -1 ∨ cs = 0 := by
    rcases hc with h | h | h <;> simp [h.1]
  have hnz : rs ≠ 0 ∨ cs ≠ 0 := by
    rcases hr with h | h | h <;> rcases hc with h2 | h2 | h2 <;> omega
  have hn1 : 1 ≤ n ∧ n ≤ 7 := by omega
  obtain ⟨m, rfl⟩ : ∃ m, n = m + 1 := ⟨n - 1, by omega⟩
  have htr : toRow = (fromRow + rs) + (m : Int) * rs := by
    rcases hr with h | h | h <;> rcases hc with h2 | h2 | h2 <;>
      (rw [h.1]; omega)
  have htc : toCol = (fromCol + cs) + (m : Int) * cs := by
    rcases hr with h | h | h <;> rcases hc with h2 | h2 | h2 <;>
      (rw [h2.1]; omega)
  have hvalid : ∀ j : Nat, j < m →
      isValidPosition (fromRow + rs + j * rs) (fromCol + cs + j * cs) = true := by
    intro j hj
    simp only [isValidPosition, Bool.and_eq_true, decide_eq_true_eq, ge_iff_le]
    rcases hr with h | h | h <;> rcases hc with h2 | h2 | h2 <;>
      (rw [h.1, h2.1]; omega)
  have hloop := isPathClearLoop_iff s rs cs hrs3 hcs3 hnz m 8 (fromRow + rs) (fromCol + cs)
    (by omega) hvalid
  rw [← htr, ← htc] at hloop
  rw [hloop]
  constructor
  · intro h k hk0 hk
    obtain ⟨j, rfl⟩ : ∃ j, k = j + 1 := ⟨k - 1, by omega⟩
    have := h j (by omega)
    have e1 : fromRow + ((j + 1 : Nat) : Int) * rs = fromRow + rs + (j : Int) * rs := by
      push_cast; ring
    have e2 : fromCol + ((j + 1 : Nat) : Int) * cs = fromCol + cs + (j : Int) * cs := by
      push_cast; ring
    rw [e1, e2]
    exact this
  · intro h j hj
    have := h (j + 1) (by omega) (by omega)
    have e1 : fromRow + ((j + 1 : Nat) : Int) * rs = fromRow + rs + (j : Int) * rs := by
      push_cast; ring
    have e2 : fromCol + ((j + 1 : Nat) : Int) * cs = fromCol + cs + (j : Int) * cs := by
      push_cast; ring
    rw [e1, e2] at this
    exact this

theorem between_ne_ends (fromRow fromCol toRow toCol : Int)
    (k : Nat) (hk0 : 0 < k)
    (hk : k < max (toRow - fromRow).natAbs (toCol - fromCol).natAbs) :
    ¬ (fromRow + k * lineStep fromRow toRow = fromRow ∧
        fromCol + k * lineStep fromCol toCol = fromCol) ∧
    ¬ (fromRow + k * lineStep fromRow toRow = toRow ∧
        fromCol + k * lineStep fromCol toCol = toCol) := by
  rcases lineStep_cases fromRow toRow with h | h | h <;>
    rcases lineStep_cases fromCol toCol with h2 | h2 | h2 <;>
      (rw [h.1, h2.1]; omega)

/-- C32: for on-board squares from and to that differ and lie on one row, one
column or one diagonal, `isPathClear` is true if and only if every square
strictly between them on that line (the squares `from + k * step` for
`0 < k < max |rowDiff| |colDiff|`) is empty; a board that differs only on the
squares from and to gives the same result; and adjacent squares always give
true. -/
theorem isPathClear_iff (s : ChessBoard) (fromRow fromCol toRow toCol : Int)
    (hfrom : isValidPosition fromRow fromCol = true)
    (hto : isValidPosition toRow toCol = true)
    (hne : ¬ (fromRow = toRow ∧ fromCol = toCol))
    (hline : fromRow = toRow ∨ fromCol = toCol ∨
      (toRow - fromRow).natAbs = (toCol - fromCol).natAbs) :
    (isPathClear s fromRow fromCol toRow toCol = true ↔
      ∀ k : Nat, 0 < k → k < max (toRow - fromRow).natAbs (toCol - fromCol).natAbs →
        (s.board (fromRow + k * lineStep fromRow toRow)
          (fromCol + k * lineStep fromCol toCol)).symbol = EMPTY) ∧
    (∀ t : ChessBoard,
      (∀ r c : Int, ¬ (r = fromRow ∧ c = fromCol) → ¬ (r = toRow ∧ c = toCol) →
        t.board r c = s.board r c) →
      isPathClear t fromRow fromCol toRow toCol = isPathClear s fromRow fromCol toRow toCol) ∧
    ((toRow - fromRow).natAbs ≤ 1 → (toCol - fromCol).natAbs ≤ 1 →
      isPathClear s fromRow fromCol toRow toCol = true) := by
  refine ⟨isPathClear_between s fromRow fromCol toRow toCol hfrom hto hne hline, ?_, ?_⟩
  · intro t hagree
    rw [Bool.eq_iff_iff, isPathClear_between s fromRow fromCol toRow toCol hfrom hto hne hline,
      isPathClear_between t fromRow fromCol toRow toCol hfrom hto hne hline]
    constructor
    · intro h k hk0 hk
      have hb := between_ne_ends fromRow fromCol toRow toCol k hk0 hk
      rw [← hagree _ _ hb.1 hb.2]
      exact h k hk0 hk
    · intro h k hk0 hk
      have hb := between_ne_ends fromRow fromCol toRow toCol k hk0 hk
      rw [hagree _ _ hb.1 hb.2]
      exact h k hk0 hk
  · intro h1 h2
    rw [isPathClear_between s fromRow fromCol toRow toCol hfrom hto hne hline]
    intro k hk0 hk
    omega

/-- C32 at concrete inputs: in the initial position the path a1-a3 is blocked
by the pawn on a2, and the path between the adjacent squares e2 and e3 is
clear. -/
theorem isPathClear_iff_witness :
    isPathClear initialBoard 7 0 5 0 = false ∧ isPathClear initialBoard 6 4 5 4 = true := by
  constructor
  · rw [← Bool.not_eq_true]
    intro h
    have h2 := (isPathClear_iff initialBoard 7 0 5 0 (by decide) (by decide) (by decide)
      (Or.inr (Or.inl rfl))).1.mp h 1 (by decide) (by decide)
    revert h2
    decide
  · exact (isPathClear_iff initialBoard 6 4 5 4 (by decide) (by decide) (by decide)
      (Or.inr (Or.inl rfl))).2.2 (by decide) (by decide)

/-! ## No en passant capture in a game from the initial position -/

theorem enPassantOpen_of_same (s t : ChessBoard) (hfrom : t.lastMoveFrom = s.lastMoveFrom)
    (hto : t.lastMoveTo = s.lastMoveTo)
    (hsym : ∀ r c, (t.board r c).symbol = (s.board r c).symbol)
    (h : enPassantOpen t) : enPassantOpen s := by
  obtain ⟨c, h⟩ := h
  rw [hfrom, hto, hsym, hsym] at h
  exact ⟨c, h⟩

/-- A call of `movePiece`, accepted or not, leaves a state in which no en
passant test of `isValidMove` can succeed, when it starts from such a state. -/
theorem not_enPassantOpen_movePiece (s : ChessBoard) (move : String) (w : Bool)
    (promotion : Char) (wc bc : List Char) (hrook : RooksCarryColour s)
    (hep : ¬ enPassantOpen s) :
    ¬ enPassantOpen (movePiece s move w promotion wc bc).state := by
  cases hok : (movePiece s move w promotion wc bc).ok
  · rcases movePiece_cases s move w promotion wc bc with
      h | ⟨m0, m1, m3, m4, -, hfrom, hto, -, -, h⟩
    · rw [h]; exact hep
    · have hsc := isValidMove_scalars s (s.board (decodeRow m1) (decodeCol m0))
        (decodeRow m1) (decodeCol m0) (decodeRow m4) (decodeCol m3)
      have hsym := isValidMove_symbol s (s.board (decodeRow m1) (decodeCol m0))
        (decodeRow m1) (decodeCol m0) (decodeRow m4) (decodeCol m3) hrook
      rcases h with ⟨-, h⟩ | ⟨hv, h⟩
      · rw [h]
        exact fun h2 => hep (enPassantOpen_of_same s _ hsc.1 hsc.2.1 hsym h2)
      · rw [h] at hok ⊢
        rw [movePieceCore_ok] at hok
        have hchk : isKingInCheck (speculativeState
            (isValidMove s (s.board (decodeRow m1) (decodeCol m0)) (decodeRow m1) (decodeCol m0)
              (decodeRow m4) (decodeCol m3)).2
            (s.board (decodeRow m1) (decodeCol m0)) (decodeRow m1) (decodeCol m0)
            (decodeRow m4) (decodeCol m3) promotion) w = true := by
          simpa using hok
        rw [movePieceCore_reject _ _ _ _ _ _ _ _ _ _ hchk]
        simp only
        rw [undoneGrid_after_isValidMove s _ _ _ _ _ promotion hrook hto hv]
        exact fun h2 => hep (enPassantOpen_of_same s _ hsc.1 hsc.2.1 hsym h2)
  · exact not_enPassantOpen_after_accept s move w promotion wc bc hok

theorem not_enPassantOpen_runCalls (r : MoveResult) (calls : List Call)
    (hrook : RooksCarryColour r.state) (hep : ¬ enPassantOpen r.state) :
    ¬ enPassantOpen (runCalls r calls).state := by
  induction calls generalizing r with
  | nil => exact hep
  | cons k rest ih =>
    rw [runCalls]
    exact ih _ (rooksCarryColour_movePiece _ _ _ _ _ _ hrook)
      (not_enPassantOpen_movePiece _ _ _ _ _ _ hrook hep)

/-- Where no en passant test can succeed, a pawn move that `isValidMove`
accepts raises no en passant flag; when it changes the column it goes one
row forward and one column sideways onto an occupied square of the other
colour, and when it keeps the column it goes onto an empty square. -/
theorem pawn_move_closed (s : ChessBoard) (piece : ChessPiece)
    (fromRow fromCol toRow toCol : Int) (hrook : RooksCarryColour s)
    (hep : ¬ enPassantOpen s)
    (hp : piece.symbol = WHITE_PAWN ∨ piece.symbol = BLACK_PAWN)
    (hv : (isValidMove s piece fromRow fromCol toRow toCol).1 = true) :
    isEnPassantFlag s.board piece fromCol toRow toCol = false ∧
    (fromCol ≠ toCol →
      (s.board toRow toCol).symbol ≠ EMPTY ∧
      (s.board toRow toCol).isWhite ≠ piece.isWhite ∧
      (toCol = fromCol + 1 ∨ toCol = fromCol - 1) ∧
      (piece.symbol = WHITE_PAWN → toRow = fromRow - 1) ∧
      (piece.symbol = BLACK_PAWN → toRow = fromRow + 1)) ∧
    (fromCol = toCol → (s.board toRow toCol).symbol = EMPTY) := by
  have hbw : ¬ (BLACK_PAWN = WHITE_PAWN) := by decide
  have hocc : (s.board toRow toCol).symbol ≠ EMPTY →
      (s.board toRow toCol).isWhite ≠ piece.isWhite ∧
      (toCol = fromCol + 1 ∨ toCol = fromCol - 1) ∧
      (piece.symbol = WHITE_PAWN → toRow = fromRow - 1) ∧
      (piece.symbol = BLACK_PAWN → toRow = fromRow + 1) := by
    intro hne
    have hatt := isValidMove_occupied_attack s piece fromRow fromCol toRow toCol hrook hep hne hv
    have hother : (s.board toRow toCol).isWhite ≠ piece.isWhite := by
      intro hsame
      rw [isValidMove_reject_door s piece fromRow fromCol toRow toCol
        (Or.inr (Or.inr (Or.inr ⟨hne, hsame⟩)))] at hv
      exact absurd hv (by simp)
    rcases hp with hp | hp
    · obtain ⟨h1, h2, -, -⟩ := (canPieceAttack_white_pawn s piece _ _ _ _ hp).mp hatt
      exact ⟨hother, h2, fun _ => h1, fun h => absurd (hp.symm.trans h).symm hbw⟩
    · obtain ⟨h1, h2, -, -⟩ := (canPieceAttack_black_pawn s piece _ _ _ _ hp).mp hatt
      exact ⟨hother, h2, fun h => absurd (hp.symm.trans h) hbw, fun _ => h1⟩
  refine ⟨isEnPassantFlag_false_of_closed s piece fromRow fromCol toRow toCol hep hv, ?_, ?_⟩
  · intro hcol
    have hne : (s.board toRow toCol).symbol ≠ EMPTY := by
      intro hempty
      exact hep ⟨toCol, pawn_sideways_onto_empty s piece fromRow fromCol toRow toCol hp hcol
        hempty hv⟩
    exact ⟨hne, hocc hne⟩
  · intro hcol
    by_contra hne
    have h2 := (hocc hne).2.1
    omega

/-- C31: in the state left by an accepted call of `movePiece` on any prior
state, `isValidMove` rejects every move of a piece with a pawn symbol that
changes the column onto an empty square (in particular every pawn move one
square diagonally forward onto an empty square, for both colours).  Hence in a
game played from the initial position through calls of `movePiece`, every
accepted move of a pawn leaves the en passant flag of `movePiece` false; when
it changes the column it goes one row forward (row - 1 for `P`, row + 1 for
`p`) and one column sideways onto a non-empty square of the other colour, and
when it keeps the column it goes onto an empty square. -/
theorem no_en_passant_in_game (s : ChessBoard) (move : String) (w : Bool) (promotion : Char)
    (wc bc : List Char) (piece : ChessPiece) (fromRow fromCol toRow toCol : Int)
    (calls : List Call) (m0 m1 m3 m4 : Char) (w2 : Bool) (promotion2 : Char) :
    ((movePiece s move w promotion wc bc).ok = true →
      (piece.symbol = WHITE_PAWN ∨ piece.symbol = BLACK_PAWN) →
      fromCol ≠ toCol →
      ((movePiece s move w promotion wc bc).state.board toRow toCol).symbol = EMPTY →
      (isValidMove (movePiece s move w promotion wc bc).state piece
        fromRow fromCol toRow toCol).1 = false) ∧
    ((movePiece (runCalls newGame calls).state (String.mk [m0, m1, ' ', m3, m4]) w2 promotion2
        (runCalls newGame calls).whiteCaptures (runCalls newGame calls).blackCaptures).ok = true →
      ((runCalls newGame calls).state.board (decodeRow m1) (decodeCol m0)).symbol = WHITE_PAWN ∨
        ((runCalls newGame calls).state.board (decodeRow m1) (decodeCol m0)).symbol =
          BLACK_PAWN →
      isEnPassantFlag
        (isValidMove (runCalls newGame calls).state
          ((runCalls newGame calls).state.board (decodeRow m1) (decodeCol m0))
          (decodeRow m1) (decodeCol m0) (decodeRow m4) (decodeCol m3)).2.board
        ((runCalls newGame calls).state.board (decodeRow m1) (decodeCol m0))
        (decodeCol m0) (decodeRow m4) (decodeCol m3) = false ∧
      (decodeCol m0 ≠ decodeCol m3 →
        ((runCalls newGame calls).state.board (decodeRow m4) (decodeCol m3)).symbol ≠ EMPTY ∧
        ((runCalls newGame calls).state.board (decodeRow m4) (decodeCol m3)).isWhite ≠
          ((runCalls newGame calls).state.board (decodeRow m1) (decodeCol m0)).isWhite ∧
        (decodeCol m3 = decodeCol m0 + 1 ∨ decodeCol m3 = decodeCol m0 - 1) ∧
        (((runCalls newGame calls).state.board (decodeRow m1) (decodeCol m0)).symbol =
            WHITE_PAWN → decodeRow m4 = decodeRow m1 - 1) ∧
        (((runCalls newGame calls).state.board (decodeRow m1) (decodeCol m0)).symbol =
            BLACK_PAWN → decodeRow m4 = decodeRow m1 + 1)) ∧
      (decodeCol m0 = decodeCol m3 →
        ((runCalls newGame calls).state.board (decodeRow m4) (decodeCol m3)).symbol = EMPTY)) := by
  constructor
  · intro hacc hp hcol hempty
    rw [← Bool.not_eq_true]
    intro hv
    rcases pawn_sideways_onto_empty _ piece fromRow fromCol toRow toCol hp hcol hempty hv
      with h | h
    · exact (no_en_passant_after_accept s move w promotion wc bc hacc toCol).1 h
    · exact (no_en_passant_after_accept s move w promotion wc bc hacc toCol).2 h
  · intro hacc hp
    have hrook : RooksCarryColour (runCalls newGame calls).state :=
      rooksCarryColour_runCalls newGame calls rooksCarryColour_initialBoard
    have hep : ¬ enPassantOpen (runCalls newGame calls).state :=
      not_enPassantOpen_runCalls newGame calls rooksCarryColour_initialBoard
        not_enPassantOpen_initialBoard
    obtain ⟨-, -, -, -, hv, -, -⟩ := movePiece_accept_eq _ m0 m1 m3 m4 w2 promotion2 _ _ hacc
    obtain ⟨h1, h2, h3⟩ := pawn_move_closed (runCalls newGame calls).state _ _ _ _ _ hrook hep
      hp hv
    refine ⟨?_, h2, h3⟩
    rw [isEnPassantFlag_congr _ (runCalls newGame calls).state.board _ _ _ _
      (isValidMove_symbol _ _ _ _ _ _ hrook _ _)]
    exact h1

/-- C31 at concrete inputs: after the accepted move `e2 e4` from the initial
position, `isValidMove` rejects the move of the white d-pawn from d2 to the
empty square e3; and after `e2 e4`, `d7 d5` the accepted pawn move `e4 d5`,
which changes its column, goes onto a non-empty square of the other colour. -/
theorem no_en_passant_in_game_witness :
    (isValidMove (movePiece initialBoard "e2 e4" true 'Q' [] []).state
      ((movePiece initialBoard "e2 e4" true 'Q' [] []).state.board 6 3) 6 3 5 4).1 = false ∧
    ((runCalls newGame [⟨"e2 e4", true, 'Q'⟩, ⟨"d7 d5", false, 'Q'⟩]).state.board
      (decodeRow '5') (decodeCol 'd')).symbol ≠ EMPTY ∧
    ((runCalls newGame [⟨"e2 e4", true, 'Q'⟩, ⟨"d7 d5", false, 'Q'⟩]).state.board
      (decodeRow '5') (decodeCol 'd')).isWhite ≠
      ((runCalls newGame [⟨"e2 e4", true, 'Q'⟩, ⟨"d7 d5", false, 'Q'⟩]).state.board
        (decodeRow '4') (decodeCol 'e')).isWhite :=
  ⟨(no_en_passant_in_game initialBoard "e2 e4" true 'Q' [] []
      ((movePiece initialBoard "e2 e4" true 'Q' [] []).state.board 6 3) 6 3 5 4
      [] 'e' '2' 'e' '4' true 'Q').1 (by decide) (Or.inl (by decide)) (by decide) (by decide),
   (((no_en_passant_in_game initialBoard "e2 e4" true 'Q' [] []
      ((movePiece initialBoard "e2 e4" true 'Q' [] []).state.board 6 3) 6 3 5 4
      [⟨"e2 e4", true, 'Q'⟩, ⟨"d7 d5", false, 'Q'⟩] 'e' '4' 'd' '5' true 'Q').2
        (by decide!) (Or.inl (by decide!))).2.1 (by decide)).1,
   (((no_en_passant_in_game initialBoard "e2 e4" true 'Q' [] []
      ((movePiece initialBoard "e2 e4" true 'Q' [] []).state.board 6 3) 6 3 5 4
      [⟨"e2 e4", true, 'Q'⟩, ⟨"d7 d5", false, 'Q'⟩] 'e' '4' 'd' '5' true 'Q').2
        (by decide!) (Or.inl (by decide!))).2.1 (by decide)).2.1⟩

end ChessGame
